import Mathlib

/-!
Verification of the hjson-cpp decoder (`src/hjson_decode.cpp`) and its
nanobind wrapper (`nanobind/hjcpp.cpp`).

The C++ code is shallowly embedded: the input buffer is a `List Nat` of
bytes, the scanner state is an explicit `Parser` structure, every C++
loop is a well-founded recursion over the remaining input, and exceptions
are modelled with `Except`.  `tryParseNumber` is external to the decoder
(the spec treats it as a black box), so every definition that needs it
takes it as an explicit function argument `tn`.
-/

namespace Hjson

/-- Bytes of an ASCII string literal. -/
def ascii (s : String) : List Nat := s.data.map Char.toNat

/-- `std::isspace` in the C locale, on an unsigned-char value. -/
def isSpaceByte (c : Nat) : Bool :=
  c == 32 || c == 9 || c == 10 || c == 11 || c == 12 || c == 13

/-- `_isPunctuatorChar` from hjson_decode.cpp. -/
def isPunctuatorChar (c : Nat) : Bool :=
  c == 123 || c == 125 || c == 91 || c == 93 || c == 44 || c == 58

/-- Substring `[a, b)` of a byte buffer (`std::string(data + a, data + b)`). -/
def substr (data : List Nat) (a b : Nat) : List Nat :=
  (data.drop a).take (b - a)

/-- Decidable substring containment, used to state facts about error messages. -/
def containsSeg (hay pat : List Nat) : Bool :=
  (List.range (hay.length + 1)).any (fun i => (hay.drop i).take pat.length == pat)

mutual
/-- Modelled from the spec: the tagged variant underlying `Hjson::Value`
(`Null | Bool | Int64 | Double | String | Vector | Map` plus the
"undefined" sentinel of fresh default-constructed Values).  The value
tree itself lives in `hjson_value.cpp`, which is not part of the sources;
only the operations §4.6 of the spec requires are modelled.  The payload
of `double_` is kept opaque (a tag produced by the external
`tryParseNumber`), since the decoder never computes with it. -/
inductive VCore where
  | undefined : VCore
  | null : VCore
  | bool : Bool → VCore
  | int64 : Int → VCore
  | double_ : Int → VCore
  | str : List Nat → VCore
  | vec : List Value → VCore
  | map : List (List Nat × Value) → VCore

/-- Modelled from the spec: a `Hjson::Value` = core variant plus the four
comment slots (`comment_before`, `comment_key`, `comment_inside`,
`comment_after`) every node carries. -/
inductive Value where
  | mk : VCore → List Nat → List Nat → List Nat → List Nat → Value
end

namespace Value

def core : Value → VCore
  | .mk c _ _ _ _ => c

def cmBefore : Value → List Nat
  | .mk _ b _ _ _ => b

def cmKey : Value → List Nat
  | .mk _ _ k _ _ => k

def cmInside : Value → List Nat
  | .mk _ _ _ i _ => i

def cmAfter : Value → List Nat
  | .mk _ _ _ _ a => a

/-- A fresh default-constructed `Hjson::Value` (type Undefined). -/
def default_ : Value := .mk .undefined [] [] [] []

def ofCore (c : VCore) : Value := .mk c [] [] [] []

def setCmBefore : Value → List Nat → Value
  | .mk c _ k i a, b => .mk c b k i a

def setCmKey : Value → List Nat → Value
  | .mk c b _ i a, k => .mk c b k i a

def setCmInside : Value → List Nat → Value
  | .mk c b k _ a, i => .mk c b k i a

def setCmAfter : Value → List Nat → Value
  | .mk c b k i _, a => .mk c b k i a

/-- Modelled from the spec: `defined()` is true iff the type is not the
undefined sentinel. -/
def defined : Value → Bool
  | .mk .undefined _ _ _ _ => false
  | _ => true

/-- Modelled from the spec: reading `map[key]`; a missing key reads as an
undefined placeholder. -/
def mapGet (v : Value) (k : List Nat) : Value :=
  match v.core with
  | .map xs =>
    match xs.find? (fun e => e.1 == k) with
    | some e => e.2
    | none => default_
  | _ => default_

/-- Modelled from the spec: `map[key].assign_with_comments(elem)` — insert
or replace the entry wholesale (comments included), keeping insertion
order; a replaced key keeps its original position. -/
def mapSet : Value → List Nat → Value → Value
  | .mk (.map xs) b k i a, key, elem =>
    if xs.any (fun e => e.1 == key) then
      .mk (.map (xs.map (fun e => if e.1 == key then (key, elem) else e))) b k i a
    else
      .mk (.map (xs ++ [(key, elem)])) b k i a
  | v, _, _ => v

/-- Modelled from the spec: `map.erase(key)`. -/
def mapErase : Value → List Nat → Value
  | .mk (.map xs) b k i a, key => .mk (.map (xs.filter (fun e => e.1 != key))) b k i a
  | v, _ => v

/-- Modelled from the spec: `push_back` on a Vector. -/
def pushBack : Value → Value → Value
  | .mk (.vec xs) b k i a, elem => .mk (.vec (xs ++ [elem])) b k i a
  | v, _ => v

/-- Modelled from the spec: container `size()` (0 for scalars). -/
def size (v : Value) : Nat :=
  match v.core with
  | .vec xs => xs.length
  | .map xs => xs.length
  | _ => 0

/-- Modelled from the spec: `empty()` on a container. -/
def isEmptyC (v : Value) : Bool := v.size == 0

/-- Update the last map element in insertion order (used by the decoder for
`object[object.size()-1]` at a braceless root's EOF). -/
def mapModifyLast : Value → (Value → Value) → Value
  | .mk (.map xs) b k i a, f =>
    match xs.getLast? with
    | some last => .mk (.map (xs.dropLast ++ [(last.1, f last.2)])) b k i a
    | none => .mk (.map xs) b k i a
  | v, _ => v

/-- `Type::Map` test (`val.type() == Hjson::Type::Map`). -/
def isMap (v : Value) : Bool :=
  match v.core with
  | .map _ => true
  | _ => false

end Value

/-- The four error categories of §7, plus the artificial `fuelOut` used by
the fuel-indexed parse loop (the termination theorem shows it is never
reached), and `logicErr` for `std::logic_error`. -/
inductive Err where
  | syn : List Nat → Err
  | typeMismatch : List Nat → Err
  | indexOob : List Nat → Err
  | runtimeErr : List Nat → Err
  | logicErr : List Nat → Err
  | fuelOut : Err
deriving DecidableEq

/-- `DecoderOptions` (the fields the decoder reads). The duplicate-key
handler mutates both the key and the in-progress map through references in
C++; here it returns the pair. -/
structure DecoderOptions where
  comments : Bool := false
  whitespaceAsComments : Bool := false
  duplicateKeyException : Bool := false
  duplicateKeyHandler : Option (List Nat → Value → (List Nat × Value)) := none

/-- `CommentInfo` from hjson_decode.cpp. -/
structure CommentInfo where
  hasComment : Bool := false
  cmStart : Nat := 0
  cmEnd : Nat := 0

/-- The parser states of the explicit state machine. -/
inductive ParseState where
  | valueBegin | valueEnd | vectorBegin | vectorElemEnd
  | mapBegin | mapElemBegin | mapElemEnd
deriving DecidableEq

/-- `DecodeParent` from hjson_decode.cpp: per-container scratch frame. -/
structure DecodeParent where
  val : Value := Value.default_
  ciBefore : CommentInfo := {}
  ciKey : CommentInfo := {}
  ciElemBefore : CommentInfo := {}
  ciElemExtra : CommentInfo := {}
  key : List Nat := []
  isRoot : Bool := false

/-- The `Parser` structure: buffer, cursor (`indexNext` points one past the
current character `ch`), the braceless-root flag, the options and the two
parallel stacks (head of the list = top of the C++ vector). -/
structure Parser where
  data : List Nat
  indexNext : Nat
  ch : Nat
  withoutBraces : Bool
  opt : DecoderOptions
  vState : List ParseState := []
  vParent : List DecodeParent := []

namespace Parser

def dataSize (p : Parser) : Nat := p.data.length

end Parser

/-- `_next`: advance the cursor. At EOF `indexNext` still increments (so
error reporting can distinguish) and `ch` becomes the sentinel 0. -/
def next (p : Parser) : Parser :=
  if p.indexNext < p.data.length then
    { p with ch := p.data.getD p.indexNext 0, indexNext := p.indexNext + 1 }
  else
    { p with ch := 0, indexNext := p.indexNext + 1 }

/-- Whether `_next` would return `true` (it consumed a real byte). -/
def nextOk (p : Parser) : Bool := p.indexNext < p.data.length

/-- `_resetAt`. -/
def resetAt (p : Parser) : Parser := next { p with indexNext := 0 }

/-- `_peek`: look at `data[indexNext + offs]`, 0 when out of range. -/
def peek (p : Parser) (offs : Int) : Nat :=
  let pos : Int := (p.indexNext : Int) + offs
  if 0 ≤ pos ∧ pos < (p.data.length : Int) then p.data.getD pos.toNat 0 else 0

/-- Termination measure for the `ch > 0`-guarded scanner loops: remaining
input plus one for a live `ch`.  It strictly decreases across `next`
whenever `ch ≠ 0` and never increases. -/
def pm (p : Parser) : Nat :=
  (p.data.length + 1 - p.indexNext) + (if p.ch = 0 then 0 else 1)

/-- Termination measure for the `while(_next(p))`-style loops: remaining
input only.  It strictly decreases across a successful `next`. -/
def rm (p : Parser) : Nat := p.data.length + 1 - p.indexNext

theorem pm_next_le (p : Parser) : pm (next p) ≤ pm p := by
  unfold pm next
  by_cases hlt : p.indexNext < p.data.length
  · rw [if_pos hlt]; dsimp only
    have h1 : (if p.data.getD p.indexNext 0 = 0 then (0:Nat) else 1) ≤ 1 := by
      split <;> omega
    omega
  · rw [if_neg hlt]; dsimp only
    have h1 : (if (0:Nat) = 0 then (0:Nat) else 1) = 0 := by simp
    rw [h1]
    omega

theorem pm_next_lt (p : Parser) (h : p.ch ≠ 0) : pm (next p) < pm p := by
  unfold pm next
  rw [if_neg h]
  by_cases hlt : p.indexNext < p.data.length
  · rw [if_pos hlt]; dsimp only
    have h1 : (if p.data.getD p.indexNext 0 = 0 then (0:Nat) else 1) ≤ 1 := by
      split <;> omega
    omega
  · rw [if_neg hlt]; dsimp only
    have h1 : (if (0:Nat) = 0 then (0:Nat) else 1) = 0 := by simp
    rw [h1]
    omega

theorem rm_next_le (p : Parser) : rm (next p) ≤ rm p := by
  unfold rm next
  split <;> dsimp only <;> omega

theorem rm_next_lt_of_nextOk (p : Parser) (h : nextOk p = true) :
    rm (next p) < rm p := by
  unfold nextOk at h
  simp only [decide_eq_true_eq] at h
  unfold rm next
  rw [if_pos h]; dsimp only
  omega

theorem next_data (p : Parser) : (next p).data = p.data := by
  unfold next; split <;> rfl

theorem next_opt (p : Parser) : (next p).opt = p.opt := by
  unfold next; split <;> rfl

/-- Walk backwards from `i` to the previous newline (or index 0): the first
`for` loop of `_errAt`; returns the stopping index. -/
def lineStartIdx (data : List Nat) : Nat → Nat
  | 0 => 0
  | i + 1 => if data.getD (i + 1) 0 ≠ 10 then lineStartIdx data i else i + 1

/-- Number of newlines at indices `1..i` of the buffer: the second `for`
loop of `_errAt`. -/
def newlineCount (data : List Nat) : Nat → Nat
  | 0 => 0
  | i + 1 => (if data.getD (i + 1) 0 = 10 then 1 else 0) + newlineCount data i

/-- `_errAt`: decorate a message with `" at line L,C >>> <context>"`, but
only when the buffer is non-empty and the cursor has not run past its end.
-/
def errAt (p : Parser) (message : List Nat) : List Nat :=
  if 0 < p.data.length ∧ p.indexNext ≤ p.data.length then
    let decoderIndex := max 1 (min p.data.length p.indexNext) - 1
    let ls := lineStartIdx p.data decoderIndex
    let col := decoderIndex - ls
    let line := 1 + newlineCount p.data ls
    let samEnd := min 20 (p.data.length - (decoderIndex - col))
    message ++ ascii " at line " ++ ascii (toString line) ++ ascii "," ++
      ascii (toString col) ++ ascii " >>> " ++
      substr p.data (decoderIndex - col) (decoderIndex - col + samEnd)
  else
    message

/-- `_escapee`. -/
def escapee (c : Nat) : Nat :=
  if c == 34 || c == 39 || c == 92 || c == 47 then c
  else if c == 98 then 8
  else if c == 102 then 12
  else if c == 110 then 10
  else if c == 114 then 13
  else if c == 116 then 9
  else 0

/-!
Every C++ loop below is written as a structural recursion on an explicit
fuel argument; the public wrapper passes `pm`/`rm` of the entry state plus
one, the `…_stable` lemma shows any fuel above the measure gives the same
result, and the `…_eq` lemma recovers the natural one-step unfolding, so
the wrapper is exactly the C++ loop.
-/

/-- `while (p->ch > 0 && p->ch <= ' ')`: whitespace skip of `_white`. -/
def whiteSkipWsF : Nat → Parser → Parser
  | 0, p => p
  | f + 1, p => if 0 < p.ch ∧ p.ch ≤ 32 then whiteSkipWsF f (next p) else p

def whiteSkipWs (p : Parser) : Parser := whiteSkipWsF (pm p + 1) p

theorem whiteSkipWsF_stable : ∀ (f g : Nat) (p : Parser), pm p < f → pm p < g →
    whiteSkipWsF f p = whiteSkipWsF g p := by
  intro f
  induction f with
  | zero => intro g p hf; omega
  | succ f ih =>
    intro g p hf hg
    cases g with
    | zero => omega
    | succ g =>
      show (if _ then whiteSkipWsF f (next p) else p) =
        (if _ then whiteSkipWsF g (next p) else p)
      split
      · next hgd =>
        exact ih g (next p) (by have := pm_next_lt p (by omega); omega)
          (by have := pm_next_lt p (by omega); omega)
      · rfl

theorem whiteSkipWs_eq (p : Parser) :
    whiteSkipWs p = if 0 < p.ch ∧ p.ch ≤ 32 then whiteSkipWs (next p) else p := by
  show whiteSkipWsF (pm p + 1) p = _
  show (if _ then whiteSkipWsF (pm p) (next p) else p) = _
  split
  · next h =>
    exact whiteSkipWsF_stable (pm p) (pm (next p) + 1) (next p)
      (pm_next_lt p (by omega)) (Nat.lt_succ_self _)
  · rfl

/-- `while (p->ch > 0 && p->ch <= ' ' && p->ch != '\n')`: whitespace skip
of `_getCommentAfter` (and of `_readMLString`'s preamble), stopping at end
of line. -/
def whiteSkipWsToEolF : Nat → Parser → Parser
  | 0, p => p
  | f + 1, p =>
    if 0 < p.ch ∧ p.ch ≤ 32 ∧ p.ch ≠ 10 then whiteSkipWsToEolF f (next p) else p

def whiteSkipWsToEol (p : Parser) : Parser := whiteSkipWsToEolF (pm p + 1) p

theorem whiteSkipWsToEolF_stable : ∀ (f g : Nat) (p : Parser), pm p < f → pm p < g →
    whiteSkipWsToEolF f p = whiteSkipWsToEolF g p := by
  intro f
  induction f with
  | zero => intro g p hf; omega
  | succ f ih =>
    intro g p hf hg
    cases g with
    | zero => omega
    | succ g =>
      show (if _ then whiteSkipWsToEolF f (next p) else p) =
        (if _ then whiteSkipWsToEolF g (next p) else p)
      split
      · next hgd =>
        exact ih g (next p) (by have := pm_next_lt p (by omega); omega)
          (by have := pm_next_lt p (by omega); omega)
      · rfl

theorem whiteSkipWsToEol_eq (p : Parser) :
    whiteSkipWsToEol p =
      if 0 < p.ch ∧ p.ch ≤ 32 ∧ p.ch ≠ 10 then whiteSkipWsToEol (next p) else p := by
  show whiteSkipWsToEolF (pm p + 1) p = _
  show (if _ then whiteSkipWsToEolF (pm p) (next p) else p) = _
  split
  · next h =>
    exact whiteSkipWsToEolF_stable (pm p) (pm (next p) + 1) (next p)
      (pm_next_lt p (by omega)) (Nat.lt_succ_self _)
  · rfl

/-- `while (p->ch > 0 && p->ch != '\n')`: skip the rest of a `#` or `//`
comment line. -/
def skipToEolF : Nat → Parser → Parser
  | 0, p => p
  | f + 1, p => if 0 < p.ch ∧ p.ch ≠ 10 then skipToEolF f (next p) else p

def skipToEol (p : Parser) : Parser := skipToEolF (pm p + 1) p

theorem skipToEolF_stable : ∀ (f g : Nat) (p : Parser), pm p < f → pm p < g →
    skipToEolF f p = skipToEolF g p := by
  intro f
  induction f with
  | zero => intro g p hf; omega
  | succ f ih =>
    intro g p hf hg
    cases g with
    | zero => omega
    | succ g =>
      show (if _ then skipToEolF f (next p) else p) =
        (if _ then skipToEolF g (next p) else p)
      split
      · next hgd =>
        exact ih g (next p) (by have := pm_next_lt p (by omega); omega)
          (by have := pm_next_lt p (by omega); omega)
      · rfl

theorem skipToEol_eq (p : Parser) :
    skipToEol p = if 0 < p.ch ∧ p.ch ≠ 10 then skipToEol (next p) else p := by
  show skipToEolF (pm p + 1) p = _
  show (if _ then skipToEolF (pm p) (next p) else p) = _
  split
  · next h =>
    exact skipToEolF_stable (pm p) (pm (next p) + 1) (next p)
      (pm_next_lt p (by omega)) (Nat.lt_succ_self _)
  · rfl

/-- `while (p->ch > 0 && !(p->ch == '*' && _peek(p, 0) == '/'))`: skip the
interior of a block comment. -/
def skipBlockCommentF : Nat → Parser → Parser
  | 0, p => p
  | f + 1, p =>
    if 0 < p.ch ∧ ¬(p.ch = 42 ∧ peek p 0 = 47) then skipBlockCommentF f (next p)
    else p

def skipBlockComment (p : Parser) : Parser := skipBlockCommentF (pm p + 1) p

theorem skipBlockCommentF_stable : ∀ (f g : Nat) (p : Parser), pm p < f → pm p < g →
    skipBlockCommentF f p = skipBlockCommentF g p := by
  intro f
  induction f with
  | zero => intro g p hf; omega
  | succ f ih =>
    intro g p hf hg
    cases g with
    | zero => omega
    | succ g =>
      show (if _ then skipBlockCommentF f (next p) else p) =
        (if _ then skipBlockCommentF g (next p) else p)
      split
      · next hgd =>
        exact ih g (next p) (by have := pm_next_lt p (by omega); omega)
          (by have := pm_next_lt p (by omega); omega)
      · rfl

theorem skipBlockComment_eq (p : Parser) :
    skipBlockComment p =
      if 0 < p.ch ∧ ¬(p.ch = 42 ∧ peek p 0 = 47) then skipBlockComment (next p)
      else p := by
  show skipBlockCommentF (pm p + 1) p = _
  show (if _ then skipBlockCommentF (pm p) (next p) else p) = _
  split
  · next h =>
    exact skipBlockCommentF_stable (pm p) (pm (next p) + 1) (next p)
      (pm_next_lt p (by omega)) (Nat.lt_succ_self _)
  · rfl

theorem pm_whiteSkipWsF_le (f : Nat) (p : Parser) : pm (whiteSkipWsF f p) ≤ pm p := by
  induction f generalizing p with
  | zero => exact le_rfl
  | succ f ih =>
    show pm (if _ then whiteSkipWsF f (next p) else p) ≤ pm p
    split
    · exact le_trans (ih (next p)) (pm_next_le p)
    · exact le_rfl

theorem pm_whiteSkipWs_le (p : Parser) : pm (whiteSkipWs p) ≤ pm p :=
  pm_whiteSkipWsF_le _ p

theorem pm_whiteSkipWsToEolF_le (f : Nat) (p : Parser) :
    pm (whiteSkipWsToEolF f p) ≤ pm p := by
  induction f generalizing p with
  | zero => exact le_rfl
  | succ f ih =>
    show pm (if _ then whiteSkipWsToEolF f (next p) else p) ≤ pm p
    split
    · exact le_trans (ih (next p)) (pm_next_le p)
    · exact le_rfl

theorem pm_whiteSkipWsToEol_le (p : Parser) : pm (whiteSkipWsToEol p) ≤ pm p :=
  pm_whiteSkipWsToEolF_le _ p

theorem pm_skipToEolF_le (f : Nat) (p : Parser) : pm (skipToEolF f p) ≤ pm p := by
  induction f generalizing p with
  | zero => exact le_rfl
  | succ f ih =>
    show pm (if _ then skipToEolF f (next p) else p) ≤ pm p
    split
    · exact le_trans (ih (next p)) (pm_next_le p)
    · exact le_rfl

theorem pm_skipToEol_le (p : Parser) : pm (skipToEol p) ≤ pm p :=
  pm_skipToEolF_le _ p

theorem pm_skipBlockCommentF_le (f : Nat) (p : Parser) :
    pm (skipBlockCommentF f p) ≤ pm p := by
  induction f generalizing p with
  | zero => exact le_rfl
  | succ f ih =>
    show pm (if _ then skipBlockCommentF f (next p) else p) ≤ pm p
    split
    · exact le_trans (ih (next p)) (pm_next_le p)
    · exact le_rfl

theorem pm_skipBlockComment_le (p : Parser) : pm (skipBlockComment p) ≤ pm p :=
  pm_skipBlockCommentF_le _ p

theorem pm_skipToEol_lt (p : Parser) (h0 : p.ch ≠ 0) (h10 : p.ch ≠ 10) :
    pm (skipToEol p) < pm p := by
  rw [skipToEol_eq]
  rw [if_pos (by omega : 0 < p.ch ∧ p.ch ≠ 10)]
  exact lt_of_le_of_lt (pm_skipToEol_le (next p)) (pm_next_lt p h0)

/-- Common body of the trivia-reader main loops: `skipWs` is the
newline-crossing skip for `_white` and the line-bounded one for
`_getCommentAfter`. -/
def triviaStep (skipWs : Parser → Parser) (p : Parser) : Parser :=
  if 0 < (skipBlockComment (next (next (skipWs p)))).ch then
    next (next (skipBlockComment (next (next (skipWs p)))))
  else skipBlockComment (next (next (skipWs p)))

theorem pm_triviaStep_lt (skipWs : Parser → Parser)
    (hle : ∀ q, pm (skipWs q) ≤ pm q) (p : Parser) (h : (skipWs p).ch ≠ 0) :
    pm (triviaStep skipWs p) < pm p := by
  unfold triviaStep
  refine lt_of_le_of_lt ?_ (lt_of_lt_of_le (pm_next_lt (skipWs p) h) (hle p))
  refine le_trans ?_ (pm_next_le (next (skipWs p)))
  refine le_trans ?_ (pm_skipBlockComment_le (next (next (skipWs p))))
  split
  · exact le_trans (pm_next_le _) (pm_next_le _)
  · exact le_rfl

/-- The main loop of `_white`: skip whitespace and comments, tracking
whether a comment was seen (under the `comments` option). -/
def whiteLoopF : Nat → Parser → Bool → Parser × Bool
  | 0, p, hasC => (p, hasC)
  | f + 1, p, hasC =>
    if 0 < p.ch then
      if (whiteSkipWs p).ch = 35 ∨
          ((whiteSkipWs p).ch = 47 ∧ peek (whiteSkipWs p) 0 = 47) then
        whiteLoopF f (skipToEol (whiteSkipWs p)) (hasC || (whiteSkipWs p).opt.comments)
      else if (whiteSkipWs p).ch = 47 ∧ peek (whiteSkipWs p) 0 = 42 then
        whiteLoopF f (triviaStep whiteSkipWs p) (hasC || (whiteSkipWs p).opt.comments)
      else
        (whiteSkipWs p, hasC)
    else
      (p, hasC)

def whiteLoop (p : Parser) (hasC : Bool) : Parser × Bool := whiteLoopF (pm p + 1) p hasC

theorem whiteLoopF_stable : ∀ (f g : Nat) (p : Parser) (hasC : Bool),
    pm p < f → pm p < g → whiteLoopF f p hasC = whiteLoopF g p hasC := by
  intro f
  induction f with
  | zero => intro g p hasC hf; omega
  | succ f ih =>
    intro g p hasC hf hg
    cases g with
    | zero => omega
    | succ g =>
      show (if 0 < p.ch then _ else _) = (if 0 < p.ch then _ else _)
      by_cases h0 : 0 < p.ch
      · rw [if_pos h0, if_pos h0]
        split
        · next h2 =>
          have hlt : pm (skipToEol (whiteSkipWs p)) < pm p :=
            lt_of_lt_of_le
              (pm_skipToEol_lt (whiteSkipWs p)
                (by rcases h2 with h2 | ⟨h2, _⟩ <;> omega)
                (by rcases h2 with h2 | ⟨h2, _⟩ <;> omega))
              (pm_whiteSkipWs_le p)
          exact ih g _ _ (by omega) (by omega)
        · split
          · next h3 =>
            have hlt : pm (triviaStep whiteSkipWs p) < pm p :=
              pm_triviaStep_lt whiteSkipWs pm_whiteSkipWs_le p (by omega)
            exact ih g _ _ (by omega) (by omega)
          · rfl
      · rw [if_neg h0, if_neg h0]

theorem whiteLoop_eq (p : Parser) (hasC : Bool) :
    whiteLoop p hasC =
      if 0 < p.ch then
        if (whiteSkipWs p).ch = 35 ∨
            ((whiteSkipWs p).ch = 47 ∧ peek (whiteSkipWs p) 0 = 47) then
          whiteLoop (skipToEol (whiteSkipWs p)) (hasC || (whiteSkipWs p).opt.comments)
        else if (whiteSkipWs p).ch = 47 ∧ peek (whiteSkipWs p) 0 = 42 then
          whiteLoop (triviaStep whiteSkipWs p) (hasC || (whiteSkipWs p).opt.comments)
        else
          (whiteSkipWs p, hasC)
      else
        (p, hasC) := by
  show whiteLoopF (pm p + 1) p hasC = _
  show (if 0 < p.ch then _ else _) = _
  by_cases h0 : 0 < p.ch
  · rw [if_pos h0, if_pos h0]
    split
    · next h2 =>
      have hlt : pm (skipToEol (whiteSkipWs p)) < pm p :=
        lt_of_lt_of_le
          (pm_skipToEol_lt (whiteSkipWs p)
            (by rcases h2 with h2 | ⟨h2, _⟩ <;> omega)
            (by rcases h2 with h2 | ⟨h2, _⟩ <;> omega))
          (pm_whiteSkipWs_le p)
      exact whiteLoopF_stable _ _ _ _ (by omega) (Nat.lt_succ_self _)
    · split
      · next h3 =>
        have hlt : pm (triviaStep whiteSkipWs p) < pm p :=
          pm_triviaStep_lt whiteSkipWs pm_whiteSkipWs_le p (by omega)
        exact whiteLoopF_stable _ _ _ _ (by omega) (Nat.lt_succ_self _)
      · rfl
  · rw [if_neg h0, if_neg h0]

/-- The main loop of `_getCommentAfter`: identical to `_white`'s loop except
that whitespace skipping stops at end of line. -/
def gcaLoopF : Nat → Parser → Bool → Parser × Bool
  | 0, p, hasC => (p, hasC)
  | f + 1, p, hasC =>
    if 0 < p.ch then
      if (whiteSkipWsToEol p).ch = 35 ∨
          ((whiteSkipWsToEol p).ch = 47 ∧ peek (whiteSkipWsToEol p) 0 = 47) then
        gcaLoopF f (skipToEol (whiteSkipWsToEol p))
          (hasC || (whiteSkipWsToEol p).opt.comments)
      else if (whiteSkipWsToEol p).ch = 47 ∧ peek (whiteSkipWsToEol p) 0 = 42 then
        gcaLoopF f (triviaStep whiteSkipWsToEol p)
          (hasC || (whiteSkipWsToEol p).opt.comments)
      else
        (whiteSkipWsToEol p, hasC)
    else
      (p, hasC)

def gcaLoop (p : Parser) (hasC : Bool) : Parser × Bool := gcaLoopF (pm p + 1) p hasC

/-- `_white`: skip trivia across newlines, producing the `CommentInfo`
span and flag. -/
def white (p : Parser) : CommentInfo × Parser :=
  let r := whiteLoop p false
  ({ hasComment := r.2 || (p.opt.whitespaceAsComments &&
       decide (p.indexNext - 1 < r.1.indexNext - 1)),
     cmStart := p.indexNext - 1,
     cmEnd := r.1.indexNext - 1 }, r.1)

/-- `_getCommentAfter`: skip trivia up to end of line.  Note that
`hasComment` starts out as `whitespaceAsComments`, with no consumption
test. -/
def getCommentAfter (p : Parser) : CommentInfo × Parser :=
  let r := gcaLoop p p.opt.whitespaceAsComments
  ({ hasComment := r.2,
     cmStart := p.indexNext - 1,
     cmEnd := r.1.indexNext - 1 }, r.1)

/-- The four comment slots, standing in for the member-function pointers
passed to `_setComment`. -/
inductive CommentSlot where
  | before | key | inside | after
deriving DecidableEq

def Value.setSlot (v : Value) (s : CommentSlot) (t : List Nat) : Value :=
  match s with
  | .before => v.setCmBefore t
  | .key => v.setCmKey t
  | .inside => v.setCmInside t
  | .after => v.setCmAfter t

def Value.getSlot (v : Value) (s : CommentSlot) : List Nat :=
  match s with
  | .before => v.cmBefore
  | .key => v.cmKey
  | .inside => v.cmInside
  | .after => v.cmAfter

/-- `_setComment` (single-span overload). -/
def setComment (v : Value) (s : CommentSlot) (p : Parser) (ci : CommentInfo) : Value :=
  if ci.hasComment then v.setSlot s (substr p.data ci.cmStart ci.cmEnd) else v

/-- `_setComment` (two-span overload). -/
def setComment2 (v : Value) (s : CommentSlot) (p : Parser) (ciA ciB : CommentInfo) :
    Value :=
  if ciA.hasComment ∧ ciB.hasComment then
    v.setSlot s (substr p.data ciA.cmStart ciA.cmEnd ++ substr p.data ciB.cmStart ciB.cmEnd)
  else if ¬ciA.hasComment ∧ ¬ciB.hasComment then
    v.setSlot s []
  else
    setComment (setComment v s p ciA) s p ciB

theorem peek_pos_of_ne_zero (p : Parser) (off : Int) (h : peek p off ≠ 0) :
    0 ≤ (p.indexNext : Int) + off := by
  unfold peek at h
  by_contra hneg
  apply h
  rw [if_neg]
  intro hc
  exact absurd hc.1 (by omega)

/-- The backwards `_peek` loop of `_readMLString` measuring the opener's
column. -/
def mlIndentF (p : Parser) : Nat → Nat → Nat
  | 0, i => i
  | f + 1, i =>
    if peek p (-(i : Int) - 5) = 0 ∨ peek p (-(i : Int) - 5) = 10 then i
    else mlIndentF p f (i + 1)

def mlIndentLoop (p : Parser) (i : Nat) : Nat :=
  mlIndentF p (p.indexNext + 1 - i + 1) i

theorem mlIndentF_stable : ∀ (f g : Nat) (p : Parser) (i : Nat),
    p.indexNext + 1 - i < f → p.indexNext + 1 - i < g →
    mlIndentF p f i = mlIndentF p g i := by
  intro f
  induction f with
  | zero => intro g p i hf; omega
  | succ f ih =>
    intro g p i hf hg
    cases g with
    | zero => omega
    | succ g =>
      show (if _ then i else mlIndentF p f (i + 1)) =
        (if _ then i else mlIndentF p g (i + 1))
      split
      · rfl
      · next hcond =>
        have hpos := peek_pos_of_ne_zero p (-(i : Int) - 5)
          (fun hz => hcond (Or.inl hz))
        exact ih g p (i + 1) (by omega) (by omega)

theorem mlIndentLoop_eq (p : Parser) (i : Nat) :
    mlIndentLoop p i =
      if peek p (-(i : Int) - 5) = 0 ∨ peek p (-(i : Int) - 5) = 10 then i
      else mlIndentLoop p (i + 1) := by
  show mlIndentF p (p.indexNext + 1 - i + 1) i = _
  show (if _ then i else mlIndentF p (p.indexNext + 1 - i) (i + 1)) = _
  split
  · rfl
  · next hcond =>
    have hpos := peek_pos_of_ne_zero p (-(i : Int) - 5)
      (fun hz => hcond (Or.inl hz))
    exact mlIndentF_stable _ _ p (i + 1) (by omega) (Nat.lt_succ_self _)

/-- The `skipIndent` lambda of `_readMLString`: skip up to `skip` leading
whitespace characters, stopping at newline or non-whitespace.  Structural
on the remaining skip budget. -/
def skipIndentLoop (p : Parser) : Nat → Parser
  | 0 => p
  | skip + 1 =>
    if 0 < p.ch ∧ p.ch ≤ 32 ∧ p.ch ≠ 10 then skipIndentLoop (next p) skip else p

theorem pm_skipIndentLoop_le (skip : Nat) (p : Parser) :
    pm (skipIndentLoop p skip) ≤ pm p := by
  induction skip generalizing p with
  | zero => exact le_rfl
  | succ skip ih =>
    show pm (if _ then skipIndentLoop (next p) skip else p) ≤ pm p
    split
    · exact le_trans (ih (next p)) (pm_next_le p)
    · exact le_rfl

/-- The main character loop of `_readMLString`: `triple` counts pending
quote characters, `lastLf` whether the last emitted byte was a newline. -/
def mlLoopF (indent : Nat) :
    Nat → List Nat → Nat → Bool → Parser → Except Err (List Nat × Parser)
  | 0, res, _, _, p => .ok (res, p)
  | f + 1, res, triple, lastLf, p =>
    if p.ch = 0 then
      .error (.syn (errAt p (ascii "Bad multiline string")))
    else if p.ch = 39 then
      if triple + 1 = 3 then
        (if lastLf then .ok (res.dropLast, next p) else .ok (res, next p))
      else
        mlLoopF indent f res (triple + 1) lastLf (next p)
    else
      if p.ch = 10 then
        mlLoopF indent f ((res ++ List.replicate triple 39) ++ [10]) 0 true
          (skipIndentLoop (next p) indent)
      else if p.ch = 13 then
        mlLoopF indent f (res ++ List.replicate triple 39) 0
          (if 0 < triple then false else lastLf) (next p)
      else
        mlLoopF indent f ((res ++ List.replicate triple 39) ++ [p.ch]) 0 false (next p)

def mlLoop (indent : Nat) (res : List Nat) (triple : Nat) (lastLf : Bool)
    (p : Parser) : Except Err (List Nat × Parser) :=
  mlLoopF indent (pm p + 1) res triple lastLf p

theorem mlLoopF_stable : ∀ (f g : Nat) (indent : Nat) (res : List Nat)
    (triple : Nat) (lastLf : Bool) (p : Parser), pm p < f → pm p < g →
    mlLoopF indent f res triple lastLf p = mlLoopF indent g res triple lastLf p := by
  intro f
  induction f with
  | zero => intro g indent res triple lastLf p hf; omega
  | succ f ih =>
    intro g indent res triple lastLf p hf hg
    cases g with
    | zero => omega
    | succ g =>
      show (if p.ch = 0 then _ else _) = (if p.ch = 0 then _ else _)
      by_cases h0 : p.ch = 0
      · rw [if_pos h0, if_pos h0]
      · rw [if_neg h0, if_neg h0]
        have hnx := pm_next_lt p h0
        by_cases h39 : p.ch = 39
        · rw [if_pos h39, if_pos h39]
          by_cases ht : triple + 1 = 3
          · rw [if_pos ht, if_pos ht]
          · rw [if_neg ht, if_neg ht]
            exact ih g _ _ _ _ _ (by omega) (by omega)
        · rw [if_neg h39, if_neg h39]
          by_cases h10 : p.ch = 10
          · rw [if_pos h10, if_pos h10]
            have := pm_skipIndentLoop_le indent (next p)
            exact ih g _ _ _ _ _ (by omega) (by omega)
          · rw [if_neg h10, if_neg h10]
            by_cases h13 : p.ch = 13
            · rw [if_pos h13, if_pos h13]
              exact ih g _ _ _ _ _ (by omega) (by omega)
            · rw [if_neg h13, if_neg h13]
              exact ih g _ _ _ _ _ (by omega) (by omega)

theorem mlLoop_eq (indent : Nat) (res : List Nat) (triple : Nat) (lastLf : Bool)
    (p : Parser) :
    mlLoop indent res triple lastLf p =
      if p.ch = 0 then
        .error (.syn (errAt p (ascii "Bad multiline string")))
      else if p.ch = 39 then
        if triple + 1 = 3 then
          (if lastLf then .ok (res.dropLast, next p) else .ok (res, next p))
        else
          mlLoop indent res (triple + 1) lastLf (next p)
      else
        if p.ch = 10 then
          mlLoop indent ((res ++ List.replicate triple 39) ++ [10]) 0 true
            (skipIndentLoop (next p) indent)
        else if p.ch = 13 then
          mlLoop indent (res ++ List.replicate triple 39) 0
            (if 0 < triple then false else lastLf) (next p)
        else
          mlLoop indent ((res ++ List.replicate triple 39) ++ [p.ch]) 0 false
            (next p) := by
  show mlLoopF indent (pm p + 1) res triple lastLf p = _
  show (if p.ch = 0 then _ else _) = _
  by_cases h0 : p.ch = 0
  · rw [if_pos h0, if_pos h0]
  · rw [if_neg h0, if_neg h0]
    have hnx := pm_next_lt p h0
    by_cases h39 : p.ch = 39
    · rw [if_pos h39, if_pos h39]
      by_cases ht : triple + 1 = 3
      · rw [if_pos ht, if_pos ht]
      · rw [if_neg ht, if_neg ht]
        exact mlLoopF_stable _ _ _ _ _ _ _ (by omega) (Nat.lt_succ_self _)
    · rw [if_neg h39, if_neg h39]
      by_cases h10 : p.ch = 10
      · rw [if_pos h10, if_pos h10]
        have := pm_skipIndentLoop_le indent (next p)
        exact mlLoopF_stable _ _ _ _ _ _ _ (by omega) (Nat.lt_succ_self _)
      · rw [if_neg h10, if_neg h10]
        by_cases h13 : p.ch = 13
        · rw [if_pos h13, if_pos h13]
          exact mlLoopF_stable _ _ _ _ _ _ _ (by omega) (Nat.lt_succ_self _)
        · rw [if_neg h13, if_neg h13]
          exact mlLoopF_stable _ _ _ _ _ _ _ (by omega) (Nat.lt_succ_self _)

/-- `_readMLString`: measure the indent, consume trailing inline whitespace
and the newline, then run the body loop. -/
def readMLString (p : Parser) : Except Err (List Nat × Parser) :=
  let indent := mlIndentLoop p 0
  let p1 := whiteSkipWsToEol p
  let p2 := if p1.ch = 10 then skipIndentLoop (next p1) indent else p1
  mlLoop indent [] 0 false p2

theorem nextOk_of_next_ch_ne (p : Parser) (h : (next p).ch ≠ 0) :
    nextOk p = true := by
  unfold next at h
  unfold nextOk
  by_cases hlt : p.indexNext < p.data.length
  · simpa using hlt
  · rw [if_neg hlt] at h
    simp at h

/-- `_toUtf8`: encode a code point as UTF-8 bytes appended to `res`. -/
def toUtf8 (res : List Nat) (uIn : Nat) : Except Err (List Nat) :=
  if uIn < 0x80 then
    .ok (res ++ [uIn])
  else if uIn < 0x800 then
    .ok (res ++ [0xc0 ||| ((uIn >>> 6) &&& 0x1f), 0x80 ||| (uIn &&& 0x3f)])
  else if uIn < 0x10000 then
    .ok (res ++ [0xe0 ||| ((uIn >>> 12) &&& 0xf), 0x80 ||| ((uIn >>> 6) &&& 0x3f),
      0x80 ||| (uIn &&& 0x3f)])
  else if uIn < 0x110000 then
    .ok (res ++ [0xf0 ||| ((uIn >>> 18) &&& 0x7), 0x80 ||| ((uIn >>> 12) &&& 0x3f),
      0x80 ||| ((uIn >>> 6) &&& 0x3f), 0x80 ||| (uIn &&& 0x3f)])
  else
    .error (.logicErr (ascii "Invalid unicode code point"))

/-- One hex nibble of a `\uXXXX` escape. -/
def hexVal (c : Nat) : Option Nat :=
  if 48 ≤ c ∧ c ≤ 57 then some (c - 48)
  else if 97 ≤ c ∧ c ≤ 102 then some (c - 97 + 10)
  else if 65 ≤ c ∧ c ≤ 70 then some (c - 65 + 10)
  else none

/-- The `while (_next(p))` loop of `_readString`. On exit, either the
closing quote was found (possibly switching to multiline mode), or an
error is raised. -/
def readStringLoopF (allowML : Bool) (exitCh : Nat) :
    Nat → List Nat → Parser → Except Err (List Nat × Parser)
  | 0, res, p => .ok (res, p)
  | f + 1, res, p =>
  if nextOk p then
    if (next p).ch = exitCh then
      if allowML ∧ exitCh = 39 ∧ (next (next p)).ch = 39 ∧ res = [] then
        readMLString (next (next (next p)))
      else
        .ok (res, next (next p))
    else if (next p).ch = 92 then
      if (next (next p)).ch = 117 then
        match hexVal (next (next (next p))).ch with
        | none => .error (.syn (errAt (next (next (next p)))
            (ascii "Bad \\u char " ++ [(next (next (next p))).ch])))
        | some n1 =>
        match hexVal (next (next (next (next p)))).ch with
        | none => .error (.syn (errAt (next (next (next (next p))))
            (ascii "Bad \\u char " ++ [(next (next (next (next p)))).ch])))
        | some n2 =>
        match hexVal (next (next (next (next (next p))))).ch with
        | none => .error (.syn (errAt (next (next (next (next (next p)))))
            (ascii "Bad \\u char " ++ [(next (next (next (next (next p))))).ch])))
        | some n3 =>
        match hexVal (next (next (next (next (next (next p)))))).ch with
        | none => .error (.syn (errAt (next (next (next (next (next (next p))))))
            (ascii "Bad \\u char " ++ [(next (next (next (next (next (next p)))))).ch])))
        | some n4 =>
        match toUtf8 res (((n1 * 16 + n2) * 16 + n3) * 16 + n4) with
        | .error e => .error e
        | .ok res1 =>
          readStringLoopF allowML exitCh f res1
            (next (next (next (next (next (next p))))))
      else if escapee (next (next p)).ch ≠ 0 then
        readStringLoopF allowML exitCh f (res ++ [escapee (next (next p)).ch])
          (next (next p))
      else
        .error (.syn (errAt (next (next p))
          (ascii "Bad escape \\" ++ [(next (next p)).ch])))
    else if (next p).ch = 10 ∨ (next p).ch = 13 then
      .error (.syn (errAt (next p) (ascii "Bad string containing newline")))
    else
      readStringLoopF allowML exitCh f (res ++ [(next p).ch]) (next p)
  else
    .error (.syn (errAt (next p) (ascii "Bad string")))

def readStringLoop (allowML : Bool) (exitCh : Nat) (res : List Nat) (p : Parser) :
    Except Err (List Nat × Parser) :=
  readStringLoopF allowML exitCh (rm p + 1) res p

theorem rm_chain6_lt (p : Parser) (hok : nextOk p = true) :
    rm (next (next (next (next (next (next p)))))) < rm p :=
  lt_of_le_of_lt
    (le_trans (rm_next_le _) (le_trans (rm_next_le _) (le_trans (rm_next_le _)
      (le_trans (rm_next_le _) (rm_next_le _)))))
    (rm_next_lt_of_nextOk p hok)

theorem readStringLoopF_stable : ∀ (f g : Nat) (allowML : Bool) (exitCh : Nat)
    (res : List Nat) (p : Parser), rm p < f → rm p < g →
    readStringLoopF allowML exitCh f res p = readStringLoopF allowML exitCh g res p := by
  intro f
  induction f with
  | zero => intro g allowML exitCh res p hf; omega
  | succ f ih =>
    intro g allowML exitCh res p hf hg
    cases g with
    | zero => omega
    | succ g =>
      show (if nextOk p then _ else _) = (if nextOk p then _ else _)
      by_cases hok : nextOk p
      · rw [if_pos hok, if_pos hok]
        have h1 : rm (next p) < rm p := rm_next_lt_of_nextOk p hok
        have h2 : rm (next (next p)) ≤ rm (next p) := rm_next_le _
        have h6 : rm (next (next (next (next (next (next p)))))) < rm p :=
          rm_chain6_lt p hok
        by_cases hq : (next p).ch = exitCh
        · rw [if_pos hq, if_pos hq]
        · rw [if_neg hq, if_neg hq]
          by_cases hbs : (next p).ch = 92
          · rw [if_pos hbs, if_pos hbs]
            by_cases hu : (next (next p)).ch = 117
            · rw [if_pos hu, if_pos hu]
              cases hexVal (next (next (next p))).ch with
              | none => rfl
              | some n1 =>
                dsimp only
                cases hexVal (next (next (next (next p)))).ch with
                | none => rfl
                | some n2 =>
                  dsimp only
                  cases hexVal (next (next (next (next (next p))))).ch with
                  | none => rfl
                  | some n3 =>
                    dsimp only
                    cases hexVal (next (next (next (next (next (next p)))))).ch with
                    | none => rfl
                    | some n4 =>
                      dsimp only
                      cases toUtf8 res (((n1 * 16 + n2) * 16 + n3) * 16 + n4) with
                      | error e => rfl
                      | ok res1 => exact ih g _ _ _ _ (by omega) (by omega)
            · rw [if_neg hu, if_neg hu]
              by_cases he : escapee (next (next p)).ch ≠ 0
              · rw [if_pos he, if_pos he]
                exact ih g _ _ _ _ (by omega) (by omega)
              · rw [if_neg he, if_neg he]
          · rw [if_neg hbs, if_neg hbs]
            by_cases hnl : (next p).ch = 10 ∨ (next p).ch = 13
            · rw [if_pos hnl, if_pos hnl]
            · rw [if_neg hnl, if_neg hnl]
              exact ih g _ _ _ _ (by omega) (by omega)
      · rw [if_neg hok, if_neg hok]

theorem readStringLoop_eq (allowML : Bool) (exitCh : Nat) (res : List Nat)
    (p : Parser) :
    readStringLoop allowML exitCh res p =
      if nextOk p then
        if (next p).ch = exitCh then
          if allowML ∧ exitCh = 39 ∧ (next (next p)).ch = 39 ∧ res = [] then
            readMLString (next (next (next p)))
          else
            .ok (res, next (next p))
        else if (next p).ch = 92 then
          if (next (next p)).ch = 117 then
            match hexVal (next (next (next p))).ch with
            | none => .error (.syn (errAt (next (next (next p)))
                (ascii "Bad \\u char " ++ [(next (next (next p))).ch])))
            | some n1 =>
            match hexVal (next (next (next (next p)))).ch with
            | none => .error (.syn (errAt (next (next (next (next p))))
                (ascii "Bad \\u char " ++ [(next (next (next (next p)))).ch])))
            | some n2 =>
            match hexVal (next (next (next (next (next p))))).ch with
            | none => .error (.syn (errAt (next (next (next (next (next p)))))
                (ascii "Bad \\u char " ++ [(next (next (next (next (next p))))).ch])))
            | some n3 =>
            match hexVal (next (next (next (next (next (next p)))))).ch with
            | none => .error (.syn (errAt (next (next (next (next (next (next p))))))
                (ascii "Bad \\u char " ++
                  [(next (next (next (next (next (next p)))))).ch])))
            | some n4 =>
            match toUtf8 res (((n1 * 16 + n2) * 16 + n3) * 16 + n4) with
            | .error e => .error e
            | .ok res1 =>
              readStringLoop allowML exitCh res1
                (next (next (next (next (next (next p))))))
          else if escapee (next (next p)).ch ≠ 0 then
            readStringLoop allowML exitCh (res ++ [escapee (next (next p)).ch])
              (next (next p))
          else
            .error (.syn (errAt (next (next p))
              (ascii "Bad escape \\" ++ [(next (next p)).ch])))
        else if (next p).ch = 10 ∨ (next p).ch = 13 then
          .error (.syn (errAt (next p) (ascii "Bad string containing newline")))
        else
          readStringLoop allowML exitCh (res ++ [(next p).ch]) (next p)
      else
        .error (.syn (errAt (next p) (ascii "Bad string"))) := by
  show readStringLoopF allowML exitCh (rm p + 1) res p = _
  show (if nextOk p then _ else _) = _
  by_cases hok : nextOk p
  · rw [if_pos hok, if_pos hok]
    have h1 : rm (next p) < rm p := rm_next_lt_of_nextOk p hok
    have h2 : rm (next (next p)) ≤ rm (next p) := rm_next_le _
    have h6 : rm (next (next (next (next (next (next p)))))) < rm p :=
      rm_chain6_lt p hok
    by_cases hq : (next p).ch = exitCh
    · rw [if_pos hq, if_pos hq]
    · rw [if_neg hq, if_neg hq]
      by_cases hbs : (next p).ch = 92
      · rw [if_pos hbs, if_pos hbs]
        by_cases hu : (next (next p)).ch = 117
        · rw [if_pos hu, if_pos hu]
          cases hexVal (next (next (next p))).ch with
          | none => rfl
          | some n1 =>
            dsimp only
            cases hexVal (next (next (next (next p)))).ch with
            | none => rfl
            | some n2 =>
              dsimp only
              cases hexVal (next (next (next (next (next p))))).ch with
              | none => rfl
              | some n3 =>
                dsimp only
                cases hexVal (next (next (next (next (next (next p)))))).ch with
                | none => rfl
                | some n4 =>
                  dsimp only
                  cases toUtf8 res (((n1 * 16 + n2) * 16 + n3) * 16 + n4) with
                  | error e => rfl
                  | ok res1 =>
                    exact readStringLoopF_stable _ _ _ _ _ _ (by omega)
                      (Nat.lt_succ_self _)
        · rw [if_neg hu, if_neg hu]
          by_cases he : escapee (next (next p)).ch ≠ 0
          · rw [if_pos he, if_pos he]
            exact readStringLoopF_stable _ _ _ _ _ _ (by omega) (Nat.lt_succ_self _)
          · rw [if_neg he, if_neg he]
      · rw [if_neg hbs, if_neg hbs]
        by_cases hnl : (next p).ch = 10 ∨ (next p).ch = 13
        · rw [if_pos hnl, if_pos hnl]
        · rw [if_neg hnl, if_neg hnl]
          exact readStringLoopF_stable _ _ _ _ _ _ (by omega) (Nat.lt_succ_self _)
  · rw [if_neg hok, if_neg hok]

/-- `_readString`: read a quoted string (callers guarantee `ch` is the
quote character). -/
def readString (p : Parser) (allowML : Bool) : Except Err (List Nat × Parser) :=
  readStringLoop allowML p.ch [] p

/-- The `for (;;)` loop of `_readKeyname` for unquoted keys. -/
def readKeynameLoopF :
    Nat → Parser → Nat → Nat → Option Nat → Except Err (List Nat × Parser)
  | 0, p, keyStart, keyEnd, _ => .ok (substr p.data keyStart keyEnd, p)
  | f + 1, p, keyStart, keyEnd, firstSpace =>
  if p.ch = 58 then
    if keyEnd ≤ keyStart then
      .error (.syn (errAt p
        (ascii "Found ':' but no key name (for an empty key name use quotes)")))
    else
      match firstSpace with
      | some fs =>
        if fs ≠ keyEnd then
          .error (.syn (errAt { p with indexNext := fs + 1 }
            (ascii "Found whitespace in your key name (use quotes to include)")))
        else .ok (substr p.data keyStart keyEnd, p)
      | none => .ok (substr p.data keyStart keyEnd, p)
  else if p.ch ≤ 32 then
    if p.ch = 0 then
      .error (.syn (errAt p
        (ascii "Found EOF while looking for a key name (check your syntax)")))
    else
      readKeynameLoopF f (next p) keyStart keyEnd
        (match firstSpace with
         | none => some (p.indexNext - 1)
         | some fs => some fs)
  else
    if isPunctuatorChar p.ch then
      .error (.syn (errAt p (ascii "Found '" ++ [p.ch] ++
        ascii "' where a key name was expected (check your syntax or use quotes if the key name includes {}[],: or whitespace)")))
    else
      readKeynameLoopF f (next p) keyStart p.indexNext firstSpace

def readKeynameLoop (p : Parser) (keyStart keyEnd : Nat) (firstSpace : Option Nat) :
    Except Err (List Nat × Parser) :=
  readKeynameLoopF (pm p + 1) p keyStart keyEnd firstSpace

theorem readKeynameLoopF_stable : ∀ (f g : Nat) (p : Parser) (keyStart keyEnd : Nat)
    (firstSpace : Option Nat), pm p < f → pm p < g →
    readKeynameLoopF f p keyStart keyEnd firstSpace =
      readKeynameLoopF g p keyStart keyEnd firstSpace := by
  intro f
  induction f with
  | zero => intro g p a b c hf; omega
  | succ f ih =>
    intro g p keyStart keyEnd firstSpace hf hg
    cases g with
    | zero => omega
    | succ g =>
      show (if p.ch = 58 then _ else _) = (if p.ch = 58 then _ else _)
      by_cases h58 : p.ch = 58
      · rw [if_pos h58, if_pos h58]
      · rw [if_neg h58, if_neg h58]
        by_cases hws : p.ch ≤ 32
        · rw [if_pos hws, if_pos hws]
          by_cases h0 : p.ch = 0
          · rw [if_pos h0, if_pos h0]
          · rw [if_neg h0, if_neg h0]
            have := pm_next_lt p h0
            exact ih g _ _ _ _ (by omega) (by omega)
        · rw [if_neg hws, if_neg hws]
          by_cases hp : isPunctuatorChar p.ch
          · rw [if_pos hp, if_pos hp]
          · rw [if_neg hp, if_neg hp]
            have := pm_next_lt p (by omega)
            exact ih g _ _ _ _ (by omega) (by omega)

theorem readKeynameLoop_eq (p : Parser) (keyStart keyEnd : Nat)
    (firstSpace : Option Nat) :
    readKeynameLoop p keyStart keyEnd firstSpace =
      if p.ch = 58 then
        if keyEnd ≤ keyStart then
          .error (.syn (errAt p
            (ascii "Found ':' but no key name (for an empty key name use quotes)")))
        else
          match firstSpace with
          | some fs =>
            if fs ≠ keyEnd then
              .error (.syn (errAt { p with indexNext := fs + 1 }
                (ascii "Found whitespace in your key name (use quotes to include)")))
            else .ok (substr p.data keyStart keyEnd, p)
          | none => .ok (substr p.data keyStart keyEnd, p)
      else if p.ch ≤ 32 then
        if p.ch = 0 then
          .error (.syn (errAt p
            (ascii "Found EOF while looking for a key name (check your syntax)")))
        else
          readKeynameLoop (next p) keyStart keyEnd
            (match firstSpace with
             | none => some (p.indexNext - 1)
             | some fs => some fs)
      else
        if isPunctuatorChar p.ch then
          .error (.syn (errAt p (ascii "Found '" ++ [p.ch] ++
            ascii "' where a key name was expected (check your syntax or use quotes if the key name includes {}[],: or whitespace)")))
        else
          readKeynameLoop (next p) keyStart p.indexNext firstSpace := by
  show readKeynameLoopF (pm p + 1) p keyStart keyEnd firstSpace = _
  show (if p.ch = 58 then _ else _) = _
  by_cases h58 : p.ch = 58
  · rw [if_pos h58, if_pos h58]
  · rw [if_neg h58, if_neg h58]
    by_cases hws : p.ch ≤ 32
    · rw [if_pos hws, if_pos hws]
      by_cases h0 : p.ch = 0
      · rw [if_pos h0, if_pos h0]
      · rw [if_neg h0, if_neg h0]
        have := pm_next_lt p h0
        exact readKeynameLoopF_stable _ _ _ _ _ _ (by omega) (Nat.lt_succ_self _)
    · rw [if_neg hws, if_neg hws]
      by_cases hp : isPunctuatorChar p.ch
      · rw [if_pos hp, if_pos hp]
      · rw [if_neg hp, if_neg hp]
        have := pm_next_lt p (by omega)
        exact readKeynameLoopF_stable _ _ _ _ _ _ (by omega) (Nat.lt_succ_self _)

/-- `_readKeyname`. -/
def readKeyname (p : Parser) : Except Err (List Nat × Parser) :=
  if p.ch = 34 ∨ p.ch = 39 then readString p false
  else readKeynameLoop p (p.indexNext - 1) (p.indexNext - 1) none

/-- The candidate value at a terminator check of `_readTfnns2`: the
`switch (*pVal)` trying `false`/`null`/`true` and then `tryParseNumber`
for a `-` or digit first byte. -/
def tfnnsCandidate (tn : List Nat → Option Value) (data : List Nat)
    (valStart valEnd : Nat) : Option Value :=
  match data.getD valStart 0 with
  | 102 =>
    if valEnd - valStart = 5 ∧ substr data valStart valEnd = ascii "false" then
      some (Value.ofCore (.bool false))
    else none
  | 110 =>
    if valEnd - valStart = 4 ∧ substr data valStart valEnd = ascii "null" then
      some (Value.ofCore .null)
    else none
  | 116 =>
    if valEnd - valStart = 4 ∧ substr data valStart valEnd = ascii "true" then
      some (Value.ofCore (.bool true))
    else none
  | c =>
    if c = 45 ∨ (48 ≤ c ∧ c ≤ 57) then tn (substr data valStart valEnd)
    else none

/-- The `for (;;)` loop of `_readTfnns2`: scan to a terminator, tracking the
`[valStart, valEnd)` span of the trimmed value.  `tn` is the external
`tryParseNumber`. -/
def readTfnns2LoopF (tn : List Nat → Option Value) :
    Nat → Nat → Nat → Parser → Value × Nat × Parser
  | 0, valStart, valEnd, p => (Value.ofCore (.str (substr p.data valStart valEnd)), valEnd, p)
  | f + 1, valStart, valEnd, p =>
  if ((next p).ch = 13 ∨ (next p).ch = 10 ∨ (next p).ch = 0) ∨
      (next p).ch = 44 ∨ (next p).ch = 125 ∨ (next p).ch = 93 ∨ (next p).ch = 35 ∨
      ((next p).ch = 47 ∧ (peek (next p) 0 = 47 ∨ peek (next p) 0 = 42)) then
    match tfnnsCandidate tn p.data valStart valEnd with
    | some v => (v, valEnd, next p)
    | none =>
      if (next p).ch = 13 ∨ (next p).ch = 10 ∨ (next p).ch = 0 then
        (Value.ofCore (.str (substr p.data valStart valEnd)), valEnd, next p)
      else
        if isSpaceByte (next p).ch then
          readTfnns2LoopF tn f (if valEnd ≤ valStart then valStart + 1 else valStart)
            valEnd (next p)
        else
          readTfnns2LoopF tn f valStart (next p).indexNext (next p)
  else
    if isSpaceByte (next p).ch then
      readTfnns2LoopF tn f (if valEnd ≤ valStart then valStart + 1 else valStart)
        valEnd (next p)
    else
      readTfnns2LoopF tn f valStart (next p).indexNext (next p)

def readTfnns2Loop (tn : List Nat → Option Value) (valStart valEnd : Nat)
    (p : Parser) : Value × Nat × Parser :=
  readTfnns2LoopF tn (rm p + 1) valStart valEnd p

theorem readTfnns2LoopF_stable : ∀ (f g : Nat) (tn : List Nat → Option Value)
    (valStart valEnd : Nat) (p : Parser), rm p < f → rm p < g →
    readTfnns2LoopF tn f valStart valEnd p = readTfnns2LoopF tn g valStart valEnd p := by
  intro f
  induction f with
  | zero => intro g tn a b p hf; omega
  | succ f ih =>
    intro g tn valStart valEnd p hf hg
    cases g with
    | zero => omega
    | succ g =>
      have hstep : (next p).ch ≠ 0 → rm (next p) < rm p := fun hz =>
        rm_next_lt_of_nextOk p (nextOk_of_next_ch_ne p hz)
      show (if _ then _ else _) = (if _ then _ else _)
      by_cases hterm : ((next p).ch = 13 ∨ (next p).ch = 10 ∨ (next p).ch = 0) ∨
          (next p).ch = 44 ∨ (next p).ch = 125 ∨ (next p).ch = 93 ∨ (next p).ch = 35 ∨
          ((next p).ch = 47 ∧ (peek (next p) 0 = 47 ∨ peek (next p) 0 = 42))
      · rw [if_pos hterm, if_pos hterm]
        cases tfnnsCandidate tn p.data valStart valEnd with
        | some v => rfl
        | none =>
          dsimp only
          by_cases heol : (next p).ch = 13 ∨ (next p).ch = 10 ∨ (next p).ch = 0
          · rw [if_pos heol, if_pos heol]
          · rw [if_neg heol, if_neg heol]
            have hlt := hstep (fun hz => heol (Or.inr (Or.inr hz)))
            by_cases hsp : isSpaceByte (next p).ch
            · rw [if_pos hsp, if_pos hsp]
              exact ih g _ _ _ _ (by omega) (by omega)
            · rw [if_neg hsp, if_neg hsp]
              exact ih g _ _ _ _ (by omega) (by omega)
      · rw [if_neg hterm, if_neg hterm]
        have hlt := hstep (fun hz => hterm (Or.inl (Or.inr (Or.inr hz))))
        by_cases hsp : isSpaceByte (next p).ch
        · rw [if_pos hsp, if_pos hsp]
          exact ih g _ _ _ _ (by omega) (by omega)
        · rw [if_neg hsp, if_neg hsp]
          exact ih g _ _ _ _ (by omega) (by omega)

theorem readTfnns2Loop_eq (tn : List Nat → Option Value) (valStart valEnd : Nat)
    (p : Parser) :
    readTfnns2Loop tn valStart valEnd p =
      if ((next p).ch = 13 ∨ (next p).ch = 10 ∨ (next p).ch = 0) ∨
          (next p).ch = 44 ∨ (next p).ch = 125 ∨ (next p).ch = 93 ∨ (next p).ch = 35 ∨
          ((next p).ch = 47 ∧ (peek (next p) 0 = 47 ∨ peek (next p) 0 = 42)) then
        match tfnnsCandidate tn p.data valStart valEnd with
        | some v => (v, valEnd, next p)
        | none =>
          if (next p).ch = 13 ∨ (next p).ch = 10 ∨ (next p).ch = 0 then
            (Value.ofCore (.str (substr p.data valStart valEnd)), valEnd, next p)
          else
            if isSpaceByte (next p).ch then
              readTfnns2Loop tn (if valEnd ≤ valStart then valStart + 1 else valStart)
                valEnd (next p)
            else
              readTfnns2Loop tn valStart (next p).indexNext (next p)
      else
        if isSpaceByte (next p).ch then
          readTfnns2Loop tn (if valEnd ≤ valStart then valStart + 1 else valStart)
            valEnd (next p)
        else
          readTfnns2Loop tn valStart (next p).indexNext (next p) := by
  have hstep : (next p).ch ≠ 0 → rm (next p) < rm p := fun hz =>
    rm_next_lt_of_nextOk p (nextOk_of_next_ch_ne p hz)
  show readTfnns2LoopF tn (rm p + 1) valStart valEnd p = _
  show (if _ then _ else _) = _
  by_cases hterm : ((next p).ch = 13 ∨ (next p).ch = 10 ∨ (next p).ch = 0) ∨
      (next p).ch = 44 ∨ (next p).ch = 125 ∨ (next p).ch = 93 ∨ (next p).ch = 35 ∨
      ((next p).ch = 47 ∧ (peek (next p) 0 = 47 ∨ peek (next p) 0 = 42))
  · rw [if_pos hterm, if_pos hterm]
    cases tfnnsCandidate tn p.data valStart valEnd with
    | some v => rfl
    | none =>
      dsimp only
      by_cases heol : (next p).ch = 13 ∨ (next p).ch = 10 ∨ (next p).ch = 0
      · rw [if_pos heol, if_pos heol]
      · rw [if_neg heol, if_neg heol]
        have hlt := hstep (fun hz => heol (Or.inr (Or.inr hz)))
        by_cases hsp : isSpaceByte (next p).ch
        · rw [if_pos hsp, if_pos hsp]
          exact readTfnns2LoopF_stable _ _ _ _ _ _ (by omega) (Nat.lt_succ_self _)
        · rw [if_neg hsp, if_neg hsp]
          exact readTfnns2LoopF_stable _ _ _ _ _ _ (by omega) (Nat.lt_succ_self _)
  · rw [if_neg hterm, if_neg hterm]
    have hlt := hstep (fun hz => hterm (Or.inl (Or.inr (Or.inr hz))))
    by_cases hsp : isSpaceByte (next p).ch
    · rw [if_pos hsp, if_pos hsp]
      exact readTfnns2LoopF_stable _ _ _ _ _ _ (by omega) (Nat.lt_succ_self _)
    · rw [if_neg hsp, if_neg hsp]
      exact readTfnns2LoopF_stable _ _ _ _ _ _ (by omega) (Nat.lt_succ_self _)

/-- `_readTfnns2`: read a quoteless value (string, `true`, `false`, `null`
or a number accepted by `tryParseNumber`). -/
def readTfnns2 (tn : List Nat → Option Value) (valEnd0 : Nat) (p : Parser) :
    Except Err (Value × Nat × Parser) :=
  if isPunctuatorChar p.ch then
    .error (.syn (errAt p (ascii "Found a punctuator character '" ++ [p.ch] ++
      ascii "' when expecting a quoteless string (check your syntax)")))
  else
    if isSpaceByte p.ch then
      .ok (readTfnns2Loop tn (p.indexNext - 1 + 1) valEnd0 p)
    else
      .ok (readTfnns2Loop tn (p.indexNext - 1) p.indexNext p)

/-- `_readTfnns`: read a quoteless value and reposition the scanner right
after its last byte. -/
def readTfnns (tn : List Nat → Option Value) (p : Parser) :
    Except Err (Value × Parser) :=
  match readTfnns2 tn 0 p with
  | .error e => .error e
  | .ok (v, valEnd, p1) => .ok (v, next { p1 with indexNext := valEnd })

/-! ### The state machine -/

/-- `p->vParent.back()` (frames, head of the list is the top). -/
def topParent (p : Parser) : DecodeParent := p.vParent.headD {}

def setTopParent (p : Parser) (f : DecodeParent → DecodeParent) : Parser :=
  { p with vParent := match p.vParent with | [] => [] | x :: xs => f x :: xs }

def pushParent (p : Parser) (d : DecodeParent) : Parser :=
  { p with vParent := d :: p.vParent }

def popParent (p : Parser) : Parser := { p with vParent := p.vParent.tail }

def setTopState (p : Parser) (s : ParseState) : Parser :=
  { p with vState := match p.vState with | [] => [] | _ :: xs => s :: xs }

def pushState (p : Parser) (s : ParseState) : Parser :=
  { p with vState := s :: p.vState }

def popState (p : Parser) : Parser := { p with vState := p.vState.tail }

/-- `_readArrayBegin` (assumes `ch == '['`). -/
def readArrayBegin (p0 : Parser) : Parser :=
  let p1 := next p0
  let wr := white p1
  let p2 := setTopParent wr.2 (fun d =>
    { d with val := Value.ofCore (.vec []), ciElemBefore := wr.1, ciElemExtra := {} })
  if p2.ch = 93 then
    let p3 := setTopParent p2 (fun d =>
      { d with val := setComment d.val .inside p2 d.ciElemBefore })
    setTopState (next p3) .valueEnd
  else
    pushState (setTopState p2 .vectorElemEnd) .valueBegin

/-- `_readArrayElemEnd`: fold the finished element frame into the vector. -/
def readArrayElemEnd (p0 : Parser) : Except Err Parser :=
  let elem0 := (topParent p0).val
  let p1 := popParent p0
  let elem1 := setComment2 elem0 .before p1 (topParent p1).ciElemBefore
    (topParent p1).ciElemExtra
  let wr := white p1
  let p2 :=
    if wr.2.ch = 44 then
      let wr2 := white (next wr.2)
      setTopParent wr2.2 (fun d => { d with ciElemExtra := wr2.1 })
    else
      setTopParent wr.2 (fun d => { d with ciElemExtra := {} })
  if p2.ch = 93 then
    let elem2 := setComment2 elem1 .after p2 wr.1 (topParent p2).ciElemExtra
    let elem3 :=
      if elem1.cmAfter ≠ [] then elem2.setCmAfter (elem1.cmAfter ++ elem2.cmAfter)
      else elem2
    let p3 := setTopState (next p2) .valueEnd
    .ok (setTopParent p3 (fun d => { d with val := d.val.pushBack elem3 }))
  else
    if p2.ch = 0 then
      .error (.syn (errAt p2
        (ascii "End of input while parsing an array (did you forget a closing ']'?)")))
    else
      let p3 := pushState (setTopParent p2 (fun d => { d with ciElemBefore := wr.1 }))
        .valueBegin
      .ok (setTopParent p3 (fun d => { d with val := d.val.pushBack elem1 }))

/-- `_readObjectBegin`.  Note the guard `!(p->vParent.empty() &&
p->withoutBraces)`: `vParent` always holds at least the root frame here, so
the second conjunct is dead and the guard reduces to `ch == '}'`. -/
def readObjectBegin (p0 : Parser) : Parser :=
  let p1 := setTopParent p0 (fun d => { d with val := Value.ofCore (.map []) })
  let p2 :=
    if p1.ch = 123 then
      let wr := white (next p1)
      setTopParent wr.2 (fun d => { d with ciElemBefore := wr.1 })
    else
      setTopParent p1 (fun d => { d with ciElemBefore := d.ciBefore, ciBefore := {} })
  if p2.ch = 125 ∧ ¬(p2.vParent.isEmpty ∧ p2.withoutBraces) then
    let p3 := setTopParent p2 (fun d =>
      { d with val := setComment d.val .inside p2 d.ciElemBefore })
    setTopState (next p3) .valueEnd
  else
    setTopState p2 .mapElemBegin

/-- `_readObjectElemBegin`: read a key (EOF finalises a braceless root),
run the duplicate-key handler on the root frame, check uniqueness, and
require `:`. -/
def readObjectElemBegin (p0 : Parser) : Except Err Parser :=
  if p0.ch = 0 then
    if p0.vParent.length = 1 ∧ p0.withoutBraces then
      let p1 :=
        if (topParent p0).val.isEmptyC then
          setTopParent p0 (fun d =>
            { d with val := setComment d.val .inside p0 d.ciElemBefore })
        else
          setTopParent p0 (fun d =>
            { d with val := d.val.mapModifyLast (fun lastv =>
                setComment2 lastv .after p0 d.ciElemBefore d.ciElemExtra) })
      .ok (setTopState p1 .valueEnd)
    else
      .error (.syn (errAt p0
        (ascii "End of input while parsing an object (did you forget a closing '\x7d'?)")))
  else
    match readKeyname p0 with
    | .error e => .error e
    | .ok (key0, p1) =>
      let ko :=
        if (topParent p1).isRoot then
          match p1.opt.duplicateKeyHandler with
          | some f => f key0 (topParent p1).val
          | none => (key0, (topParent p1).val)
        else (key0, (topParent p1).val)
      let p2 := setTopParent p1 (fun d => { d with key := ko.1, val := ko.2 })
      if p2.opt.duplicateKeyException ∧ (ko.2.mapGet ko.1).defined then
        .error (.syn (errAt p2
          (ascii "Found duplicate of key '" ++ ko.1 ++ ascii "'")))
      else
        let wr := white p2
        let p3 := setTopParent wr.2 (fun d => { d with ciKey := wr.1 })
        if p3.ch ≠ 58 then
          .error (.syn (errAt p3
            (ascii "Expected ':' instead of '" ++ [p3.ch] ++ ascii "'")))
        else
          .ok (pushState (setTopState (next p3) .mapElemEnd) .valueBegin)

/-- `_readObjectElemEnd`: fold the finished element frame into the map. -/
def readObjectElemEnd (p0 : Parser) : Except Err Parser :=
  let elem0 := (topParent p0).val
  let p1 := popParent p0
  let elemK := setComment elem0 .key p1 (topParent p1).ciKey
  let elemK2 :=
    if elemK.cmBefore ≠ [] then
      (elemK.setCmKey (elemK.cmKey ++ elemK.cmBefore)).setCmBefore []
    else elemK
  let elem1 := setComment2 elemK2 .before p1 (topParent p1).ciElemBefore
    (topParent p1).ciElemExtra
  let wr := white p1
  let p2 :=
    if wr.2.ch = 44 then
      let wr2 := white (next wr.2)
      setTopParent wr2.2 (fun d => { d with ciElemExtra := wr2.1 })
    else
      setTopParent wr.2 (fun d => { d with ciElemExtra := {} })
  if p2.ch = 125 ∧ ¬(p2.vParent.length = 1 ∧ p2.withoutBraces) then
    let elem2 := setComment2 elem1 .after p2 wr.1 (topParent p2).ciElemExtra
    let elem3 :=
      if elem1.cmAfter ≠ [] then elem2.setCmAfter (elem1.cmAfter ++ elem2.cmAfter)
      else elem2
    let p3 := setTopParent p2 (fun d =>
      { d with val := d.val.mapSet d.key elem3 })
    .ok (setTopState (next p3) .valueEnd)
  else
    let p3 := setTopParent p2 (fun d =>
      { d with val := d.val.mapSet d.key elem1, ciElemBefore := wr.1 })
    .ok (setTopState p3 .mapElemBegin)

/-- `_readValueBegin`: push a fresh frame, read the leading trivia and
dispatch on the current character. -/
def readValueBegin (tn : List Nat → Option Value) (p0 : Parser) : Except Err Parser :=
  let p1 := pushParent p0 {}
  let wr := white p1
  let p2 := setTopParent wr.2 (fun d => { d with ciBefore := wr.1 })
  if p2.ch = 123 then .ok (setTopState p2 .mapBegin)
  else if p2.ch = 91 then .ok (setTopState p2 .vectorBegin)
  else if p2.ch = 34 ∨ p2.ch = 39 then
    match readString p2 true with
    | .error e => .error e
    | .ok (s, p3) =>
      .ok (setTopState (setTopParent p3
        (fun d => { d with val := Value.ofCore (.str s) })) .valueEnd)
  else
    match readTfnns tn p2 with
    | .error e => .error e
    | .ok (v, p3) =>
      .ok (setTopState (setTopParent p3 (fun d => { d with val := v })) .valueEnd)

/-- `_readValueEnd`: attach the before/after trivia and pop the state. -/
def readValueEnd (p0 : Parser) : Parser :=
  let wr := getCommentAfter p0
  let p1 := setTopParent wr.2 (fun d =>
    { d with val := setComment (setComment d.val .before p0 d.ciBefore) .after p0 wr.1 })
  popState p1

/-- One dispatch of `_parseLoop`'s switch. -/
def parseStep (tn : List Nat → Option Value) (st : ParseState) (p : Parser) :
    Except Err Parser :=
  match st with
  | .valueBegin => readValueBegin tn p
  | .valueEnd => .ok (readValueEnd p)
  | .mapBegin => .ok (readObjectBegin p)
  | .mapElemBegin => readObjectElemBegin p
  | .mapElemEnd => readObjectElemEnd p
  | .vectorBegin => .ok (readArrayBegin p)
  | .vectorElemEnd => readArrayElemEnd p

/-- `_parseLoop`, indexed by fuel (the termination theorem shows the fuel
chosen by `Unmarshal` is never exhausted). -/
def parseLoopFuel (tn : List Nat → Option Value) : Nat → Parser → Except Err Parser
  | 0, p => if p.vState.isEmpty then .ok p else .error .fuelOut
  | n + 1, p =>
    match p.vState.head? with
    | none => .ok p
    | some st =>
      match parseStep tn st p with
      | .error e => .error e
      | .ok p' => parseLoopFuel tn n p'

/-- `_hasTrailing`: skip trailing trivia and report whether a real byte
remains. -/
def hasTrailing (p : Parser) : Bool × CommentInfo × Parser :=
  let wr := white p
  (decide (0 < wr.2.ch), wr.1, wr.2)

/-- One parse attempt of `_rootValue`'s `try` blocks: run the loop, then
fail on trailing characters. -/
def rootAttempt (tn : List Nat → Option Value) (fuel : Nat) (p : Parser) :
    Except Err (Parser × CommentInfo) :=
  match parseLoopFuel tn fuel p with
  | .error e => .error e
  | .ok p1 =>
    let tr := hasTrailing p1
    if tr.1 then
      .error (.syn (errAt tr.2.2 (ascii "Syntax error, found trailing characters")))
    else
      .ok (tr.2.2, tr.2.1)

/-- The tail of `_rootValue`: extract the final value and attach any
trailing trivia as `comment_after`. -/
def rootFinish (p : Parser) (ciExtra : CommentInfo) : Except Err Value :=
  let ret := (topParent p).val
  if ciExtra.hasComment then
    let existing := ret.cmAfter
    let ret1 := setComment ret .after p ciExtra
    .ok (if existing ≠ [] then ret1.setCmAfter (existing ++ ret1.cmAfter) else ret1)
  else
    .ok ret

/-- The scanner/stack state from which `_rootValue`'s retry reparses the
whole input as a single value. -/
def retryStart (p : Parser) : Parser :=
  pushState (resetAt { p with vParent := [], vState := [] }) .valueBegin

/-- The prologue of `_rootValue`: push the root frame, read the leading
trivia and dispatch on the first significant character, setting
`withoutBraces` when it is neither `[` nor `{`. -/
def rootDispatch (p0 : Parser) : Parser :=
  let p1 := pushParent p0 { isRoot := true }
  let wr := white p1
  let p2 := setTopParent wr.2 (fun d => { d with ciBefore := wr.1 })
  if p2.ch = 91 then pushState p2 .vectorBegin
  else if p2.ch ≠ 123 then pushState { p2 with withoutBraces := true } .mapBegin
  else pushState p2 .mapBegin

/-- `_rootValue`: dispatch on the first significant character, run the
machine, and on a syntax error over a braceless root retry the whole input
as one value, re-raising the first error if the retry fails too. -/
def rootValue (tn : List Nat → Option Value) (fuel : Nat) (p0 : Parser) :
    Except Err Value :=
  match rootAttempt tn fuel (rootDispatch p0) with
  | .ok (p4, ciExtra) => rootFinish p4 ciExtra
  | .error (.syn e1) =>
    if (rootDispatch p0).withoutBraces then
      match rootAttempt tn fuel (retryStart (rootDispatch p0)) with
      | .ok (p6, ciExtra) => rootFinish p6 ciExtra
      | .error (.syn _) => .error (.syn e1)
      | .error e => .error e
    else
      .error (.syn e1)
  | .error e => .error e

/-- The fuel `Unmarshal` allots to each run of the parse loop; the
termination theorem shows it is sufficient. -/
def fuelFor (data : List Nat) : Nat := 16 * (data.length + 2) + 64

/-- The parser state `Unmarshal` builds before calling `_rootValue`:
`whitespaceAsComments` forces `comments`, and the scanner is reset onto
byte 0. -/
def initParser (options : DecoderOptions) (data : List Nat) : Parser :=
  let opt :=
    if options.whitespaceAsComments then { options with comments := true } else options
  resetAt { data := data, indexNext := 0, ch := 32, withoutBraces := false, opt := opt }

/-- `Unmarshal(const char *data, size_t dataSize, options)`. -/
def Unmarshal (tn : List Nat → Option Value) (options : DecoderOptions)
    (data : List Nat) : Except Err Value :=
  rootValue tn (fuelFor data) (initParser options data)

/-- Accumulate decimal digits; `none` on any non-digit. -/
def decDigits (l : List Nat) : Option Nat :=
  l.foldl
    (fun acc c =>
      match acc with
      | none => none
      | some n => if 48 ≤ c ∧ c ≤ 57 then some (n * 10 + (c - 48)) else none)
    (some 0)

/-- Modelled from the spec: `tryParseNumber` is the external numeric-literal
tokeniser (consumed as a black box, §1); every theorem about the decoder
takes the tokeniser as a parameter, and this minimal decimal-integer
recogniser instantiates it for the concrete scenarios (`42` → Int64 42,
`1` → Int64 1, …). -/
def tryNumSpec (s : List Nat) : Option Value :=
  match s with
  | 45 :: rest =>
    if rest.isEmpty then none
    else (decDigits rest).map (fun n => Value.ofCore (.int64 (-(n : Int))))
  | _ =>
    if s.isEmpty then none
    else (decDigits s).map (fun n => Value.ofCore (.int64 (n : Int)))

/-! ### The nanobind wrapper (`nanobind/hjcpp.cpp`) -/

/-- `(int)ix` for an `unsigned long` value: two's-complement truncation to
32 bits (the implementation-defined conversion on the usual targets). -/
def intOfUlong (n : Nat) : Int :=
  let m : Nat := n % 2 ^ 32
  if m < 2 ^ 31 then (m : Int) else (m : Int) - 2 ^ 32

/-- `parseKey` from hjcpp.cpp: split `<name><index>`; `none` models a
`false` return (invalid index via `std::stoul` overflow, or empty name). -/
def parseKey (key : List Nat) : Option (List Nat × Int) :=
  match key.findIdx? (fun c => decide (48 ≤ c ∧ c ≤ 57)) with
  | none => if key.isEmpty then none else some (key, -1)
  | some idxStart =>
    let nm := key.take idxStart
    let digs := (key.drop idxStart).takeWhile (fun c => decide (48 ≤ c ∧ c ≤ 57))
    let ix := digs.foldl (fun a c => a * 10 + (c - 48)) 0
    if 2 ^ 64 ≤ ix then none
    else if nm.isEmpty then none
    else some (nm, intOfUlong ix)

def Value.isNull (v : Value) : Bool :=
  match v.core with
  | .null => true
  | _ => false

/-- `duplicateKeyHandler` from hjcpp.cpp: rename duplicate index-less keys
`k` to `k0`, `k1`, … (mutating the in-progress map when moving the original
entry aside). -/
def pyDuplicateKeyHandler (key : List Nat) (m : Value) : List Nat × Value :=
  match parseKey key with
  | none => (key, m)
  | some (name, ind) =>
    if 0 ≤ ind then (key, m)
    else if ¬(m.mapGet key).defined then (key, m)
    else
      let m1 :=
        if ¬(m.mapGet key).isNull then
          (m.mapSet (key ++ [48]) (m.mapGet key)).mapErase key
        else m
      match (List.range 100).find?
          (fun n => ¬(m1.mapGet (name ++ ascii (toString n))).defined) with
      | some n => (name ++ ascii (toString n), m1)
      | none => (key, m1)

/-- A Python value, as built by the nanobind conversion. -/
inductive Py where
  | none_ : Py
  | pbool : Bool → Py
  | pint : Int → Py
  | pfloat : Int → Py
  | pstr : List Nat → Py
  | plist : List Py → Py
  | pdict : List (List Nat × Py) → Py
  | ptuple : List Py → Py

/-- The 6-element `comm_self` tuple.  Modelled from the spec: the decoder
in src never sets `pos_key`/`pos_item`, so both carry the
default-constructed −1. -/
def commSelf (v : Value) : Py :=
  .ptuple [.pint (-1), .pint (-1), .pstr v.cmBefore, .pstr v.cmKey,
    .pstr v.cmInside, .pstr v.cmAfter]

mutual
/-- `vector2list` from hjcpp.cpp. -/
def vector2list : List Value → Except Err (List Py × List Py)
  | [] => .ok ([], [])
  | v :: rest =>
    match pyChild v (ascii "Unsupported Hjson value type in array") with
    | .error e => .error e
    | .ok pr =>
      match vector2list rest with
      | .error e => .error e
      | .ok lr => .ok (pr.1 :: lr.1, pr.2 :: lr.2)

/-- `map2dict` from hjcpp.cpp. -/
def map2dict : List (List Nat × Value) →
    Except Err (List (List Nat × Py) × List (List Nat × Py))
  | [] => .ok ([], [])
  | (k, v) :: rest =>
    match pyChild v (ascii "Unsupported Hjson value type in map") with
    | .error e => .error e
    | .ok pr =>
      match map2dict rest with
      | .error e => .error e
      | .ok lr => .ok ((k, pr.1) :: lr.1, (k, pr.2) :: lr.2)

/-- The per-value dispatch shared by `map2dict` and `vector2list`
(`emsg` is the context-specific `runtime_error` message). -/
def pyChild : Value → List Nat → Except Err (Py × Py)
  | v, emsg =>
    match v with
    | .mk (.map xs) _ _ _ _ =>
      match map2dict xs with
      | .error e => .error e
      | .ok dr => .ok (.pdict dr.1, .ptuple [commSelf v, .pdict dr.2])
    | .mk (.vec xs) _ _ _ _ =>
      match vector2list xs with
      | .error e => .error e
      | .ok lr => .ok (.plist lr.1, .ptuple [commSelf v, .plist lr.2])
    | .mk (.str s) _ _ _ _ => .ok (.pstr s, .ptuple [commSelf v, .none_])
    | .mk (.int64 n) _ _ _ _ => .ok (.pint n, .ptuple [commSelf v, .none_])
    | .mk (.double_ d) _ _ _ _ => .ok (.pfloat d, .ptuple [commSelf v, .none_])
    | .mk (.bool b) _ _ _ _ => .ok (.pbool b, .ptuple [commSelf v, .none_])
    | .mk .null _ _ _ _ => .ok (.none_, .ptuple [commSelf v, .none_])
    | .mk .undefined _ _ _ _ => .error (.runtimeErr emsg)
end

/-- The result of `hj2py`: `success` carries the populated `obj` dict and
`comm` list, `failure` the `err["code"]` and `err["msg"]`. -/
inductive HjResult where
  | success : List (List Nat × Py) → List Py → HjResult
  | failure : Int → List Nat → HjResult

/-- The decoder options `hj2py` always uses. -/
def pyOptions : DecoderOptions :=
  { comments := true, whitespaceAsComments := true, duplicateKeyException := false,
    duplicateKeyHandler := some pyDuplicateKeyHandler }

/-- `hj2py` from hjcpp.cpp: parse with `pyOptions`, require a Map root, and
convert; the `catch` chain maps `syntax_error` to −2, `type_mismatch` to
−3, `index_out_of_bounds` to −4 and any other exception to −1. -/
def hj2py (tn : List Nat → Option Value) (s : List Nat) : HjResult :=
  match Unmarshal tn pyOptions s with
  | .ok val =>
    if ¬val.isMap then .failure (-3) (ascii "Root is not a map")
    else
      match (match val.core with | .map xs => map2dict xs | _ => .ok ([], [])) with
      | .ok dr => .success dr.1 [commSelf val, .pdict dr.2]
      | .error (.syn m) => .failure (-2) m
      | .error (.typeMismatch m) => .failure (-3) m
      | .error (.indexOob m) => .failure (-4) m
      | .error (.runtimeErr m) => .failure (-1) m
      | .error (.logicErr m) => .failure (-1) m
      | .error .fuelOut => .failure (-1) []
  | .error (.syn m) => .failure (-2) m
  | .error (.typeMismatch m) => .failure (-3) m
  | .error (.indexOob m) => .failure (-4) m
  | .error (.runtimeErr m) => .failure (-1) m
  | .error (.logicErr m) => .failure (-1) m
  | .error .fuelOut => .failure (-1) []

/-! ### Preservation lemmas

The scanner-level functions only move the cursor: they never change the
buffer, the options, the `withoutBraces` flag or the two stacks. -/

/-- Two parser states that differ at most in the cursor (`indexNext`/`ch`). -/
def sameShape (q p : Parser) : Prop :=
  q.data = p.data ∧ q.opt = p.opt ∧ q.withoutBraces = p.withoutBraces ∧
    q.vState = p.vState ∧ q.vParent = p.vParent

theorem sameShape_refl (p : Parser) : sameShape p p :=
  ⟨rfl, rfl, rfl, rfl, rfl⟩

theorem sameShape_trans {r q p : Parser} (h1 : sameShape r q) (h2 : sameShape q p) :
    sameShape r p := by
  obtain ⟨a1, b1, c1, d1, e1⟩ := h1
  obtain ⟨a2, b2, c2, d2, e2⟩ := h2
  exact ⟨a1.trans a2, b1.trans b2, c1.trans c2, d1.trans d2, e1.trans e2⟩

theorem sameShape_next (p : Parser) : sameShape (next p) p := by
  unfold next
  split <;> exact ⟨rfl, rfl, rfl, rfl, rfl⟩

theorem sameShape_setIndex (p : Parser) (i : Nat) :
    sameShape { p with indexNext := i } p :=
  ⟨rfl, rfl, rfl, rfl, rfl⟩

theorem sameShape_whiteSkipWsF (f : Nat) (p : Parser) :
    sameShape (whiteSkipWsF f p) p := by
  induction f generalizing p with
  | zero => exact sameShape_refl p
  | succ f ih =>
    show sameShape (if _ then whiteSkipWsF f (next p) else p) p
    split
    · exact sameShape_trans (ih (next p)) (sameShape_next p)
    · exact sameShape_refl p

theorem sameShape_whiteSkipWs (p : Parser) : sameShape (whiteSkipWs p) p :=
  sameShape_whiteSkipWsF _ p

theorem sameShape_whiteSkipWsToEolF (f : Nat) (p : Parser) :
    sameShape (whiteSkipWsToEolF f p) p := by
  induction f generalizing p with
  | zero => exact sameShape_refl p
  | succ f ih =>
    show sameShape (if _ then whiteSkipWsToEolF f (next p) else p) p
    split
    · exact sameShape_trans (ih (next p)) (sameShape_next p)
    · exact sameShape_refl p

theorem sameShape_whiteSkipWsToEol (p : Parser) : sameShape (whiteSkipWsToEol p) p :=
  sameShape_whiteSkipWsToEolF _ p

theorem sameShape_skipToEolF (f : Nat) (p : Parser) :
    sameShape (skipToEolF f p) p := by
  induction f generalizing p with
  | zero => exact sameShape_refl p
  | succ f ih =>
    show sameShape (if _ then skipToEolF f (next p) else p) p
    split
    · exact sameShape_trans (ih (next p)) (sameShape_next p)
    · exact sameShape_refl p

theorem sameShape_skipToEol (p : Parser) : sameShape (skipToEol p) p :=
  sameShape_skipToEolF _ p

theorem sameShape_skipBlockCommentF (f : Nat) (p : Parser) :
    sameShape (skipBlockCommentF f p) p := by
  induction f generalizing p with
  | zero => exact sameShape_refl p
  | succ f ih =>
    show sameShape (if _ then skipBlockCommentF f (next p) else p) p
    split
    · exact sameShape_trans (ih (next p)) (sameShape_next p)
    · exact sameShape_refl p

theorem sameShape_skipBlockComment (p : Parser) : sameShape (skipBlockComment p) p :=
  sameShape_skipBlockCommentF _ p

theorem sameShape_triviaStep (skipWs : Parser → Parser)
    (hs : ∀ q, sameShape (skipWs q) q) (p : Parser) :
    sameShape (triviaStep skipWs p) p := by
  unfold triviaStep
  split
  · exact sameShape_trans (sameShape_next _) (sameShape_trans (sameShape_next _)
      (sameShape_trans (sameShape_skipBlockComment _) (sameShape_trans
        (sameShape_next _) (sameShape_trans (sameShape_next _) (hs p)))))
  · exact sameShape_trans (sameShape_skipBlockComment _) (sameShape_trans
      (sameShape_next _) (sameShape_trans (sameShape_next _) (hs p)))

theorem sameShape_whiteLoopF (f : Nat) (p : Parser) (hasC : Bool) :
    sameShape (whiteLoopF f p hasC).1 p := by
  induction f generalizing p hasC with
  | zero => exact sameShape_refl p
  | succ f ih =>
    simp only [whiteLoopF]
    split
    · split
      · exact sameShape_trans (ih _ _) (sameShape_trans (sameShape_skipToEol _)
          (sameShape_whiteSkipWs p))
      · split
        · exact sameShape_trans (ih _ _)
            (sameShape_triviaStep whiteSkipWs sameShape_whiteSkipWs p)
        · exact sameShape_whiteSkipWs p
    · exact sameShape_refl p

theorem sameShape_white (p : Parser) : sameShape (white p).2 p :=
  sameShape_whiteLoopF _ p false

theorem sameShape_gcaLoopF (f : Nat) (p : Parser) (hasC : Bool) :
    sameShape (gcaLoopF f p hasC).1 p := by
  induction f generalizing p hasC with
  | zero => exact sameShape_refl p
  | succ f ih =>
    simp only [gcaLoopF]
    split
    · split
      · exact sameShape_trans (ih _ _) (sameShape_trans (sameShape_skipToEol _)
          (sameShape_whiteSkipWsToEol p))
      · split
        · exact sameShape_trans (ih _ _)
            (sameShape_triviaStep whiteSkipWsToEol sameShape_whiteSkipWsToEol p)
        · exact sameShape_whiteSkipWsToEol p
    · exact sameShape_refl p

theorem sameShape_getCommentAfter (p : Parser) : sameShape (getCommentAfter p).2 p :=
  sameShape_gcaLoopF _ p _

theorem sameShape_skipIndentLoop (skip : Nat) (p : Parser) :
    sameShape (skipIndentLoop p skip) p := by
  induction skip generalizing p with
  | zero => exact sameShape_refl p
  | succ skip ih =>
    show sameShape (if _ then skipIndentLoop (next p) skip else p) p
    split
    · exact sameShape_trans (ih (next p)) (sameShape_next p)
    · exact sameShape_refl p

theorem sameShape_mlLoopF (indent f : Nat) (res : List Nat) (triple : Nat)
    (lastLf : Bool) (p : Parser) (s : List Nat) (q : Parser)
    (h : mlLoopF indent f res triple lastLf p = .ok (s, q)) : sameShape q p := by
  induction f generalizing res triple lastLf p with
  | zero =>
    injection h with h
    injection h with h1 h2
    exact h2 ▸ sameShape_refl p
  | succ f ih =>
    rw [show mlLoopF indent (f + 1) res triple lastLf p =
      (if p.ch = 0 then _ else _) from rfl] at h
    by_cases h0 : p.ch = 0
    · rw [if_pos h0] at h; exact absurd h (by simp)
    · rw [if_neg h0] at h
      by_cases h39 : p.ch = 39
      · rw [if_pos h39] at h
        by_cases ht : triple + 1 = 3
        · rw [if_pos ht] at h
          by_cases hlf : lastLf
          · rw [if_pos hlf] at h
            injection h with h
            injection h with h1 h2
            exact h2 ▸ sameShape_next p
          · rw [if_neg hlf] at h
            injection h with h
            injection h with h1 h2
            exact h2 ▸ sameShape_next p
        · rw [if_neg ht] at h
          exact sameShape_trans (ih _ _ _ _ h) (sameShape_next p)
      · rw [if_neg h39] at h
        by_cases h10 : p.ch = 10
        · rw [if_pos h10] at h
          exact sameShape_trans (ih _ _ _ _ h)
            (sameShape_trans (sameShape_skipIndentLoop indent (next p)) (sameShape_next p))
        · rw [if_neg h10] at h
          by_cases h13 : p.ch = 13
          · rw [if_pos h13] at h
            exact sameShape_trans (ih _ _ _ _ h) (sameShape_next p)
          · rw [if_neg h13] at h
            exact sameShape_trans (ih _ _ _ _ h) (sameShape_next p)

theorem sameShape_readMLString (p : Parser) (s : List Nat) (q : Parser)
    (h : readMLString p = .ok (s, q)) : sameShape q p := by
  unfold readMLString at h
  dsimp only at h
  split at h
  · exact sameShape_trans (sameShape_mlLoopF _ _ _ _ _ _ _ _ h)
      (sameShape_trans (sameShape_skipIndentLoop _ _)
        (sameShape_trans (sameShape_next _) (sameShape_whiteSkipWsToEol p)))
  · exact sameShape_trans (sameShape_mlLoopF _ _ _ _ _ _ _ _ h)
      (sameShape_whiteSkipWsToEol p)

theorem sameShape_readStringLoopF (allowML : Bool) (exitCh f : Nat) (res : List Nat)
    (p : Parser) (s : List Nat) (q : Parser)
    (h : readStringLoopF allowML exitCh f res p = .ok (s, q)) : sameShape q p := by
  induction f generalizing res p with
  | zero =>
    injection h with h
    injection h with h1 h2
    exact h2 ▸ sameShape_refl p
  | succ f ih =>
    rw [show readStringLoopF allowML exitCh (f + 1) res p =
      (if nextOk p then _ else _) from rfl] at h
    by_cases hok : nextOk p
    · rw [if_pos hok] at h
      by_cases hq : (next p).ch = exitCh
      · rw [if_pos hq] at h
        by_cases hml : allowML ∧ exitCh = 39 ∧ (next (next p)).ch = 39 ∧ res = []
        · rw [if_pos hml] at h
          exact sameShape_trans (sameShape_readMLString _ _ _ h)
            (sameShape_trans (sameShape_next _) (sameShape_trans (sameShape_next _)
              (sameShape_next p)))
        · rw [if_neg hml] at h
          injection h with h
          injection h with h1 h2
          exact h2 ▸ sameShape_trans (sameShape_next _) (sameShape_next p)
      · rw [if_neg hq] at h
        by_cases hbs : (next p).ch = 92
        · rw [if_pos hbs] at h
          by_cases hu : (next (next p)).ch = 117
          · rw [if_pos hu] at h
            cases hx1 : hexVal (next (next (next p))).ch with
            | none => rw [hx1] at h; exact absurd h (by simp)
            | some n1 =>
              rw [hx1] at h
              dsimp only at h
              cases hx2 : hexVal (next (next (next (next p)))).ch with
              | none => rw [hx2] at h; exact absurd h (by simp)
              | some n2 =>
                rw [hx2] at h
                dsimp only at h
                cases hx3 : hexVal (next (next (next (next (next p))))).ch with
                | none => rw [hx3] at h; exact absurd h (by simp)
                | some n3 =>
                  rw [hx3] at h
                  dsimp only at h
                  cases hx4 : hexVal (next (next (next (next (next (next p)))))).ch with
                  | none => rw [hx4] at h; exact absurd h (by simp)
                  | some n4 =>
                    rw [hx4] at h
                    dsimp only at h
                    cases hu8 : toUtf8 res (((n1 * 16 + n2) * 16 + n3) * 16 + n4) with
                    | error e => rw [hu8] at h; exact absurd h (by simp)
                    | ok res1 =>
                      rw [hu8] at h
                      refine sameShape_trans (ih _ _ h) ?_
                      exact sameShape_trans (sameShape_next _)
                        (sameShape_trans (sameShape_next _) (sameShape_trans
                          (sameShape_next _) (sameShape_trans (sameShape_next _)
                            (sameShape_trans (sameShape_next _) (sameShape_next p)))))
          · rw [if_neg hu] at h
            by_cases he : escapee (next (next p)).ch ≠ 0
            · rw [if_pos he] at h
              exact sameShape_trans (ih _ _ h)
                (sameShape_trans (sameShape_next _) (sameShape_next p))
            · rw [if_neg he] at h
              exact absurd h (by simp)
        · rw [if_neg hbs] at h
          by_cases hnl : (next p).ch = 10 ∨ (next p).ch = 13
          · rw [if_pos hnl] at h
            exact absurd h (by simp)
          · rw [if_neg hnl] at h
            exact sameShape_trans (ih _ _ h) (sameShape_next p)
    · rw [if_neg hok] at h
      exact absurd h (by simp)

theorem sameShape_readString (p : Parser) (allowML : Bool) (s : List Nat) (q : Parser)
    (h : readString p allowML = .ok (s, q)) : sameShape q p :=
  sameShape_readStringLoopF _ _ _ _ _ _ _ h

theorem sameShape_readKeynameLoopF (f : Nat) (p : Parser) (keyStart keyEnd : Nat)
    (firstSpace : Option Nat) (s : List Nat) (q : Parser)
    (h : readKeynameLoopF f p keyStart keyEnd firstSpace = .ok (s, q)) :
    sameShape q p := by
  induction f generalizing p keyStart keyEnd firstSpace with
  | zero =>
    injection h with h
    injection h with h1 h2
    exact h2 ▸ sameShape_refl p
  | succ f ih =>
    rw [show readKeynameLoopF (f + 1) p keyStart keyEnd firstSpace =
      (if p.ch = 58 then _ else _) from rfl] at h
    by_cases h58 : p.ch = 58
    · rw [if_pos h58] at h
      by_cases hke : keyEnd ≤ keyStart
      · rw [if_pos hke] at h
        exact absurd h (by simp)
      · rw [if_neg hke] at h
        cases firstSpace with
        | none =>
          injection h with h
          injection h with h1 h2
          exact h2 ▸ sameShape_refl p
        | some fs =>
          dsimp only at h
          by_cases hfs : fs ≠ keyEnd
          · rw [if_pos hfs] at h; exact absurd h (by simp)
          · rw [if_neg hfs] at h
            injection h with h
            injection h with h1 h2
            exact h2 ▸ sameShape_refl p
    · rw [if_neg h58] at h
      by_cases hws : p.ch ≤ 32
      · rw [if_pos hws] at h
        by_cases h0 : p.ch = 0
        · rw [if_pos h0] at h; exact absurd h (by simp)
        · rw [if_neg h0] at h
          exact sameShape_trans (ih _ _ _ _ h) (sameShape_next p)
      · rw [if_neg hws] at h
        by_cases hp : isPunctuatorChar p.ch
        · rw [if_pos hp] at h; exact absurd h (by simp)
        · rw [if_neg hp] at h
          exact sameShape_trans (ih _ _ _ _ h) (sameShape_next p)

theorem sameShape_readKeyname (p : Parser) (s : List Nat) (q : Parser)
    (h : readKeyname p = .ok (s, q)) : sameShape q p := by
  unfold readKeyname at h
  split at h
  · exact sameShape_readString _ _ _ _ h
  · exact sameShape_readKeynameLoopF _ _ _ _ _ _ _ h

theorem sameShape_readTfnns2LoopF (tn : List Nat → Option Value) (f : Nat)
    (valStart valEnd : Nat) (p : Parser) :
    sameShape (readTfnns2LoopF tn f valStart valEnd p).2.2 p := by
  induction f generalizing valStart valEnd p with
  | zero => exact sameShape_refl p
  | succ f ih =>
    show sameShape (if _ then _ else _ : Value × Nat × Parser).2.2 p
    split
    · cases tfnnsCandidate tn p.data valStart valEnd with
      | some v => exact sameShape_next p
      | none =>
        dsimp only
        split
        · exact sameShape_next p
        · split
          · exact sameShape_trans (ih _ _ _) (sameShape_next p)
          · exact sameShape_trans (ih _ _ _) (sameShape_next p)
    · split
      · exact sameShape_trans (ih _ _ _) (sameShape_next p)
      · exact sameShape_trans (ih _ _ _) (sameShape_next p)

/-! ### Helpers for stating the claims -/

mutual
/-- The concatenation, in source order, of the four comment slots over all
nodes of a tree. -/
def commentConcat : Value → List Nat
  | .mk c b k i a => b ++ k ++ i ++ commentConcatCore c ++ a

def commentConcatCore : VCore → List Nat
  | .vec xs => commentConcatVec xs
  | .map xs => commentConcatMap xs
  | _ => []

def commentConcatVec : List Value → List Nat
  | [] => []
  | v :: vs => commentConcat v ++ commentConcatVec vs

def commentConcatMap : List (List Nat × Value) → List Nat
  | [] => []
  | (_, v) :: vs => commentConcat v ++ commentConcatMap vs
end

/-- `_white` encounters a comment iff, after the leading whitespace, the
cursor sits on `#`, `//` or `/*` (encountering a comment is the only way
its loop keeps going). -/
def sawComment (p : Parser) : Bool :=
  decide (0 < p.ch) &&
    ((whiteSkipWs p).ch == 35 ||
      ((whiteSkipWs p).ch == 47 &&
        (peek (whiteSkipWs p) 0 == 47 || peek (whiteSkipWs p) 0 == 42)))

/-- Same for `_getCommentAfter`'s line-bounded loop. -/
def sawCommentLine (p : Parser) : Bool :=
  decide (0 < p.ch) &&
    ((whiteSkipWsToEol p).ch == 35 ||
      ((whiteSkipWsToEol p).ch == 47 &&
        (peek (whiteSkipWsToEol p) 0 == 47 || peek (whiteSkipWsToEol p) 0 == 42)))

theorem containsSeg_prefix (a b : List Nat) : containsSeg (a ++ b) a = true := by
  unfold containsSeg
  rw [List.any_eq_true]
  refine ⟨0, ?_, ?_⟩
  · exact List.mem_range.mpr (by omega)
  · simp [List.take_append]

theorem errAt_append (p : Parser) (m : List Nat) :
    ∃ suf, errAt p m = m ++ suf := by
  unfold errAt
  split
  · dsimp only
    simp only [List.append_assoc]
    exact ⟨_, rfl⟩
  · exact ⟨[], (List.append_nil m).symm⟩

theorem sameShape_readTfnns (tn : List Nat → Option Value) (p : Parser)
    (v : Value) (q : Parser) (h : readTfnns tn p = .ok (v, q)) : sameShape q p := by
  unfold readTfnns readTfnns2 at h
  by_cases hp : isPunctuatorChar p.ch
  · rw [if_pos hp] at h; exact absurd h (by simp)
  · rw [if_neg hp] at h
    by_cases hs : isSpaceByte p.ch
    · rw [if_pos hs] at h
      rcases hre : readTfnns2Loop tn (p.indexNext - 1 + 1) 0 p with ⟨v1, ve1, p1⟩
      rw [hre] at h
      dsimp only at h
      injection h with h
      injection h with h1 h2
      subst h2
      have hsh : sameShape p1 p := by
        have := sameShape_readTfnns2LoopF tn (rm p + 1) (p.indexNext - 1 + 1) 0 p
        rw [show readTfnns2LoopF tn (rm p + 1) (p.indexNext - 1 + 1) 0 p =
          readTfnns2Loop tn (p.indexNext - 1 + 1) 0 p from rfl, hre] at this
        exact this
      exact sameShape_trans (sameShape_next _)
        (sameShape_trans (sameShape_setIndex _ _) hsh)
    · rw [if_neg hs] at h
      rcases hre : readTfnns2Loop tn (p.indexNext - 1) p.indexNext p with ⟨v1, ve1, p1⟩
      rw [hre] at h
      dsimp only at h
      injection h with h
      injection h with h1 h2
      subst h2
      have hsh : sameShape p1 p := by
        have := sameShape_readTfnns2LoopF tn (rm p + 1) (p.indexNext - 1) p.indexNext p
        rw [show readTfnns2LoopF tn (rm p + 1) (p.indexNext - 1) p.indexNext p =
          readTfnns2Loop tn (p.indexNext - 1) p.indexNext p from rfl, hre] at this
        exact this
      exact sameShape_trans (sameShape_next _)
        (sameShape_trans (sameShape_setIndex _ _) hsh)

/-! ### Symbolic single steps of the scanner, for running the machine on
input families -/

/-- `_next` in closed form: the new `ch` is `data[indexNext]` (0 out of
range) and the cursor advances. -/
theorem next_eq (p : Parser) :
    next p = { p with ch := p.data.getD p.indexNext 0,
                      indexNext := p.indexNext + 1 } := by
  unfold next
  by_cases hlt : p.indexNext < p.data.length
  · rw [if_pos hlt]
  · rw [if_neg hlt]
    rw [List.getD_eq_default _ _ (by omega)]

/-- Unfolding one successful step of `_parseLoop`. -/
theorem parseLoop_step (tn : List Nat → Option Value) (g : Nat) (p q : Parser)
    (st : ParseState) (rest : List ParseState)
    (h : p.vState = st :: rest) (hs : parseStep tn st p = .ok q) :
    parseLoopFuel tn (g + 1) p = parseLoopFuel tn g q := by
  have hh : p.vState.head? = some st := by rw [h]; rfl
  simp only [parseLoopFuel, hh, hs]

/-- `_parseLoop` with an empty state stack returns at once. -/
theorem parseLoop_done (tn : List Nat → Option Value) (f : Nat) (p : Parser)
    (h : p.vState = []) : parseLoopFuel tn f p = .ok p := by
  cases f with
  | zero =>
    show (if p.vState.isEmpty then _ else _) = _
    rw [h]
    rfl
  | succ f =>
    have hh : p.vState.head? = none := by rw [h]; rfl
    rw [parseLoopFuel, hh]

/-! ### Cursor/remaining-input view of the scanner, and the multiline
string body in linewise form -/

/-- The scanner `q` sits on the remaining input `r`: `ch` is the head of
`r` (0 at end of input) and `indexNext` points one past it. -/
def atRem (q : Parser) (r : List Nat) : Prop :=
  1 ≤ q.indexNext ∧ q.data.drop (q.indexNext - 1) = r ∧ q.ch = r.headD 0

/-- Body-line bytes of a multiline string: anything except NUL, newline
and the quote (so runs of quotes never form; `\r` and inner whitespace
are allowed). -/
def mlGoodLine (l : List Nat) : Prop := ∀ b ∈ l, b ≠ 0 ∧ b ≠ 10 ∧ b ≠ 39

/-- Drop carriage returns, as `_readMLString` does. -/
def dropCR (l : List Nat) : List Nat := l.filter (fun b => decide (b ≠ 13))

/-- Encode the tail of a multiline body linewise: each `(k, l)` pair is a
physical line with `k` leading spaces of strippable indent and content
`l`; the body closes with `kf` spaces and the `'''` terminator. -/
def encPairs : List (Nat × List Nat) → Nat → List Nat → List Nat
  | [], kf, tail => List.replicate kf 32 ++ (39 :: 39 :: 39 :: tail)
  | (k, l) :: ps, kf, tail => List.replicate k 32 ++ (l ++ [10] ++ encPairs ps kf tail)

/-- Join logical lines with `\n`. -/
def mlJoin : List (List Nat) → List Nat
  | [] => []
  | [l] => l
  | l :: ls => l ++ [10] ++ mlJoin ls

theorem drop_tail_aux : ∀ (l : List Nat) (j : Nat), l.drop (j + 1) = (l.drop j).tail := by
  intro l
  induction l with
  | nil =>
    intro j
    rw [List.drop_nil, List.drop_nil]
    rfl
  | cons a l ih =>
    intro j
    cases j with
    | zero => rfl
    | succ j => exact ih j

theorem getD_headD_drop : ∀ (l : List Nat) (i : Nat),
    l.getD i 0 = (l.drop i).headD 0 := by
  intro l
  induction l with
  | nil =>
    intro i
    rw [List.drop_nil]
    simp [List.getD]
  | cons a l ih =>
    intro i
    cases i with
    | zero => rfl
    | succ i => exact ih i

theorem atRem_next (q : Parser) (b : Nat) (r : List Nat) (h : atRem q (b :: r)) :
    atRem (next q) r := by
  obtain ⟨h1, h2, h3⟩ := h
  rw [next_eq]
  refine ⟨by dsimp only; omega, ?_, ?_⟩
  · dsimp only
    have e : q.indexNext + 1 - 1 = (q.indexNext - 1) + 1 := by omega
    rw [e, drop_tail_aux, h2]
    rfl
  · dsimp only
    rw [getD_headD_drop]
    have e : q.indexNext = (q.indexNext - 1) + 1 := by omega
    rw [e, drop_tail_aux, h2]
    rfl

theorem skipIndentLoop_run : ∀ (k skip : Nat) (q : Parser) (r : List Nat),
    k ≤ skip →
    (k = skip ∨ ¬(0 < r.headD 0 ∧ r.headD 0 ≤ 32 ∧ r.headD 0 ≠ 10)) →
    atRem q (List.replicate k 32 ++ r) →
    ∃ q', skipIndentLoop q skip = q' ∧ atRem q' r := by
  intro k
  induction k with
  | zero =>
    intro skip q r hk hstop h
    cases skip with
    | zero => exact ⟨q, rfl, h⟩
    | succ s =>
      refine ⟨q, ?_, h⟩
      show (if 0 < q.ch ∧ q.ch ≤ 32 ∧ q.ch ≠ 10 then _ else q) = q
      rcases hstop with hstop | hstop
      · omega
      · rw [if_neg]
        intro hc
        apply hstop
        have hch : q.ch = r.headD 0 := h.2.2
        rw [hch] at hc
        exact hc
  | succ k ih =>
    intro skip q r hk hstop h
    obtain ⟨s, rfl⟩ : ∃ s, skip = s + 1 := ⟨skip - 1, by omega⟩
    have hch : q.ch = 32 := h.2.2
    have hnext : atRem (next q) (List.replicate k 32 ++ r) := atRem_next q 32 _ h
    obtain ⟨q', hq', hrem⟩ := ih s (next q) r (by omega)
      (by rcases hstop with hstop | hstop
          · exact Or.inl (by omega)
          · exact Or.inr hstop) hnext
    refine ⟨q', ?_, hrem⟩
    show (if 0 < q.ch ∧ q.ch ≤ 32 ∧ q.ch ≠ 10 then skipIndentLoop (next q) s else q) = q'
    rw [if_pos ⟨by omega, by omega, by omega⟩]
    exact hq'

/-- The `'''` terminator: three quotes return the accumulated body,
trimming one trailing newline when the last byte appended was a newline. -/
theorem mlLoop_term (indent : Nat) (res : List Nat) (lastLf : Bool) (q : Parser)
    (t : List Nat) (h : atRem q (39 :: 39 :: 39 :: t)) :
    mlLoop indent res 0 lastLf q =
      .ok ((if lastLf then res.dropLast else res), next (next (next q))) := by
  have h1 : q.ch = 39 := h.2.2
  have hr2 : atRem (next q) (39 :: 39 :: t) := atRem_next q 39 _ h
  have h2 : (next q).ch = 39 := hr2.2.2
  have hr3 : atRem (next (next q)) (39 :: t) := atRem_next _ 39 _ hr2
  have h3 : (next (next q)).ch = 39 := hr3.2.2
  rw [mlLoop_eq, if_neg (by omega), if_pos h1, if_neg (by decide)]
  rw [mlLoop_eq, if_neg (by omega), if_pos h2, if_neg (by decide)]
  rw [mlLoop_eq, if_neg (by omega), if_pos h3, if_pos (by decide)]
  cases lastLf <;> rfl

/-- Scanning one line's content: every byte is appended (`\r` dropped)
and `lastLf` clears as soon as a byte lands. -/
theorem mlLoop_content (indent : Nat) : ∀ (seg res : List Nat) (lastLf : Bool)
    (q : Parser) (r : List Nat),
    mlGoodLine seg → atRem q (seg ++ r) →
    ∃ q', atRem q' r ∧
      mlLoop indent res 0 lastLf q =
        mlLoop indent (res ++ dropCR seg) 0
          (if dropCR seg = [] then lastLf else false) q' := by
  intro seg
  induction seg with
  | nil =>
    intro res lastLf q r hg h
    refine ⟨q, h, ?_⟩
    rw [show dropCR [] = [] from rfl, List.append_nil, if_pos rfl]
  | cons b seg ih =>
    intro res lastLf q r hg h
    have hb := hg b (List.mem_cons_self b seg)
    have hch : q.ch = b := h.2.2
    have hnext : atRem (next q) (seg ++ r) := atRem_next q b _ h
    have hgs : mlGoodLine seg := fun x hx => hg x (List.mem_cons_of_mem b hx)
    by_cases h13 : b = 13
    · subst h13
      obtain ⟨q', hrem, heq⟩ := ih res lastLf (next q) r hgs hnext
      refine ⟨q', hrem, ?_⟩
      rw [mlLoop_eq, if_neg (by omega), if_neg (by omega), if_neg (by omega),
        if_pos (by omega)]
      rw [show (res ++ List.replicate 0 39) = res from by simp]
      rw [show (if 0 < 0 then false else lastLf) = lastLf from rfl]
      rw [heq]
      rw [show dropCR (13 :: seg) = dropCR seg from by simp [dropCR]]
    · obtain ⟨q', hrem, heq⟩ := ih (res ++ [b]) false (next q) r hgs hnext
      refine ⟨q', hrem, ?_⟩
      rw [mlLoop_eq, if_neg (by omega), if_neg (by omega), if_neg (by omega),
        if_neg (by omega)]
      rw [hch]
      rw [show ((res ++ List.replicate 0 39) ++ [b]) = res ++ [b] from by simp]
      rw [heq]
      have e1 : dropCR (b :: seg) = b :: dropCR seg := by
        simp [dropCR, h13]
      rw [e1]
      have e2 : (res ++ [b]) ++ dropCR seg = res ++ (b :: dropCR seg) := by simp
      rw [e2]
      have e3 : (if dropCR seg = [] then false else false) = false := by
        split <;> rfl
      rw [e3, if_neg (by simp)]

/-- A newline: append `\n`, set `lastLf`, and strip up to `indent` bytes
of the next line's leading whitespace. -/
theorem mlLoop_newline (indent k : Nat) (res : List Nat) (lastLf : Bool)
    (q : Parser) (cont : List Nat)
    (hk : k ≤ indent)
    (hstop : k = indent ∨ ¬(0 < cont.headD 0 ∧ cont.headD 0 ≤ 32 ∧ cont.headD 0 ≠ 10))
    (h : atRem q (10 :: (List.replicate k 32 ++ cont))) :
    ∃ q', atRem q' cont ∧
      mlLoop indent res 0 lastLf q = mlLoop indent (res ++ [10]) 0 true q' := by
  have hch : q.ch = 10 := h.2.2
  have hnext : atRem (next q) (List.replicate k 32 ++ cont) := atRem_next q 10 _ h
  obtain ⟨q', hq', hrem⟩ := skipIndentLoop_run k indent (next q) cont hk hstop hnext
  refine ⟨q', hrem, ?_⟩
  rw [mlLoop_eq, if_neg (by omega), if_neg (by omega), if_pos hch]
  rw [hq']
  rw [show ((res ++ List.replicate 0 39) ++ [10]) = res ++ [10] from by simp]

/-- The whole multiline body, linewise. -/
theorem mlLoop_body (indent : Nat) : ∀ (ps : List (Nat × List Nat))
    (l0 res tail : List Nat) (lastLf : Bool) (kf : Nat) (q : Parser),
    mlGoodLine l0 →
    (∀ pr ∈ ps, mlGoodLine pr.2 ∧ pr.1 ≤ indent ∧
      (pr.1 = indent ∨ pr.2 = [] ∨ 32 < pr.2.headD 0)) →
    kf ≤ indent →
    atRem q (l0 ++ [10] ++ encPairs ps kf tail) →
    ∃ q', mlLoop indent res 0 lastLf q =
      .ok (res ++ mlJoin (dropCR l0 :: ps.map (fun pr => dropCR pr.2)), q') := by
  intro ps
  induction ps with
  | nil =>
    intro l0 res tail lastLf kf q hg hps hkf h
    obtain ⟨q1, hrem1, heq1⟩ := mlLoop_content indent l0 res lastLf q
      ([10] ++ encPairs [] kf tail) hg (by simpa [List.append_assoc] using h)
    obtain ⟨q2, hrem2, heq2⟩ := mlLoop_newline indent kf (res ++ dropCR l0) _ q1
      (39 :: 39 :: 39 :: tail) hkf
      (Or.inr (by
        intro hc
        have e : (39 :: 39 :: 39 :: tail).headD 0 = 39 := rfl
        rw [e] at hc
        omega)) hrem1
    rw [heq1, heq2]
    rw [mlLoop_term indent _ true q2 tail hrem2]
    refine ⟨next (next (next q2)), ?_⟩
    rw [if_pos rfl]
    simp [mlJoin]
  | cons pr ps ih =>
    obtain ⟨k, l⟩ := pr
    intro l0 res tail lastLf kf q hg hps hkf h
    have hpr := hps (k, l) (List.mem_cons_self _ _)
    obtain ⟨q1, hrem1, heq1⟩ := mlLoop_content indent l0 res lastLf q
      ([10] ++ encPairs ((k, l) :: ps) kf tail) hg (by simpa [List.append_assoc] using h)
    have hstop : k = indent ∨
        ¬(0 < (l ++ [10] ++ encPairs ps kf tail).headD 0 ∧
          (l ++ [10] ++ encPairs ps kf tail).headD 0 ≤ 32 ∧
          (l ++ [10] ++ encPairs ps kf tail).headD 0 ≠ 10) := by
      rcases hpr.2.2 with hc | hc | hc
      · exact Or.inl hc
      · subst hc
        exact Or.inr (by simp)
      · cases l with
        | nil => simp at hc
        | cons a l' =>
          exact Or.inr (by
            intro hcc
            have : (((a :: l') ++ [10] ++ encPairs ps kf tail)).headD 0 = a := rfl
            rw [this] at hcc
            simp at hc
            omega)
    obtain ⟨q2, hrem2, heq2⟩ := mlLoop_newline indent k (res ++ dropCR l0) _ q1
      (l ++ [10] ++ encPairs ps kf tail) hpr.2.1 hstop
      (by
        have e : List.replicate k 32 ++ (l ++ [10] ++ encPairs ps kf tail) =
            List.replicate k 32 ++ (l ++ ([10] ++ encPairs ps kf tail)) := by
          simp [List.append_assoc]
        rw [show encPairs ((k, l) :: ps) kf tail =
          List.replicate k 32 ++ (l ++ [10] ++ encPairs ps kf tail) from rfl] at hrem1
        exact hrem1)
    obtain ⟨q', heq3⟩ := ih l ((res ++ dropCR l0) ++ [10]) tail true kf q2
      (hpr.1) (fun x hx => hps x (List.mem_cons_of_mem _ hx)) hkf hrem2
    rw [heq1, heq2, heq3]
    refine ⟨q', ?_⟩
    rw [List.map_cons]
    have ej : mlJoin (dropCR l0 :: dropCR l :: ps.map (fun pr => dropCR pr.2)) =
        (dropCR l0 ++ [10]) ++ mlJoin (dropCR l :: ps.map (fun pr => dropCR pr.2)) := rfl
    rw [ej]
    simp [List.append_assoc]

/-- A multiline body line is processable when it has no NUL or newline
byte and no run of three consecutive `'` (the argument tracks the pending
consecutive-quote count, as `_readMLString`'s `triple` does). -/
def mlOkB : Nat → List Nat → Bool
  | _, [] => true
  | t, b :: l =>
    decide (b ≠ 0) && decide (b ≠ 10) && decide (¬(b = 39 ∧ t + 1 = 3)) &&
      mlOkB (if b = 39 then t + 1 else 0) l

/-- What the body loop emits while scanning a line, starting with `t`
buffered quotes: `\r` is dropped, shorter-than-three quote runs are
buffered and flushed before the next literal byte; the second component is
the quote run left pending at the end of the line. -/
def mlProc : Nat → List Nat → List Nat × Nat
  | t, [] => ([], t)
  | t, b :: l =>
    if b = 39 then mlProc (t + 1) l
    else if b = 13 then
      (List.replicate t 39 ++ (mlProc 0 l).1, (mlProc 0 l).2)
    else
      (List.replicate t 39 ++ b :: (mlProc 0 l).1, (mlProc 0 l).2)

/-- Flushing the pending quotes after a whole line recovers the line with
its carriage returns dropped: short quote runs are literal content. -/
theorem mlProc_flush : ∀ (l : List Nat) (t : Nat),
    (mlProc t l).1 ++ List.replicate (mlProc t l).2 39 =
      List.replicate t 39 ++ dropCR l := by
  intro l
  induction l with
  | nil =>
    intro t
    simp [mlProc, dropCR]
  | cons b l ih =>
    intro t
    by_cases h39 : b = 39
    · subst h39
      rw [show mlProc t (39 :: l) = mlProc (t + 1) l from by simp [mlProc]]
      rw [ih (t + 1)]
      rw [show dropCR (39 :: l) = 39 :: dropCR l from by simp [dropCR]]
      simp [List.replicate_succ', List.append_assoc]
    · by_cases h13 : b = 13
      · subst h13
        rw [show mlProc t (13 :: l) =
          (List.replicate t 39 ++ (mlProc 0 l).1, (mlProc 0 l).2) from by
            simp [mlProc]]
        dsimp only
        rw [List.append_assoc, ih 0]
        rw [show dropCR (13 :: l) = dropCR l from by simp [dropCR]]
        simp
      · rw [show mlProc t (b :: l) =
          (List.replicate t 39 ++ b :: (mlProc 0 l).1, (mlProc 0 l).2) from by
            simp [mlProc, h39, h13]]
        dsimp only
        rw [List.append_assoc]
        rw [show (b :: (mlProc 0 l).1) ++ List.replicate (mlProc 0 l).2 39 =
          b :: ((mlProc 0 l).1 ++ List.replicate (mlProc 0 l).2 39) from rfl]
        rw [ih 0]
        rw [show dropCR (b :: l) = b :: dropCR l from by simp [dropCR, h13]]
        simp

/-- Scanning one line's content with `t` quotes already buffered: the loop
emits `(mlProc t seg).1` and ends the line with `(mlProc t seg).2` quotes
still buffered. -/
theorem mlLoop_contentQ (indent : Nat) : ∀ (seg res : List Nat) (t : Nat)
    (lastLf : Bool) (q : Parser) (r : List Nat),
    mlOkB t seg = true → atRem q (seg ++ r) →
    ∃ q' lf', atRem q' r ∧
      mlLoop indent res t lastLf q =
        mlLoop indent (res ++ (mlProc t seg).1) (mlProc t seg).2 lf' q' := by
  intro seg
  induction seg with
  | nil =>
    intro res t lastLf q r _ h
    refine ⟨q, lastLf, h, ?_⟩
    rw [show (mlProc t []).1 = [] from rfl, List.append_nil]
    rfl
  | cons b seg ih =>
    intro res t lastLf q r hok h
    rw [show mlOkB t (b :: seg) =
      (decide (b ≠ 0) && decide (b ≠ 10) && decide (¬(b = 39 ∧ t + 1 = 3)) &&
        mlOkB (if b = 39 then t + 1 else 0) seg) from rfl] at hok
    simp only [Bool.and_eq_true, decide_eq_true_eq] at hok
    obtain ⟨⟨⟨hb0, hb10⟩, hb39t⟩, hrest⟩ := hok
    have hch : q.ch = b := h.2.2
    have hnext : atRem (next q) (seg ++ r) := atRem_next q b _ h
    by_cases h39 : b = 39
    · subst h39
      rw [if_pos rfl] at hrest
      obtain ⟨q', lf', hrem, heq⟩ := ih res (t + 1) lastLf (next q) r hrest hnext
      refine ⟨q', lf', hrem, ?_⟩
      rw [mlLoop_eq, if_neg (by omega), if_pos hch,
        if_neg (fun hc => hb39t ⟨rfl, hc⟩)]
      rw [show mlProc t (39 :: seg) = mlProc (t + 1) seg from by simp [mlProc]]
      exact heq
    · rw [if_neg h39] at hrest
      by_cases h13 : b = 13
      · subst h13
        obtain ⟨q', lf', hrem, heq⟩ :=
          ih (res ++ List.replicate t 39) 0 (if 0 < t then false else lastLf)
            (next q) r hrest hnext
        refine ⟨q', lf', hrem, ?_⟩
        rw [mlLoop_eq, if_neg (by omega), if_neg (by omega), if_neg (by omega),
          if_pos (by omega)]
        rw [heq]
        rw [show mlProc t (13 :: seg) =
          (List.replicate t 39 ++ (mlProc 0 seg).1, (mlProc 0 seg).2) from by
            simp [mlProc]]
        rw [List.append_assoc]
      · obtain ⟨q', lf', hrem, heq⟩ :=
          ih ((res ++ List.replicate t 39) ++ [b]) 0 false (next q) r hrest hnext
        refine ⟨q', lf', hrem, ?_⟩
        rw [mlLoop_eq, if_neg (by omega), if_neg (by omega), if_neg (by omega),
          if_neg (by omega)]
        rw [hch, heq]
        rw [show mlProc t (b :: seg) =
          (List.replicate t 39 ++ b :: (mlProc 0 seg).1, (mlProc 0 seg).2) from by
            simp [mlProc, h39, h13]]
        rw [show res ++ (List.replicate t 39 ++ b :: (mlProc 0 seg).1) =
          ((res ++ List.replicate t 39) ++ [b]) ++ (mlProc 0 seg).1 from by
            simp [List.append_assoc]]

/-- A newline flushes the buffered quotes, appends `\n`, sets `lastLf`,
and strips up to `indent` bytes of the next line's leading whitespace. -/
theorem mlLoop_newlineQ (indent k : Nat) (res : List Nat) (t : Nat)
    (lastLf : Bool) (q : Parser) (cont : List Nat)
    (hk : k ≤ indent)
    (hstop : k = indent ∨
      ¬(0 < cont.headD 0 ∧ cont.headD 0 ≤ 32 ∧ cont.headD 0 ≠ 10))
    (h : atRem q (10 :: (List.replicate k 32 ++ cont))) :
    ∃ q', atRem q' cont ∧
      mlLoop indent res t lastLf q =
        mlLoop indent ((res ++ List.replicate t 39) ++ [10]) 0 true q' := by
  have hch : q.ch = 10 := h.2.2
  have hnext : atRem (next q) (List.replicate k 32 ++ cont) := atRem_next q 10 _ h
  obtain ⟨q', hq', hrem⟩ := skipIndentLoop_run k indent (next q) cont hk hstop hnext
  refine ⟨q', hrem, ?_⟩
  rw [mlLoop_eq, if_neg (by omega), if_neg (by omega), if_pos hch]
  rw [hq']

/-- The whole multiline body, linewise, with short quote runs allowed as
literal content. -/
theorem mlLoop_bodyQ (indent : Nat) : ∀ (ps : List (Nat × List Nat))
    (l0 res tail : List Nat) (lastLf : Bool) (kf : Nat) (q : Parser),
    mlOkB 0 l0 = true →
    (∀ pr ∈ ps, mlOkB 0 pr.2 = true ∧ pr.1 ≤ indent ∧
      (pr.1 = indent ∨ pr.2 = [] ∨ 32 < pr.2.headD 0)) →
    kf ≤ indent →
    atRem q (l0 ++ [10] ++ encPairs ps kf tail) →
    ∃ q', mlLoop indent res 0 lastLf q =
      .ok (res ++ mlJoin (dropCR l0 :: ps.map (fun pr => dropCR pr.2)), q') := by
  intro ps
  induction ps with
  | nil =>
    intro l0 res tail lastLf kf q hg hps hkf h
    obtain ⟨q1, lf1, hrem1, heq1⟩ := mlLoop_contentQ indent l0 res 0 lastLf q
      ([10] ++ encPairs [] kf tail) hg (by simpa [List.append_assoc] using h)
    obtain ⟨q2, hrem2, heq2⟩ := mlLoop_newlineQ indent kf
      (res ++ (mlProc 0 l0).1) (mlProc 0 l0).2 lf1 q1
      (39 :: 39 :: 39 :: tail) hkf
      (Or.inr (by
        intro hc
        have e : (39 :: 39 :: 39 :: tail).headD 0 = 39 := rfl
        rw [e] at hc
        omega)) hrem1
    rw [heq1, heq2]
    rw [mlLoop_term indent _ true q2 tail hrem2]
    refine ⟨next (next (next q2)), ?_⟩
    rw [if_pos rfl]
    rw [show (res ++ (mlProc 0 l0).1) ++ List.replicate (mlProc 0 l0).2 39 =
      res ++ ((mlProc 0 l0).1 ++ List.replicate (mlProc 0 l0).2 39) from by
        simp [List.append_assoc]]
    rw [mlProc_flush l0 0]
    simp [mlJoin]
  | cons pr ps ih =>
    obtain ⟨k, l⟩ := pr
    intro l0 res tail lastLf kf q hg hps hkf h
    have hpr := hps (k, l) (List.mem_cons_self _ _)
    obtain ⟨q1, lf1, hrem1, heq1⟩ := mlLoop_contentQ indent l0 res 0 lastLf q
      ([10] ++ encPairs ((k, l) :: ps) kf tail) hg
      (by simpa [List.append_assoc] using h)
    have hstop : k = indent ∨
        ¬(0 < (l ++ [10] ++ encPairs ps kf tail).headD 0 ∧
          (l ++ [10] ++ encPairs ps kf tail).headD 0 ≤ 32 ∧
          (l ++ [10] ++ encPairs ps kf tail).headD 0 ≠ 10) := by
      rcases hpr.2.2 with hc | hc | hc
      · exact Or.inl hc
      · subst hc
        exact Or.inr (by simp)
      · cases l with
        | nil => simp at hc
        | cons a l' =>
          exact Or.inr (by
            intro hcc
            have e : (((a :: l') ++ [10] ++ encPairs ps kf tail)).headD 0 = a := rfl
            rw [e] at hcc
            simp at hc
            omega)
    obtain ⟨q2, hrem2, heq2⟩ := mlLoop_newlineQ indent k
      (res ++ (mlProc 0 l0).1) (mlProc 0 l0).2 lf1 q1
      (l ++ [10] ++ encPairs ps kf tail) hpr.2.1 hstop
      (by
        rw [show encPairs ((k, l) :: ps) kf tail =
          List.replicate k 32 ++ (l ++ [10] ++ encPairs ps kf tail) from by
            simp [encPairs, List.append_assoc]] at hrem1
        exact hrem1)
    have efl : (res ++ (mlProc 0 l0).1) ++ List.replicate (mlProc 0 l0).2 39 =
        res ++ dropCR l0 := by
      rw [List.append_assoc, mlProc_flush l0 0]
      simp
    rw [efl] at heq2
    obtain ⟨q', heq3⟩ := ih l ((res ++ dropCR l0) ++ [10]) tail true kf q2
      (hpr.1) (fun x hx => hps x (List.mem_cons_of_mem _ hx)) hkf hrem2
    rw [heq1, heq2, heq3]
    refine ⟨q', ?_⟩
    rw [List.map_cons]
    have ej : mlJoin (dropCR l0 :: dropCR l :: ps.map (fun pr => dropCR pr.2)) =
        (dropCR l0 ++ [10]) ++ mlJoin (dropCR l :: ps.map (fun pr => dropCR pr.2)) := rfl
    rw [ej]
    simp [List.append_assoc]

/-! ### The brace-and-newlines input family, for the trivia-preservation
claim -/

/-- The loop-entry scanner state for the multiline example body
`hello\n  world\n  '''` (cursor on the `h`). -/
def mlWq : Parser :=
  { data := ascii "hello\n  world\n  '''", indexNext := 1, ch := 104,
    withoutBraces := false, opt := {}, vState := [], vParent := [] }

/-! ### The quoteless-value scan, stated the way the claim words it -/

/-- One past the last non-whitespace byte of `data` in the span `[s, t)`
(`s` itself if the span is empty or all whitespace). -/
def rtrimEnd (data : List Nat) (s : Nat) : Nat → Nat
  | 0 => s
  | t + 1 =>
    if t + 1 ≤ s then s
    else if isSpaceByte (data.getD t 0) then rtrimEnd data s t
    else t + 1

/-- The claim's `val` at a terminator met at position `t`: the text from
the first byte to the last non-whitespace byte. -/
def tfnnsVal (data : List Nat) (s t : Nat) : List Nat :=
  substr data s (rtrimEnd data s t)

/-- The claim's candidate test, phrased on the value text itself: exact
`true`/`false`/`null`, else a `-`/digit head handed to `tryParseNumber`. -/
def specCandidate (tn : List Nat → Option Value) (val : List Nat) : Option Value :=
  if val = ascii "true" then some (Value.ofCore (.bool true))
  else if val = ascii "false" then some (Value.ofCore (.bool false))
  else if val = ascii "null" then some (Value.ofCore .null)
  else if val.headD 0 = 45 ∨ (48 ≤ val.headD 0 ∧ val.headD 0 ≤ 57) then tn val
  else none

/-- The claim's reading of the quoteless scan, by input position: at each
terminator (`\r`/`\n`/EOF, or `,`/`}`/`]`/`#`/`//`/`/*`) test the trimmed
value; a failed `,`/`}`/`]`-class terminator does not end the value, and
end-of-line/EOF yields the trimmed text as a string. Returns the value,
the trimmed end position, and the stop position. -/
def tfnnsSpecF (tn : List Nat → Option Value) (data : List Nat) (s : Nat) :
    Nat → Nat → Value × Nat × Nat
  | 0, t => (Value.ofCore (.str (tfnnsVal data s t)), rtrimEnd data s t, t)
  | f + 1, t =>
    if (data.getD t 0 = 13 ∨ data.getD t 0 = 10 ∨ data.getD t 0 = 0) ∨
        data.getD t 0 = 44 ∨ data.getD t 0 = 125 ∨ data.getD t 0 = 93 ∨
        data.getD t 0 = 35 ∨
        (data.getD t 0 = 47 ∧ (data.getD (t + 1) 0 = 47 ∨ data.getD (t + 1) 0 = 42)) then
      match specCandidate tn (tfnnsVal data s t) with
      | some v => (v, rtrimEnd data s t, t)
      | none =>
        if data.getD t 0 = 13 ∨ data.getD t 0 = 10 ∨ data.getD t 0 = 0 then
          (Value.ofCore (.str (tfnnsVal data s t)), rtrimEnd data s t, t)
        else tfnnsSpecF tn data s f (t + 1)
    else tfnnsSpecF tn data s f (t + 1)

/-- The claim's scan, started on the byte after the value's first byte
`s`, with exactly the fuel the code's loop gets. -/
def tfnnsSpec (tn : List Nat → Option Value) (data : List Nat) (s : Nat) :
    Value × Nat × Nat :=
  tfnnsSpecF tn data s (data.length + 1 - s) (s + 1)

theorem headD_take (l : List Nat) (k : Nat) :
    (l.take (k + 1)).headD 0 = l.headD 0 := by
  cases l <;> rfl

theorem peek_zero (q : Parser) : peek q 0 = q.data.getD q.indexNext 0 := by
  unfold peek
  dsimp only
  split
  · next h =>
    have e : ((q.indexNext : Int) + 0).toNat = q.indexNext := by omega
    rw [e]
  · next h =>
    rw [List.getD_eq_default _ _ (by omega)]

theorem tfnnsCandidate_eq_spec (tn : List Nat → Option Value) (data : List Nat)
    (s e : Nat) (hse : s < e) (hel : e ≤ data.length) :
    tfnnsCandidate tn data s e = specCandidate tn (substr data s e) := by
  have hsl : s < data.length := lt_of_lt_of_le hse hel
  have hhead : (substr data s e).headD 0 = data.getD s 0 := by
    unfold substr
    obtain ⟨k, hk⟩ : ∃ k, e - s = k + 1 := ⟨e - s - 1, by omega⟩
    rw [hk, headD_take, ← getD_headD_drop]
  have hlen : (substr data s e).length = e - s := by
    unfold substr
    rw [List.length_take, List.length_drop]
    omega
  have hne116 : data.getD s 0 ≠ 116 → substr data s e ≠ ascii "true" := by
    intro hne hc
    apply hne
    rw [hc, show (ascii "true").headD 0 = 116 from rfl] at hhead
    exact hhead.symm
  have hne102 : data.getD s 0 ≠ 102 → substr data s e ≠ ascii "false" := by
    intro hne hc
    apply hne
    rw [hc, show (ascii "false").headD 0 = 102 from rfl] at hhead
    exact hhead.symm
  have hne110 : data.getD s 0 ≠ 110 → substr data s e ≠ ascii "null" := by
    intro hne hc
    apply hne
    rw [hc, show (ascii "null").headD 0 = 110 from rfl] at hhead
    exact hhead.symm
  unfold tfnnsCandidate
  split
  · next heq =>
    unfold specCandidate
    rw [if_neg (hne116 (by omega))]
    by_cases hf : substr data s e = ascii "false"
    · have h5 : e - s = 5 := by
        rw [hf, show (ascii "false").length = 5 from rfl] at hlen
        omega
      rw [if_pos ⟨h5, hf⟩, if_pos hf]
    · rw [if_neg (fun hc => hf hc.2), if_neg hf, if_neg (hne110 (by omega)),
        if_neg (by rw [hhead, heq]; decide)]
  · next heq =>
    unfold specCandidate
    rw [if_neg (hne116 (by omega)), if_neg (hne102 (by omega))]
    by_cases hf : substr data s e = ascii "null"
    · have h4 : e - s = 4 := by
        rw [hf, show (ascii "null").length = 4 from rfl] at hlen
        omega
      rw [if_pos ⟨h4, hf⟩, if_pos hf]
    · rw [if_neg (fun hc => hf hc.2), if_neg hf,
        if_neg (by rw [hhead, heq]; decide)]
  · next heq =>
    unfold specCandidate
    by_cases hf : substr data s e = ascii "true"
    · have h4 : e - s = 4 := by
        rw [hf, show (ascii "true").length = 4 from rfl] at hlen
        omega
      rw [if_pos ⟨h4, hf⟩, if_pos hf]
    · rw [if_neg (fun hc => hf hc.2), if_neg hf, if_neg (hne102 (by omega)),
        if_neg (hne110 (by omega)), if_neg (by rw [hhead, heq]; decide)]
  · next c h102 h110 h116 =>
    unfold specCandidate
    rw [if_neg (hne116 h116), if_neg (hne102 h102), if_neg (hne110 h110)]
    rw [hhead]

theorem rtrimEnd_succ_space (data : List Nat) (s t : Nat) (hst : s + 1 ≤ t)
    (hsp : isSpaceByte (data.getD t 0) = true) :
    rtrimEnd data s (t + 1) = rtrimEnd data s t := by
  show (if t + 1 ≤ s then s
    else if isSpaceByte (data.getD t 0) then rtrimEnd data s t else t + 1) = _
  rw [if_neg (by omega), if_pos hsp]

theorem rtrimEnd_succ_nonspace (data : List Nat) (s t : Nat) (hst : s + 1 ≤ t)
    (hsp : isSpaceByte (data.getD t 0) = false) :
    rtrimEnd data s (t + 1) = t + 1 := by
  show (if t + 1 ≤ s then s
    else if isSpaceByte (data.getD t 0) then rtrimEnd data s t else t + 1) = _
  rw [if_neg (by omega), if_neg (by rw [hsp]; exact Bool.false_ne_true)]

/-- The code's loop runs in lockstep with the claim's positional scan:
the tracked `[valStart, valEnd)` span is always the trimmed value. -/
theorem tfnns_lockstep (tn : List Nat → Option Value) : ∀ (f : Nat) (p : Parser)
    (s e t : Nat),
    p.indexNext = t → e = rtrimEnd p.data s t → s < e → e ≤ p.data.length →
    s + 1 ≤ t →
    ∃ q', readTfnns2LoopF tn f s e p =
      ((tfnnsSpecF tn p.data s f t).1, (tfnnsSpecF tn p.data s f t).2.1, q') := by
  intro f
  induction f with
  | zero =>
    intro p s e t ht he hse hel hst
    refine ⟨p, ?_⟩
    show (Value.ofCore (.str (substr p.data s e)), e, p) = _
    rw [he]
    rfl
  | succ f ih =>
    intro p s e t ht he hse hel hst
    have hdata : (next p).data = p.data := by rw [next_eq]
    have hb : (next p).ch = p.data.getD t 0 := by
      rw [next_eq]
      dsimp only
      rw [ht]
    have hnix : (next p).indexNext = t + 1 := by
      rw [next_eq]
      dsimp only
      rw [ht]
    have hb' : peek (next p) 0 = p.data.getD (t + 1) 0 := by
      rw [peek_zero, hdata, hnix]
    have hunf : readTfnns2LoopF tn (f + 1) s e p =
        (if ((next p).ch = 13 ∨ (next p).ch = 10 ∨ (next p).ch = 0) ∨
            (next p).ch = 44 ∨ (next p).ch = 125 ∨ (next p).ch = 93 ∨
            (next p).ch = 35 ∨
            ((next p).ch = 47 ∧ (peek (next p) 0 = 47 ∨ peek (next p) 0 = 42)) then
          match tfnnsCandidate tn p.data s e with
          | some v => (v, e, next p)
          | none =>
            if (next p).ch = 13 ∨ (next p).ch = 10 ∨ (next p).ch = 0 then
              (Value.ofCore (.str (substr p.data s e)), e, next p)
            else
              if isSpaceByte (next p).ch then
                readTfnns2LoopF tn f (if e ≤ s then s + 1 else s) e (next p)
              else
                readTfnns2LoopF tn f s (next p).indexNext (next p)
        else
          if isSpaceByte (next p).ch then
            readTfnns2LoopF tn f (if e ≤ s then s + 1 else s) e (next p)
          else
            readTfnns2LoopF tn f s (next p).indexNext (next p)) := rfl
    rw [hunf, hb, hb']
    by_cases hcond : (p.data.getD t 0 = 13 ∨ p.data.getD t 0 = 10 ∨
        p.data.getD t 0 = 0) ∨
        p.data.getD t 0 = 44 ∨ p.data.getD t 0 = 125 ∨ p.data.getD t 0 = 93 ∨
        p.data.getD t 0 = 35 ∨
        (p.data.getD t 0 = 47 ∧ (p.data.getD (t + 1) 0 = 47 ∨ p.data.getD (t + 1) 0 = 42))
    · rw [if_pos hcond]
      have hcand : tfnnsCandidate tn p.data s e =
          specCandidate tn (tfnnsVal p.data s t) := by
        rw [he]
        exact tfnnsCandidate_eq_spec tn p.data s _ (he ▸ hse) (he ▸ hel)
      rw [hcand]
      have hspec : tfnnsSpecF tn p.data s (f + 1) t =
          match specCandidate tn (tfnnsVal p.data s t) with
          | some v => (v, rtrimEnd p.data s t, t)
          | none =>
            if p.data.getD t 0 = 13 ∨ p.data.getD t 0 = 10 ∨ p.data.getD t 0 = 0 then
              (Value.ofCore (.str (tfnnsVal p.data s t)), rtrimEnd p.data s t, t)
            else tfnnsSpecF tn p.data s f (t + 1) := by
        show (if _ then _ else _) = _
        rw [if_pos hcond]
      rw [hspec]
      cases hc : specCandidate tn (tfnnsVal p.data s t) with
      | some v =>
        refine ⟨next p, ?_⟩
        dsimp only
        rw [he]
      | none =>
        dsimp only
        by_cases heol : p.data.getD t 0 = 13 ∨ p.data.getD t 0 = 10 ∨
            p.data.getD t 0 = 0
        · rw [if_pos heol, if_pos heol]
          refine ⟨next p, ?_⟩
          rw [he]
          rfl
        · rw [if_neg heol, if_neg heol]
          have hnz : p.data.getD t 0 ≠ 0 := fun hz => heol (Or.inr (Or.inr hz))
          have htl : t < p.data.length := by
            by_contra hcl
            exact hnz (List.getD_eq_default _ _ (by omega))
          have hnsp : isSpaceByte (p.data.getD t 0) = false := by
            rcases hcond with hcond | hcond
            · exact absurd hcond heol
            · rcases hcond with h | h | h | h | ⟨h, _⟩ <;> rw [h] <;> rfl
          rw [if_neg (by rw [hnsp]; exact Bool.false_ne_true)]
          rw [hnix]
          obtain ⟨q', hq⟩ := ih (next p) s (t + 1) (t + 1) hnix
            (by rw [hdata]
                exact (rtrimEnd_succ_nonspace p.data s t hst hnsp).symm)
            (by omega) (by rw [hdata]; omega) (by omega)
          rw [hdata] at hq
          exact ⟨q', hq⟩
    · rw [if_neg hcond]
      have hspec : tfnnsSpecF tn p.data s (f + 1) t =
          tfnnsSpecF tn p.data s f (t + 1) := by
        show (if _ then _ else _) = _
        rw [if_neg hcond]
      rw [hspec]
      have hnz : p.data.getD t 0 ≠ 0 := fun hz => hcond (Or.inl (Or.inr (Or.inr hz)))
      have htl : t < p.data.length := by
        by_contra hcl
        exact hnz (List.getD_eq_default _ _ (by omega))
      by_cases hsp : isSpaceByte (p.data.getD t 0) = true
      · rw [if_pos hsp]
        rw [if_neg (show ¬e ≤ s by omega)]
        obtain ⟨q', hq⟩ := ih (next p) s e (t + 1) hnix
          (by rw [hdata, rtrimEnd_succ_space p.data s t hst hsp]
              exact he)
          hse (by rw [hdata]; exact hel) (by omega)
        rw [hdata] at hq
        exact ⟨q', hq⟩
      · rw [if_neg hsp]
        rw [hnix]
        obtain ⟨q', hq⟩ := ih (next p) s (t + 1) (t + 1) hnix
          (by rw [hdata]
              exact (rtrimEnd_succ_nonspace p.data s t hst
                (Bool.eq_false_iff.mpr hsp)).symm)
          (by omega) (by rw [hdata]; omega) (by omega)
        rw [hdata] at hq
        exact ⟨q', hq⟩

/-- A concrete quoteless-value scanner state: cursor on the `t` of the
buffer `true`. -/
def tfWp : Parser :=
  { data := ascii "true", indexNext := 1, ch := 116,
    withoutBraces := false, opt := {}, vState := [], vParent := [] }

/-! ### Termination of the dispatch loop: a measure on scanner position
and state stack -/

/-- Weight of one parser state for the termination measure. -/
def stateWeight : ParseState → Nat
  | .valueEnd => 1
  | .mapElemBegin => 2
  | .mapBegin => 3
  | .vectorBegin => 3
  | .mapElemEnd => 3
  | .vectorElemEnd => 3
  | .valueBegin => 5

def stackWeight : List ParseState → Nat
  | [] => 0
  | st :: rest => stateWeight st + stackWeight rest

/-- The loop measure: scanner progress dominates stack-weight changes. -/
def pmu (p : Parser) : Nat := 16 * pm p + stackWeight p.vState

/-- The scanner sits on a byte that `_white` would not consume. -/
def noTrivia (q : Parser) : Prop :=
  ¬(0 < q.ch ∧ q.ch ≤ 32) ∧ q.ch ≠ 35 ∧
    ¬(q.ch = 47 ∧ (peek q 0 = 47 ∨ peek q 0 = 42))

/-- Reachability facts the dispatch loop maintains: a `VectorBegin` on top
was put there looking at `[`, and everything below the top of the state
stack is a container elem-end state. -/
def stackInv (p : Parser) : Prop :=
  (p.vState.head? = some .vectorBegin → p.ch = 91) ∧
    ∀ st ∈ p.vState.tail, st = .mapElemEnd ∨ st = .vectorElemEnd

theorem pm_whiteLoopF_le : ∀ (f : Nat) (p : Parser) (hasC : Bool),
    pm (whiteLoopF f p hasC).1 ≤ pm p := by
  intro f
  induction f with
  | zero => intro p hasC; exact le_rfl
  | succ f ih =>
    intro p hasC
    show pm (if 0 < p.ch then _ else _ : Parser × Bool).1 ≤ pm p
    by_cases h0 : 0 < p.ch
    · rw [if_pos h0]
      split
      · exact le_trans (ih _ _) (le_trans (pm_skipToEolF_le _ _) (pm_whiteSkipWs_le p))
      · split
        · exact le_trans (ih _ _)
            (le_of_lt (pm_triviaStep_lt whiteSkipWs pm_whiteSkipWs_le p (by omega)))
        · exact pm_whiteSkipWs_le p
    · rw [if_neg h0]

theorem pm_white_le (p : Parser) : pm (white p).2 ≤ pm p :=
  pm_whiteLoopF_le (pm p + 1) p false

theorem pm_gcaLoopF_le : ∀ (f : Nat) (p : Parser) (hasC : Bool),
    pm (gcaLoopF f p hasC).1 ≤ pm p := by
  intro f
  induction f with
  | zero => intro p hasC; exact le_rfl
  | succ f ih =>
    intro p hasC
    show pm (if 0 < p.ch then _ else _ : Parser × Bool).1 ≤ pm p
    by_cases h0 : 0 < p.ch
    · rw [if_pos h0]
      split
      · exact le_trans (ih _ _)
          (le_trans (pm_skipToEolF_le _ _) (pm_whiteSkipWsToEol_le p))
      · split
        · exact le_trans (ih _ _)
            (le_of_lt (pm_triviaStep_lt whiteSkipWsToEol pm_whiteSkipWsToEol_le p
              (by omega)))
        · exact pm_whiteSkipWsToEol_le p
    · rw [if_neg h0]

theorem pm_gca_le (p : Parser) : pm (getCommentAfter p).2 ≤ pm p :=
  pm_gcaLoopF_le (pm p + 1) p p.opt.whitespaceAsComments

theorem whiteSkipWs_exit_aux : ∀ (n : Nat) (p : Parser), pm p ≤ n →
    ¬(0 < (whiteSkipWs p).ch ∧ (whiteSkipWs p).ch ≤ 32) := by
  intro n
  induction n with
  | zero =>
    intro p hp
    by_cases hch : p.ch = 0
    · rw [whiteSkipWs_eq, if_neg (by omega)]
      omega
    · exfalso
      unfold pm at hp
      rw [if_neg hch] at hp
      omega
  | succ n ih =>
    intro p hp
    by_cases h : 0 < p.ch ∧ p.ch ≤ 32
    · rw [whiteSkipWs_eq, if_pos h]
      exact ih (next p) (by have := pm_next_lt p (by omega); omega)
    · rw [whiteSkipWs_eq, if_neg h]
      exact h

theorem whiteSkipWs_noWs (p : Parser) :
    ¬(0 < (whiteSkipWs p).ch ∧ (whiteSkipWs p).ch ≤ 32) :=
  whiteSkipWs_exit_aux (pm p) p le_rfl

theorem whiteLoop_exit : ∀ (n : Nat) (p : Parser) (hasC : Bool), pm p ≤ n →
    noTrivia (whiteLoop p hasC).1 := by
  intro n
  induction n with
  | zero =>
    intro p hasC hp
    have hch : p.ch = 0 := by
      by_contra hch
      unfold pm at hp
      rw [if_neg hch] at hp
      omega
    rw [whiteLoop_eq, if_neg (by omega)]
    dsimp only
    exact ⟨by omega, by omega, by rintro ⟨h47, _⟩; omega⟩
  | succ n ih =>
    intro p hasC hp
    rw [whiteLoop_eq]
    by_cases h0 : 0 < p.ch
    · rw [if_pos h0]
      split
      · next h2 =>
        refine ih _ _ ?_
        have hlt : pm (skipToEol (whiteSkipWs p)) < pm p :=
          lt_of_lt_of_le
            (pm_skipToEol_lt (whiteSkipWs p)
              (by rcases h2 with h2 | ⟨h2, _⟩ <;> omega)
              (by rcases h2 with h2 | ⟨h2, _⟩ <;> omega))
            (pm_whiteSkipWs_le p)
        omega
      · split
        · next h3 =>
          refine ih _ _ ?_
          have hlt : pm (triviaStep whiteSkipWs p) < pm p :=
            pm_triviaStep_lt whiteSkipWs pm_whiteSkipWs_le p (by omega)
          omega
        · next h2 h3 =>
          refine ⟨whiteSkipWs_noWs p, ?_, ?_⟩
          · intro hc
            exact h2 (Or.inl hc)
          · rintro ⟨hc, hpk | hpk⟩
            · exact h2 (Or.inr ⟨hc, hpk⟩)
            · exact h3 ⟨hc, hpk⟩
    · rw [if_neg h0]
      dsimp only
      exact ⟨by omega, by omega, by rintro ⟨h47, _⟩; omega⟩

theorem white_exit (p : Parser) : noTrivia (white p).2 :=
  whiteLoop_exit (pm p) p false le_rfl

theorem white_noop (p : Parser) (h : noTrivia p) : (white p).2 = p := by
  show (whiteLoop p false).1 = p
  rw [whiteLoop_eq]
  by_cases h0 : 0 < p.ch
  · rw [if_pos h0]
    have hws : whiteSkipWs p = p := by rw [whiteSkipWs_eq, if_neg h.1]
    rw [hws]
    rw [if_neg (by rintro (hc | ⟨hc, hpk⟩)
                   · exact h.2.1 hc
                   · exact h.2.2 ⟨hc, Or.inl hpk⟩)]
    rw [if_neg (by rintro ⟨hc, hpk⟩
                   exact h.2.2 ⟨hc, Or.inr hpk⟩)]
  · rw [if_neg h0]

theorem pm_le_rm_add_one (x : Parser) : pm x ≤ rm x + 1 := by
  unfold pm rm
  split <;> omega

theorem pm_eq_rm_add_one (x : Parser) (h : x.ch ≠ 0) : pm x = rm x + 1 := by
  unfold pm rm
  rw [if_neg h]

theorem rm_skipIndentLoop_le : ∀ (skip : Nat) (p : Parser),
    rm (skipIndentLoop p skip) ≤ rm p := by
  intro skip
  induction skip with
  | zero => intro p; exact le_rfl
  | succ skip ih =>
    intro p
    show rm (if _ then skipIndentLoop (next p) skip else p) ≤ rm p
    split
    · exact le_trans (ih (next p)) (rm_next_le p)
    · exact le_rfl

theorem rm_whiteSkipWsToEolF_le (f : Nat) (p : Parser) :
    rm (whiteSkipWsToEolF f p) ≤ rm p := by
  induction f generalizing p with
  | zero => exact le_rfl
  | succ f ih =>
    show rm (if _ then whiteSkipWsToEolF f (next p) else p) ≤ rm p
    split
    · exact le_trans (ih (next p)) (rm_next_le p)
    · exact le_rfl

theorem rm_mlLoopF_ok : ∀ (f indent : Nat) (res : List Nat) (triple : Nat)
    (lastLf : Bool) (p : Parser) (s : List Nat) (q : Parser),
    mlLoopF indent f res triple lastLf p = .ok (s, q) → rm q ≤ rm p := by
  intro f
  induction f with
  | zero =>
    intro indent res triple lastLf p s q h
    injection h with h
    injection h with h1 h2
    subst h2
    exact le_rfl
  | succ f ih =>
    intro indent res triple lastLf p s q h
    show rm q ≤ rm p
    rw [show mlLoopF indent (f + 1) res triple lastLf p =
      (if p.ch = 0 then .error (.syn (errAt p (ascii "Bad multiline string")))
       else if p.ch = 39 then
         if triple + 1 = 3 then
           (if lastLf then .ok (res.dropLast, next p) else .ok (res, next p))
         else mlLoopF indent f res (triple + 1) lastLf (next p)
       else if p.ch = 10 then
         mlLoopF indent f ((res ++ List.replicate triple 39) ++ [10]) 0 true
           (skipIndentLoop (next p) indent)
       else if p.ch = 13 then
         mlLoopF indent f (res ++ List.replicate triple 39) 0
           (if 0 < triple then false else lastLf) (next p)
       else
         mlLoopF indent f ((res ++ List.replicate triple 39) ++ [p.ch]) 0 false
           (next p)) from rfl] at h
    split at h
    · exact absurd h (by simp)
    · split at h
      · split at h
        · split at h
          · injection h with h
            injection h with h1 h2
            subst h2
            exact rm_next_le p
          · injection h with h
            injection h with h1 h2
            subst h2
            exact rm_next_le p
        · exact le_trans (ih _ _ _ _ _ _ _ h) (rm_next_le p)
      · split at h
        · exact le_trans (ih _ _ _ _ _ _ _ h)
            (le_trans (rm_skipIndentLoop_le _ _) (rm_next_le p))
        · split at h
          · exact le_trans (ih _ _ _ _ _ _ _ h) (rm_next_le p)
          · exact le_trans (ih _ _ _ _ _ _ _ h) (rm_next_le p)

theorem rm_readMLString_ok (p : Parser) (s : List Nat) (q : Parser)
    (h : readMLString p = .ok (s, q)) : rm q ≤ rm p := by
  unfold readMLString at h
  refine le_trans (rm_mlLoopF_ok _ _ _ _ _ _ _ _ h) ?_
  split
  · exact le_trans (rm_skipIndentLoop_le _ _)
      (le_trans (rm_next_le _) (rm_whiteSkipWsToEolF_le _ _))
  · exact rm_whiteSkipWsToEolF_le _ _

theorem rm_readStringLoopF_ok : ∀ (f : Nat) (allowML : Bool) (exitCh : Nat)
    (res : List Nat) (p : Parser) (s : List Nat) (q : Parser),
    readStringLoopF allowML exitCh f res p = .ok (s, q) → rm q ≤ rm p := by
  intro f
  induction f with
  | zero =>
    intro allowML exitCh res p s q h
    injection h with h
    injection h with h1 h2
    subst h2
    exact le_rfl
  | succ f ih =>
    intro allowML exitCh res p s q h
    show rm q ≤ rm p
    rw [show readStringLoopF allowML exitCh (f + 1) res p =
      (if nextOk p then
        if (next p).ch = exitCh then
          if allowML ∧ exitCh = 39 ∧ (next (next p)).ch = 39 ∧ res = [] then
            readMLString (next (next (next p)))
          else
            .ok (res, next (next p))
        else if (next p).ch = 92 then
          if (next (next p)).ch = 117 then
            match hexVal (next (next (next p))).ch with
            | none => .error (.syn (errAt (next (next (next p)))
                (ascii "Bad \\u char " ++ [(next (next (next p))).ch])))
            | some n1 =>
            match hexVal (next (next (next (next p)))).ch with
            | none => .error (.syn (errAt (next (next (next (next p))))
                (ascii "Bad \\u char " ++ [(next (next (next (next p)))).ch])))
            | some n2 =>
            match hexVal (next (next (next (next (next p))))).ch with
            | none => .error (.syn (errAt (next (next (next (next (next p)))))
                (ascii "Bad \\u char " ++ [(next (next (next (next (next p))))).ch])))
            | some n3 =>
            match hexVal (next (next (next (next (next (next p)))))).ch with
            | none => .error (.syn (errAt (next (next (next (next (next (next p))))))
                (ascii "Bad \\u char " ++
                  [(next (next (next (next (next (next p)))))).ch])))
            | some n4 =>
            match toUtf8 res (((n1 * 16 + n2) * 16 + n3) * 16 + n4) with
            | .error e => .error e
            | .ok res1 =>
              readStringLoopF allowML exitCh f res1
                (next (next (next (next (next (next p))))))
          else if escapee (next (next p)).ch ≠ 0 then
            readStringLoopF allowML exitCh f (res ++ [escapee (next (next p)).ch])
              (next (next p))
          else
            .error (.syn (errAt (next (next p))
              (ascii "Bad escape \\" ++ [(next (next p)).ch])))
        else if (next p).ch = 10 ∨ (next p).ch = 13 then
          .error (.syn (errAt (next p) (ascii "Bad string containing newline")))
        else
          readStringLoopF allowML exitCh f (res ++ [(next p).ch]) (next p)
      else
        .error (.syn (errAt (next p) (ascii "Bad string")))) from rfl] at h
    split at h
    · split at h
      · split at h
        · exact le_trans (rm_readMLString_ok _ _ _ h)
            (le_trans (rm_next_le _) (le_trans (rm_next_le _) (rm_next_le _)))
        · injection h with h
          injection h with h1 h2
          subst h2
          exact le_trans (rm_next_le _) (rm_next_le _)
      · split at h
        · split at h
          · split at h
            · exact absurd h (by simp)
            · split at h
              · exact absurd h (by simp)
              · split at h
                · exact absurd h (by simp)
                · split at h
                  · exact absurd h (by simp)
                  · split at h
                    · exact absurd h (by simp)
                    · refine le_trans (ih _ _ _ _ _ _ h) ?_
                      exact le_trans (rm_next_le _) (le_trans (rm_next_le _)
                        (le_trans (rm_next_le _) (le_trans (rm_next_le _)
                          (le_trans (rm_next_le _) (rm_next_le _)))))
          · split at h
            · exact le_trans (ih _ _ _ _ _ _ h)
                (le_trans (rm_next_le _) (rm_next_le _))
            · exact absurd h (by simp)
        · split at h
          · exact absurd h (by simp)
          · exact le_trans (ih _ _ _ _ _ _ h) (rm_next_le _)
    · exact absurd h (by simp)

theorem rm_readStringLoop_ok (allowML : Bool) (exitCh : Nat) (res : List Nat)
    (p : Parser) (s : List Nat) (q : Parser)
    (h : readStringLoop allowML exitCh res p = .ok (s, q)) : rm q ≤ rm p :=
  rm_readStringLoopF_ok _ _ _ _ _ _ _ h

theorem readString_ok_rm_lt (p : Parser) (allowML : Bool) (s : List Nat)
    (q : Parser) (h : readString p allowML = .ok (s, q)) : rm q < rm p := by
  unfold readString at h
  rw [readStringLoop_eq] at h
  split at h
  · next hok =>
    have hlt : rm (next p) < rm p := rm_next_lt_of_nextOk p hok
    split at h
    · split at h
      · exact lt_of_le_of_lt
          (le_trans (rm_readMLString_ok _ _ _ h)
            (le_trans (rm_next_le _) (rm_next_le _))) hlt
      · injection h with h
        injection h with h1 h2
        subst h2
        exact lt_of_le_of_lt (rm_next_le _) hlt
    · split at h
      · split at h
        · split at h
          · exact absurd h (by simp)
          · split at h
            · exact absurd h (by simp)
            · split at h
              · exact absurd h (by simp)
              · split at h
                · exact absurd h (by simp)
                · split at h
                  · exact absurd h (by simp)
                  · refine lt_of_le_of_lt
                      (le_trans (rm_readStringLoop_ok _ _ _ _ _ _ h) ?_) hlt
                    exact le_trans (rm_next_le _) (le_trans (rm_next_le _)
                      (le_trans (rm_next_le _) (le_trans (rm_next_le _)
                        (rm_next_le _))))
        · split at h
          · exact lt_of_le_of_lt
              (le_trans (rm_readStringLoop_ok _ _ _ _ _ _ h) (rm_next_le _)) hlt
          · exact absurd h (by simp)
      · split at h
        · exact absurd h (by simp)
        · exact lt_of_le_of_lt (rm_readStringLoop_ok _ _ _ _ _ _ h) hlt
  · exact absurd h (by simp)

theorem pm_readString_ok_lt (p : Parser) (allowML : Bool) (s : List Nat)
    (q : Parser) (h0 : p.ch ≠ 0) (h : readString p allowML = .ok (s, q)) :
    pm q < pm p := by
  have h1 := readString_ok_rm_lt p allowML s q h
  have h2 := pm_le_rm_add_one q
  rw [pm_eq_rm_add_one p h0]
  omega

theorem indexNext_next (p : Parser) : (next p).indexNext = p.indexNext + 1 := by
  unfold next
  split <;> rfl

theorem pm_readKeynameLoop_ok : ∀ (n : Nat) (p : Parser) (keyStart keyEnd : Nat)
    (firstSpace : Option Nat) (s : List Nat) (q : Parser), pm p < n →
    readKeynameLoop p keyStart keyEnd firstSpace = .ok (s, q) → pm q ≤ pm p := by
  intro n
  induction n with
  | zero => intro p a b fs s q hn; omega
  | succ n ih =>
    intro p a b fs s q hn h
    rw [readKeynameLoop_eq] at h
    split at h
    · split at h
      · exact absurd h (by simp)
      · split at h
        · split at h
          · exact absurd h (by simp)
          · injection h with h
            injection h with h1 h2
            subst h2
            exact le_rfl
        · injection h with h
          injection h with h1 h2
          subst h2
          exact le_rfl
    · split at h
      · split at h
        · exact absurd h (by simp)
        · next hws h0 =>
          have hlt := pm_next_lt p h0
          exact le_trans (ih (next p) _ _ _ _ _ (by omega) h) (pm_next_le p)
      · split at h
        · exact absurd h (by simp)
        · next hws hp =>
          have hlt := pm_next_lt p (by omega)
          exact le_trans (ih (next p) _ _ _ _ _ (by omega) h) (pm_next_le p)

theorem pm_readKeyname_ok (p : Parser) (s : List Nat) (q : Parser)
    (h : readKeyname p = .ok (s, q)) : pm q ≤ pm p := by
  unfold readKeyname at h
  split at h
  · next hq =>
    exact le_of_lt (pm_readString_ok_lt p false s q (by omega) h)
  · exact pm_readKeynameLoop_ok (pm p + 1) _ _ _ _ _ _ (Nat.lt_succ_self _) h

theorem tfnnsLoop_valEnd_ge (tn : List Nat → Option Value) :
    ∀ (n valStart valEnd : Nat) (p : Parser), rm p < n →
    valEnd ≤ p.indexNext + 1 →
    valEnd ≤ (readTfnns2Loop tn valStart valEnd p).2.1 := by
  intro n
  induction n with
  | zero => intro a e p hn; omega
  | succ n ih =>
    intro a e p hn he
    have hstep : (next p).ch ≠ 0 → rm (next p) < rm p := fun hz =>
      rm_next_lt_of_nextOk p (nextOk_of_next_ch_ne p hz)
    rw [readTfnns2Loop_eq]
    split
    · next hterm =>
      cases hc : tfnnsCandidate tn p.data a e with
      | some v => exact le_rfl
      | none =>
        dsimp only
        split
        · exact le_rfl
        · next heol =>
          have hnz : (next p).ch ≠ 0 := fun hz => heol (Or.inr (Or.inr hz))
          split
          · exact ih _ e (next p) (by have := hstep hnz; omega)
              (by rw [indexNext_next]; omega)
          · refine le_trans ?_ (ih a (next p).indexNext (next p)
              (by have := hstep hnz; omega) (by omega))
            rw [indexNext_next]
            omega
    · next hterm =>
      have hnz : (next p).ch ≠ 0 := fun hz => hterm (Or.inl (Or.inr (Or.inr hz)))
      split
      · exact ih _ e (next p) (by have := hstep hnz; omega)
          (by rw [indexNext_next]; omega)
      · refine le_trans ?_ (ih a (next p).indexNext (next p)
          (by have := hstep hnz; omega) (by omega))
        rw [indexNext_next]
        omega

theorem pm_readTfnns_ok (tn : List Nat → Option Value) (p : Parser) (v : Value)
    (q : Parser) (hns : isSpaceByte p.ch = false)
    (h : readTfnns tn p = .ok (v, q)) :
    pm q ≤ pm p ∧ (p.ch ≠ 0 → pm q < pm p) := by
  unfold readTfnns at h
  split at h
  · exact absurd h (by simp)
  · next v1 e1 p1 heq =>
    injection h with h
    injection h with h1 h2
    subst h2
    unfold readTfnns2 at heq
    split at heq
    · exact absurd heq (by simp)
    · rw [if_neg (by rw [hns]; exact Bool.false_ne_true)] at heq
      injection heq with heq
      have hge : p.indexNext ≤ e1 := by
        have h5 := tfnnsLoop_valEnd_ge tn (rm p + 1) (p.indexNext - 1) p.indexNext p
          (Nat.lt_succ_self _) (by omega)
        rw [heq] at h5
        exact h5
      have hdata : p1.data = p.data := by
        have h6 := sameShape_readTfnns2LoopF tn (rm p + 1) (p.indexNext - 1)
          p.indexNext p
        rw [show readTfnns2LoopF tn (rm p + 1) (p.indexNext - 1) p.indexNext p =
          readTfnns2Loop tn (p.indexNext - 1) p.indexNext p from rfl, heq] at h6
        exact h6.1
      rw [next_eq]
      unfold pm
      dsimp only
      rw [hdata]
      by_cases hz : p.data.getD e1 0 = 0
      · rw [if_pos hz]
        by_cases hpz : p.ch = 0
        · rw [if_pos hpz]
          constructor
          · omega
          · intro hc
            exact absurd hpz hc
        · rw [if_neg hpz]
          constructor
          · omega
          · intro
            omega
      · rw [if_neg hz]
        have hlt : e1 < p.data.length := by
          by_contra hcl
          exact hz (List.getD_eq_default _ _ (by omega))
        by_cases hpz : p.ch = 0
        · rw [if_pos hpz]
          constructor
          · omega
          · intro hc
            exact absurd hpz hc
        · rw [if_neg hpz]
          constructor
          · omega
          · intro
            omega

theorem toUtf8_nf (res : List Nat) (u : Nat) : toUtf8 res u ≠ .error .fuelOut := by
  unfold toUtf8
  split
  · simp
  · split
    · simp
    · split
      · simp
      · split <;> simp

theorem mlLoopF_nf : ∀ (f indent : Nat) (res : List Nat) (triple : Nat)
    (lastLf : Bool) (p : Parser),
    mlLoopF indent f res triple lastLf p ≠ .error .fuelOut := by
  intro f
  induction f with
  | zero => intro indent res triple lastLf p; simp [mlLoopF]
  | succ f ih =>
    intro indent res triple lastLf p
    intro h
    rw [show mlLoopF indent (f + 1) res triple lastLf p =
      (if p.ch = 0 then .error (.syn (errAt p (ascii "Bad multiline string")))
       else if p.ch = 39 then
         if triple + 1 = 3 then
           (if lastLf then .ok (res.dropLast, next p) else .ok (res, next p))
         else mlLoopF indent f res (triple + 1) lastLf (next p)
       else if p.ch = 10 then
         mlLoopF indent f ((res ++ List.replicate triple 39) ++ [10]) 0 true
           (skipIndentLoop (next p) indent)
       else if p.ch = 13 then
         mlLoopF indent f (res ++ List.replicate triple 39) 0
           (if 0 < triple then false else lastLf) (next p)
       else
         mlLoopF indent f ((res ++ List.replicate triple 39) ++ [p.ch]) 0 false
           (next p)) from rfl] at h
    split at h
    · exact absurd h (by simp)
    · split at h
      · split at h
        · split at h <;> exact absurd h (by simp)
        · exact ih _ _ _ _ _ h
      · split at h
        · exact ih _ _ _ _ _ h
        · split at h
          · exact ih _ _ _ _ _ h
          · exact ih _ _ _ _ _ h

theorem readMLString_nf (p : Parser) : readMLString p ≠ .error .fuelOut := by
  unfold readMLString
  exact mlLoopF_nf _ _ _ _ _ _

set_option maxHeartbeats 1000000 in
theorem readStringLoopF_nf : ∀ (f : Nat) (allowML : Bool) (exitCh : Nat)
    (res : List Nat) (p : Parser),
    readStringLoopF allowML exitCh f res p ≠ .error .fuelOut := by
  intro f
  induction f with
  | zero => intro allowML exitCh res p; simp [readStringLoopF]
  | succ f ih =>
    intro allowML exitCh res p h
    rw [show readStringLoopF allowML exitCh (f + 1) res p =
      (if nextOk p then
        if (next p).ch = exitCh then
          if allowML ∧ exitCh = 39 ∧ (next (next p)).ch = 39 ∧ res = [] then
            readMLString (next (next (next p)))
          else
            .ok (res, next (next p))
        else if (next p).ch = 92 then
          if (next (next p)).ch = 117 then
            match hexVal (next (next (next p))).ch with
            | none => .error (.syn (errAt (next (next (next p)))
                (ascii "Bad \\u char " ++ [(next (next (next p))).ch])))
            | some n1 =>
            match hexVal (next (next (next (next p)))).ch with
            | none => .error (.syn (errAt (next (next (next (next p))))
                (ascii "Bad \\u char " ++ [(next (next (next (next p)))).ch])))
            | some n2 =>
            match hexVal (next (next (next (next (next p))))).ch with
            | none => .error (.syn (errAt (next (next (next (next (next p)))))
                (ascii "Bad \\u char " ++ [(next (next (next (next (next p))))).ch])))
            | some n3 =>
            match hexVal (next (next (next (next (next (next p)))))).ch with
            | none => .error (.syn (errAt (next (next (next (next (next (next p))))))
                (ascii "Bad \\u char " ++
                  [(next (next (next (next (next (next p)))))).ch])))
            | some n4 =>
            match toUtf8 res (((n1 * 16 + n2) * 16 + n3) * 16 + n4) with
            | .error e => .error e
            | .ok res1 =>
              readStringLoopF allowML exitCh f res1
                (next (next (next (next (next (next p))))))
          else if escapee (next (next p)).ch ≠ 0 then
            readStringLoopF allowML exitCh f (res ++ [escapee (next (next p)).ch])
              (next (next p))
          else
            .error (.syn (errAt (next (next p))
              (ascii "Bad escape \\" ++ [(next (next p)).ch])))
        else if (next p).ch = 10 ∨ (next p).ch = 13 then
          .error (.syn (errAt (next p) (ascii "Bad string containing newline")))
        else
          readStringLoopF allowML exitCh f (res ++ [(next p).ch]) (next p)
      else
        .error (.syn (errAt (next p) (ascii "Bad string")))) from rfl] at h
    split at h
    · split at h
      · split at h
        · exact readMLString_nf _ h
        · exact absurd h (by simp)
      · split at h
        · split at h
          · split at h
            · exact absurd h (by simp)
            · split at h
              · exact absurd h (by simp)
              · split at h
                · exact absurd h (by simp)
                · split at h
                  · exact absurd h (by simp)
                  · split at h
                    · next e heq =>
                      injection h with h
                      subst h
                      exact toUtf8_nf _ _ heq
                    · exact ih _ _ _ _ h
          · split at h
            · exact ih _ _ _ _ h
            · exact absurd h (by simp)
        · split at h
          · exact absurd h (by simp)
          · exact ih _ _ _ _ h
    · exact absurd h (by simp)

theorem readString_nf (p : Parser) (allowML : Bool) :
    readString p allowML ≠ .error .fuelOut := by
  unfold readString readStringLoop
  exact readStringLoopF_nf _ _ _ _ _

theorem readKeynameLoop_nf : ∀ (n : Nat) (p : Parser) (keyStart keyEnd : Nat)
    (firstSpace : Option Nat), pm p < n →
    readKeynameLoop p keyStart keyEnd firstSpace ≠ .error .fuelOut := by
  intro n
  induction n with
  | zero => intro p a b fs hn; omega
  | succ n ih =>
    intro p a b fs hn h
    rw [readKeynameLoop_eq] at h
    split at h
    · split at h
      · exact absurd h (by simp)
      · split at h
        · split at h
          · exact absurd h (by simp)
          · exact absurd h (by simp)
        · exact absurd h (by simp)
    · split at h
      · split at h
        · exact absurd h (by simp)
        · next hws h0 =>
          have := pm_next_lt p h0
          exact ih (next p) _ _ _ (by omega) h
      · split at h
        · exact absurd h (by simp)
        · next hws hp =>
          have := pm_next_lt p (by omega)
          exact ih (next p) _ _ _ (by omega) h

theorem readKeyname_nf (p : Parser) : readKeyname p ≠ .error .fuelOut := by
  unfold readKeyname
  split
  · exact readString_nf _ _
  · exact readKeynameLoop_nf (pm p + 1) _ _ _ _ (Nat.lt_succ_self _)

theorem readTfnns_nf (tn : List Nat → Option Value) (p : Parser) :
    readTfnns tn p ≠ .error .fuelOut := by
  unfold readTfnns
  intro h
  split at h
  · next e heq =>
    injection h with h
    subst h
    unfold readTfnns2 at heq
    split at heq
    · exact absurd heq (by simp)
    · split at heq
      · exact absurd heq (by simp)
      · exact absurd heq (by simp)
  · exact absurd h (by simp)

theorem readValueBegin_nf (tn : List Nat → Option Value) (p : Parser) :
    readValueBegin tn p ≠ .error .fuelOut := by
  unfold readValueBegin
  intro h
  dsimp only at h
  split at h
  · exact absurd h (by simp)
  · split at h
    · exact absurd h (by simp)
    · split at h
      · split at h
        · next e heq =>
          injection h with h
          subst h
          exact readString_nf _ _ heq
        · exact absurd h (by simp)
      · split at h
        · next e heq =>
          injection h with h
          subst h
          exact readTfnns_nf _ _ heq
        · exact absurd h (by simp)

theorem readObjectElemBegin_nf (p : Parser) :
    readObjectElemBegin p ≠ .error .fuelOut := by
  unfold readObjectElemBegin
  intro h
  dsimp only at h
  split at h
  · split at h <;> exact absurd h (by simp)
  · split at h
    · next e heq =>
      injection h with h
      subst h
      exact readKeyname_nf _ heq
    · iterate 6 all_goals try split at h
      all_goals exact absurd h (by simp)

theorem readArrayElemEnd_nf (p : Parser) :
    readArrayElemEnd p ≠ .error .fuelOut := by
  unfold readArrayElemEnd
  intro h
  dsimp only at h
  iterate 8 all_goals try split at h
  all_goals exact absurd h (by simp)

theorem readObjectElemEnd_nf (p : Parser) :
    readObjectElemEnd p ≠ .error .fuelOut := by
  unfold readObjectElemEnd
  intro h
  dsimp only at h
  iterate 8 all_goals try split at h
  all_goals exact absurd h (by simp)

theorem parseStep_nf (tn : List Nat → Option Value) (st : ParseState) (p : Parser) :
    parseStep tn st p ≠ .error .fuelOut := by
  unfold parseStep
  cases st with
  | valueBegin => exact readValueBegin_nf tn p
  | valueEnd => simp
  | mapBegin => simp
  | mapElemBegin => exact readObjectElemBegin_nf p
  | mapElemEnd => exact readObjectElemEnd_nf p
  | vectorBegin => simp
  | vectorElemEnd => exact readArrayElemEnd_nf p

theorem vState_setTopParent (p : Parser) (f : DecodeParent → DecodeParent) :
    (setTopParent p f).vState = p.vState := rfl

theorem vState_white (p : Parser) : (white p).2.vState = p.vState :=
  (sameShape_white p).2.2.2.1

theorem vState_next (p : Parser) : (next p).vState = p.vState :=
  (sameShape_next p).2.2.2.1

theorem pm_setTopParent (p : Parser) (f : DecodeParent → DecodeParent) :
    pm (setTopParent p f) = pm p := rfl

theorem vState_setTopState (p : Parser) (st0 st : ParseState)
    (rest : List ParseState) (hv : p.vState = st0 :: rest) :
    (setTopState p st).vState = st :: rest := by
  show (match p.vState with | [] => [] | _ :: xs => st :: xs) = st :: rest
  rw [hv]

theorem ch_setTopParent (p : Parser) (f : DecodeParent → DecodeParent) :
    (setTopParent p f).ch = p.ch := rfl

theorem pm_setTopState (p : Parser) (s : ParseState) :
    pm (setTopState p s) = pm p := rfl

/-- `_readValueEnd` pops the state and does not move the scanner
backwards. -/
theorem step_valueEnd (p : Parser) :
    (readValueEnd p).vState = p.vState.tail ∧ pm (readValueEnd p) ≤ pm p := by
  unfold readValueEnd
  dsimp only
  constructor
  · show (getCommentAfter p).2.vState.tail = p.vState.tail
    rw [(sameShape_getCommentAfter p).2.2.2.1]
  · show pm (getCommentAfter p).2 ≤ pm p
    exact pm_gca_le p

/-- `_readObjectBegin` moves to `ValueEnd` or `MapElemBegin`, consuming
the `{` when there is one. -/
theorem step_mapBegin (p : Parser) (rest : List ParseState)
    (hv : p.vState = .mapBegin :: rest) :
    ((readObjectBegin p).vState = .valueEnd :: rest ∨
      (readObjectBegin p).vState = .mapElemBegin :: rest) ∧
    pm (readObjectBegin p) ≤ pm p ∧
    (p.ch = 123 → pm (readObjectBegin p) < pm p) := by
  unfold readObjectBegin
  dsimp only
  simp only [ch_setTopParent]
  by_cases h123 : p.ch = 123
  · rw [if_pos h123]
    have hvq : ∀ f g, (Parser.vState (setTopParent
        (white (next (setTopParent p f))).2 g)) = .mapBegin :: rest := by
      intro f g
      rw [vState_setTopParent, vState_white, vState_next, vState_setTopParent, hv]
    have hpmq : ∀ f g, pm (setTopParent (white (next (setTopParent p f))).2 g) < pm p := by
      intro f g
      rw [pm_setTopParent]
      refine lt_of_le_of_lt (pm_white_le _) ?_
      refine pm_next_lt _ ?_
      show p.ch ≠ 0
      omega
    split
    · refine ⟨Or.inl ?_, ?_, fun _ => ?_⟩
      · refine vState_setTopState _ .mapBegin _ _ ?_
        rw [vState_next, vState_setTopParent]
        exact hvq _ _
      · rw [pm_setTopState]
        refine le_trans (pm_next_le _) ?_
        rw [pm_setTopParent]
        exact le_of_lt (hpmq _ _)
      · rw [pm_setTopState]
        refine lt_of_le_of_lt (pm_next_le _) ?_
        rw [pm_setTopParent]
        exact hpmq _ _
    · refine ⟨Or.inr ?_, ?_, fun _ => ?_⟩
      · exact vState_setTopState _ .mapBegin _ _ (hvq _ _)
      · rw [pm_setTopState]
        exact le_of_lt (hpmq _ _)
      · rw [pm_setTopState]
        exact hpmq _ _
  · rw [if_neg h123]
    split
    · refine ⟨Or.inl ?_, ?_, fun hc => absurd hc h123⟩
      · refine vState_setTopState _ .mapBegin _ _ ?_
        rw [vState_next]
        exact hv
      · rw [pm_setTopState]
        exact pm_next_le _
    · refine ⟨Or.inr ?_, ?_, fun hc => absurd hc h123⟩
      · exact vState_setTopState _ .mapBegin _ _ hv
      · rw [pm_setTopState]
        exact le_refl (pm p)

theorem vState_pushState (p : Parser) (s : ParseState) :
    (pushState p s).vState = s :: p.vState := rfl

theorem pm_pushState (p : Parser) (s : ParseState) : pm (pushState p s) = pm p := rfl

theorem ch_pushState (p : Parser) (s : ParseState) : (pushState p s).ch = p.ch := rfl

theorem vState_pushParent (p : Parser) (d : DecodeParent) :
    (pushParent p d).vState = p.vState := rfl

theorem pm_pushParent (p : Parser) (d : DecodeParent) : pm (pushParent p d) = pm p := rfl

theorem vState_popParent (p : Parser) : (popParent p).vState = p.vState := rfl

theorem pm_popParent (p : Parser) : pm (popParent p) = pm p := rfl

theorem ch_setTopState (p : Parser) (s : ParseState) : (setTopState p s).ch = p.ch := rfl

/-- `_readArrayBegin`, entered with the scanner on `[`, consumes it and
moves to `ValueEnd` (empty vector) or pushes a `ValueBegin` over
`VectorElemEnd`. -/
theorem step_vectorBegin (p : Parser) (rest : List ParseState)
    (hv : p.vState = .vectorBegin :: rest) (hch : p.ch = 91) :
    ((readArrayBegin p).vState = .valueEnd :: rest ∨
      (readArrayBegin p).vState = .valueBegin :: .vectorElemEnd :: rest) ∧
    pm (readArrayBegin p) < pm p := by
  unfold readArrayBegin
  dsimp only
  have hpm2 : ∀ f, pm (setTopParent (white (next p)).2 f) < pm p := by
    intro f
    rw [pm_setTopParent]
    exact lt_of_le_of_lt (pm_white_le _) (pm_next_lt _ (by omega))
  have hv2 : ∀ f, (Parser.vState (setTopParent (white (next p)).2 f)) =
      .vectorBegin :: rest := by
    intro f
    rw [vState_setTopParent, vState_white, vState_next, hv]
  split
  · constructor
    · refine Or.inl (vState_setTopState _ .vectorBegin _ _ ?_)
      rw [vState_next, vState_setTopParent]
      exact hv2 _
    · rw [pm_setTopState]
      refine lt_of_le_of_lt (pm_next_le _) ?_
      rw [pm_setTopParent]
      exact hpm2 _
  · constructor
    · refine Or.inr ?_
      rw [vState_pushState, vState_setTopState _ .vectorBegin _ _ (hv2 _)]
    · rw [pm_pushState, pm_setTopState]
      exact hpm2 _

/-- `_readObjectElemBegin` either finalises a braceless root at EOF
(`ValueEnd`) or reads `key :` and pushes `ValueBegin` over `MapElemEnd`,
consuming at least the `:`. -/
theorem step_mapElemBegin (p pr : Parser) (rest : List ParseState)
    (hv : p.vState = .mapElemBegin :: rest)
    (h : readObjectElemBegin p = .ok pr) :
    (pr.vState = .valueEnd :: rest ∧ pm pr ≤ pm p) ∨
    (pr.vState = .valueBegin :: .mapElemEnd :: rest ∧ pm pr < pm p) := by
  unfold readObjectElemBegin at h
  dsimp only at h
  by_cases h0 : p.ch = 0
  · rw [if_pos h0] at h
    split at h
    · left
      injection h with h
      subst h
      constructor
      · split
        · exact vState_setTopState _ .mapElemBegin _ _ hv
        · exact vState_setTopState _ .mapElemBegin _ _ hv
      · split
        · rw [pm_setTopState]
          exact le_of_eq (pm_setTopParent _ _)
        · rw [pm_setTopState]
          exact le_of_eq (pm_setTopParent _ _)
    · exact absurd h (by simp)
  · rw [if_neg h0] at h
    split at h
    · exact absurd h (by simp)
    · next key0 p1 hk =>
      have hpm1 : pm p1 ≤ pm p := pm_readKeyname_ok p key0 p1 hk
      have hv1 : p1.vState = .mapElemBegin :: rest := by
        rw [(sameShape_readKeyname p key0 p1 hk).2.2.2.1, hv]
      iterate 3 all_goals try split at h
      all_goals try exact Except.noConfusion h
      all_goals
        rename_i h58
        injection h with h
        subst h
        right
        refine ⟨?_, ?_⟩
        · rw [vState_pushState]
          rw [vState_setTopState _ .mapElemBegin _ _ ?_]
          rw [vState_next, vState_setTopParent, vState_white, vState_setTopParent]
          exact hv1
        · rw [pm_pushState, pm_setTopState]
          refine lt_of_lt_of_le (pm_next_lt _ ?_) ?_
          · have h58x := not_not.mp h58
            exact fun hc => absurd (hc ▸ h58x) (by decide)
          · rw [pm_setTopParent]
            refine le_trans (pm_white_le _) ?_
            rw [pm_setTopParent]
            exact hpm1

theorem vState_setTopState2 (p : Parser) (s : ParseState) :
    (setTopState p s).vState =
      match p.vState with | [] => [] | _ :: xs => s :: xs := rfl

set_option maxHeartbeats 1000000 in
/-- `_readObjectElemEnd` folds the element into the map and moves to
`ValueEnd` (on `}`) or back to `MapElemBegin`, never losing scanner
progress. -/
theorem step_mapElemEnd (p pr : Parser) (rest : List ParseState)
    (hv : p.vState = .mapElemEnd :: rest)
    (h : readObjectElemEnd p = .ok pr) :
    (pr.vState = .valueEnd :: rest ∨ pr.vState = .mapElemBegin :: rest) ∧
    pm pr ≤ pm p := by
  unfold readObjectElemEnd at h
  dsimp only at h
  iterate 3 all_goals try split at h
  all_goals injection h with h
  all_goals subst h
  all_goals refine ⟨?_, ?_⟩
  all_goals try
    (simp only [vState_pushState, vState_setTopState2, vState_next,
      vState_setTopParent, vState_white, vState_popParent, vState_pushParent, hv]
     first
     | exact Or.inl trivial
     | exact Or.inr trivial
     | exact Or.inl rfl
     | exact Or.inr rfl)
  all_goals simp only [pm_pushState, pm_setTopState]
  all_goals first
  | (rw [pm_setTopParent, pm_setTopParent]
     refine le_trans (pm_white_le _) ?_
     refine le_trans (pm_next_le _) ?_
     refine le_trans (pm_white_le _) ?_
     rw [pm_popParent])
  | (rw [pm_setTopParent, pm_setTopParent]
     refine le_trans (pm_white_le _) ?_
     rw [pm_popParent])
  | (refine le_trans (pm_next_le _) ?_
     rw [pm_setTopParent, pm_setTopParent]
     refine le_trans (pm_white_le _) ?_
     refine le_trans (pm_next_le _) ?_
     refine le_trans (pm_white_le _) ?_
     rw [pm_popParent])
  | (refine le_trans (pm_next_le _) ?_
     rw [pm_setTopParent, pm_setTopParent]
     refine le_trans (pm_white_le _) ?_
     rw [pm_popParent])

theorem isSpaceByte_false_of_noTrivia (q : Parser) (h : noTrivia q) :
    isSpaceByte q.ch = false := by
  have h1 := h.1
  unfold isSpaceByte
  simp only [Bool.or_eq_false_iff, beq_eq_false_iff_ne, ne_eq]
  omega

/-- `_readValueBegin` dispatches: `{`/`[` only change the state (keeping
the byte for the container reader), strings and tfnns values consume input
(strictly when the dispatch byte is real and not preceded by trivia). -/
theorem step_valueBegin (tn : List Nat → Option Value) (p pr : Parser)
    (rest : List ParseState) (hv : p.vState = .valueBegin :: rest)
    (h : readValueBegin tn p = .ok pr) :
    pm pr ≤ pm p ∧
    ((pr.vState = .mapBegin :: rest ∧ pr.ch = 123) ∨
     (pr.vState = .vectorBegin :: rest ∧ pr.ch = 91) ∨
     pr.vState = .valueEnd :: rest) ∧
    (noTrivia p → p.ch ≠ 0 → pr.vState = .valueEnd :: rest → pm pr < pm p) := by
  unfold readValueBegin at h
  dsimp only at h
  have hvq : ∀ f, (Parser.vState (setTopParent (white (pushParent p {})).2 f)) =
      .valueBegin :: rest := by
    intro f
    rw [vState_setTopParent, vState_white, vState_pushParent, hv]
  have hpmq : ∀ f, pm (setTopParent (white (pushParent p {})).2 f) ≤ pm p := by
    intro f
    rw [pm_setTopParent]
    refine le_trans (pm_white_le _) ?_
    exact le_of_eq (pm_pushParent p {})
  split at h
  · rename_i h123
    injection h with h
    subst h
    refine ⟨?_, Or.inl ⟨?_, ?_⟩, ?_⟩
    · rw [pm_setTopState]
      exact hpmq _
    · exact vState_setTopState _ .valueBegin _ _ (hvq _)
    · rw [ch_setTopState]
      exact h123
    · intro _ _ hc
      rw [vState_setTopState _ .valueBegin _ _ (hvq _)] at hc
      exact absurd hc (by simp)
  · split at h
    · rename_i h91
      injection h with h
      subst h
      refine ⟨?_, Or.inr (Or.inl ⟨?_, ?_⟩), ?_⟩
      · rw [pm_setTopState]
        exact hpmq _
      · exact vState_setTopState _ .valueBegin _ _ (hvq _)
      · rw [ch_setTopState]
        exact h91
      · intro _ _ hc
        rw [vState_setTopState _ .valueBegin _ _ (hvq _)] at hc
        exact absurd hc (by simp)
    · split at h
      · rename_i h34
        split at h
        · exact Except.noConfusion h
        · rename_i s p3 hst
          injection h with h
          subst h
          have hpm3 : pm p3 < pm p := by
            refine lt_of_lt_of_le (pm_readString_ok_lt _ _ _ _ ?_ hst) (hpmq _)
            rcases h34 with h34 | h34
            · exact fun hc => absurd (hc ▸ h34) (by decide)
            · exact fun hc => absurd (hc ▸ h34) (by decide)
          refine ⟨?_, Or.inr (Or.inr ?_), fun _ _ _ => ?_⟩
          · rw [pm_setTopState, pm_setTopParent]
            exact le_of_lt hpm3
          · refine vState_setTopState _ .valueBegin _ _ ?_
            rw [vState_setTopParent]
            rw [(sameShape_readString _ _ _ _ hst).2.2.2.1]
            exact hvq _
          · rw [pm_setTopState, pm_setTopParent]
            exact hpm3
      · split at h
        · exact Except.noConfusion h
        · rename_i v p3 hst
          injection h with h
          subst h
          have hnt2 : ∀ f, noTrivia (setTopParent (white (pushParent p {})).2 f) :=
            fun _ => white_exit (pushParent p {})
          have hps := pm_readTfnns_ok tn _ v p3
            (isSpaceByte_false_of_noTrivia _ (hnt2 _)) hst
          refine ⟨?_, Or.inr (Or.inr ?_), fun hnt h0 _ => ?_⟩
          · rw [pm_setTopState, pm_setTopParent]
            exact le_trans hps.1 (hpmq _)
          · refine vState_setTopState _ .valueBegin _ _ ?_
            rw [vState_setTopParent]
            rw [(sameShape_readTfnns _ _ _ _ hst).2.2.2.1]
            exact hvq _
          · have hq : (white (pushParent p {})).2 = pushParent p {} :=
              white_noop _ hnt
            rw [pm_setTopState, pm_setTopParent]
            refine lt_of_lt_of_le (hps.2 ?_) ?_
            · rw [ch_setTopParent, hq]
              exact h0
            · exact hpmq _

theorem peek_setTopParent (p : Parser) (f : DecodeParent → DecodeParent)
    (o : Int) : peek (setTopParent p f) o = peek p o := rfl

theorem peek_pushState (p : Parser) (s : ParseState) (o : Int) :
    peek (pushState p s) o = peek p o := rfl

/-- `_readArrayElemEnd` either closes the vector on `]` (consuming it) or
pushes a fresh `ValueBegin` for the next element; in the latter case the
scanner rests on a real, non-trivia byte. -/
theorem step_vectorElemEnd (p pr : Parser) (rest : List ParseState)
    (hv : p.vState = .vectorElemEnd :: rest)
    (h : readArrayElemEnd p = .ok pr) :
    (pr.vState = .valueEnd :: rest ∧ pm pr < pm p) ∨
    (pr.vState = .valueBegin :: .vectorElemEnd :: rest ∧ pm pr ≤ pm p ∧
      pr.ch ≠ 0 ∧ noTrivia pr) := by
  unfold readArrayElemEnd at h
  dsimp only at h
  by_cases h44 : (white (popParent p)).2.ch = 44
  · rw [if_pos h44] at h
    have hvq : ∀ f, (Parser.vState (setTopParent
        (white (next (white (popParent p)).2)).2 f)) = .vectorElemEnd :: rest := by
      intro f
      rw [vState_setTopParent, vState_white, vState_next, vState_white,
        vState_popParent, hv]
    have hpmq : ∀ f, pm (setTopParent (white (next (white (popParent p)).2)).2 f) ≤
        pm p := by
      intro f
      rw [pm_setTopParent]
      refine le_trans (pm_white_le _) (le_trans (pm_next_le _) ?_)
      refine le_trans (pm_white_le _) ?_
      exact le_of_eq (pm_popParent p)
    split at h
    · rename_i h93
      injection h with h
      subst h
      left
      constructor
      · rw [vState_setTopParent]
        refine vState_setTopState _ .vectorElemEnd _ _ ?_
        rw [vState_next]
        exact hvq _
      · rw [pm_setTopParent, pm_setTopState]
        refine lt_of_lt_of_le (pm_next_lt _ ?_) (hpmq _)
        exact fun hc => absurd (hc ▸ h93) (by decide)
    · split at h
      · exact Except.noConfusion h
      · rename_i h0x
        injection h with h
        subst h
        right
        simp only [ch_setTopParent] at h0x
        refine ⟨?_, ?_, ?_, ?_⟩
        · simp only [vState_setTopParent, vState_pushState, vState_white,
            vState_next, vState_popParent, hv]
        · simp only [pm_setTopParent, pm_pushState]
          refine le_trans (pm_white_le _) (le_trans (pm_next_le _) ?_)
          refine le_trans (pm_white_le _) ?_
          exact le_of_eq (pm_popParent p)
        · simp only [ch_setTopParent, ch_pushState]
          exact h0x
        · have hne := white_exit (next (white (popParent p)).2)
          unfold noTrivia at hne ⊢
          simp only [ch_setTopParent, ch_pushState, peek_setTopParent,
            peek_pushState]
          exact hne
  · rw [if_neg h44] at h
    have hvq : ∀ f, (Parser.vState (setTopParent (white (popParent p)).2 f)) =
        .vectorElemEnd :: rest := by
      intro f
      rw [vState_setTopParent, vState_white, vState_popParent, hv]
    have hpmq : ∀ f, pm (setTopParent (white (popParent p)).2 f) ≤ pm p := by
      intro f
      rw [pm_setTopParent]
      refine le_trans (pm_white_le _) ?_
      exact le_of_eq (pm_popParent p)
    split at h
    · rename_i h93
      injection h with h
      subst h
      left
      constructor
      · rw [vState_setTopParent]
        refine vState_setTopState _ .vectorElemEnd _ _ ?_
        rw [vState_next]
        exact hvq _
      · rw [pm_setTopParent, pm_setTopState]
        refine lt_of_lt_of_le (pm_next_lt _ ?_) (hpmq _)
        exact fun hc => absurd (hc ▸ h93) (by decide)
    · split at h
      · exact Except.noConfusion h
      · rename_i h0x
        injection h with h
        subst h
        right
        simp only [ch_setTopParent] at h0x
        refine ⟨?_, ?_, ?_, ?_⟩
        · simp only [vState_setTopParent, vState_pushState, vState_white,
            vState_popParent, hv]
        · simp only [pm_setTopParent, pm_pushState]
          refine le_trans (pm_white_le _) ?_
          exact le_of_eq (pm_popParent p)
        · simp only [ch_setTopParent, ch_pushState]
          exact h0x
        · have hne := white_exit (popParent p)
          unfold noTrivia at hne ⊢
          simp only [ch_setTopParent, ch_pushState, peek_setTopParent,
            peek_pushState]
          exact hne

/-! ### Trivia-trace instrumentation.  The same decoder, additionally
returning the bytes that each `_white`/`_getCommentAfter` call hands to
`_setComment` — `substr data [cmStart, cmEnd)` when `hasComment` is set —
concatenated in consumption order.  Each `...C` function is the
corresponding decoder function with this one extra output. -/

def chunkOf (data : List Nat) (ci : CommentInfo) : List Nat :=
  if ci.hasComment then substr data ci.cmStart ci.cmEnd else []

def readValueBeginC (tn : List Nat → Option Value) (p0 : Parser) :
    Except Err (Parser × List Nat) :=
  let p1 := pushParent p0 {}
  let wr := white p1
  let p2 := setTopParent wr.2 (fun d => { d with ciBefore := wr.1 })
  let c := chunkOf p0.data wr.1
  if p2.ch = 123 then .ok (setTopState p2 .mapBegin, c)
  else if p2.ch = 91 then .ok (setTopState p2 .vectorBegin, c)
  else if p2.ch = 34 ∨ p2.ch = 39 then
    match readString p2 true with
    | .error e => .error e
    | .ok (s, p3) =>
      .ok (setTopState (setTopParent p3
        (fun d => { d with val := Value.ofCore (.str s) })) .valueEnd, c)
  else
    match readTfnns tn p2 with
    | .error e => .error e
    | .ok (v, p3) =>
      .ok (setTopState (setTopParent p3 (fun d => { d with val := v })) .valueEnd, c)

def readValueEndC (p0 : Parser) : Parser × List Nat :=
  let wr := getCommentAfter p0
  let p1 := setTopParent wr.2 (fun d =>
    { d with val := setComment (setComment d.val .before p0 d.ciBefore) .after p0 wr.1 })
  (popState p1, chunkOf p0.data wr.1)

def readObjectBeginC (p0 : Parser) : Parser × List Nat :=
  let p1 := setTopParent p0 (fun d => { d with val := Value.ofCore (.map []) })
  if p1.ch = 123 then
    let wr := white (next p1)
    let p2 := setTopParent wr.2 (fun d => { d with ciElemBefore := wr.1 })
    let c := chunkOf p0.data wr.1
    if p2.ch = 125 ∧ ¬(p2.vParent.isEmpty ∧ p2.withoutBraces) then
      let p3 := setTopParent p2 (fun d =>
        { d with val := setComment d.val .inside p2 d.ciElemBefore })
      (setTopState (next p3) .valueEnd, c)
    else
      (setTopState p2 .mapElemBegin, c)
  else
    let p2 := setTopParent p1 (fun d =>
      { d with ciElemBefore := d.ciBefore, ciBefore := {} })
    if p2.ch = 125 ∧ ¬(p2.vParent.isEmpty ∧ p2.withoutBraces) then
      let p3 := setTopParent p2 (fun d =>
        { d with val := setComment d.val .inside p2 d.ciElemBefore })
      (setTopState (next p3) .valueEnd, [])
    else
      (setTopState p2 .mapElemBegin, [])

def readArrayBeginC (p0 : Parser) : Parser × List Nat :=
  let p1 := next p0
  let wr := white p1
  let p2 := setTopParent wr.2 (fun d =>
    { d with val := Value.ofCore (.vec []), ciElemBefore := wr.1, ciElemExtra := {} })
  let c := chunkOf p0.data wr.1
  if p2.ch = 93 then
    let p3 := setTopParent p2 (fun d =>
      { d with val := setComment d.val .inside p2 d.ciElemBefore })
    (setTopState (next p3) .valueEnd, c)
  else
    (pushState (setTopState p2 .vectorElemEnd) .valueBegin, c)

def readObjectElemBeginC (p0 : Parser) : Except Err (Parser × List Nat) :=
  if p0.ch = 0 then
    if p0.vParent.length = 1 ∧ p0.withoutBraces then
      let p1 :=
        if (topParent p0).val.isEmptyC then
          setTopParent p0 (fun d =>
            { d with val := setComment d.val .inside p0 d.ciElemBefore })
        else
          setTopParent p0 (fun d =>
            { d with val := d.val.mapModifyLast (fun lastv =>
                setComment2 lastv .after p0 d.ciElemBefore d.ciElemExtra) })
      .ok (setTopState p1 .valueEnd, [])
    else
      .error (.syn (errAt p0
        (ascii "End of input while parsing an object (did you forget a closing '\x7d'?)")))
  else
    match readKeyname p0 with
    | .error e => .error e
    | .ok (key0, p1) =>
      let ko :=
        if (topParent p1).isRoot then
          match p1.opt.duplicateKeyHandler with
          | some f => f key0 (topParent p1).val
          | none => (key0, (topParent p1).val)
        else (key0, (topParent p1).val)
      let p2 := setTopParent p1 (fun d => { d with key := ko.1, val := ko.2 })
      if p2.opt.duplicateKeyException ∧ (ko.2.mapGet ko.1).defined then
        .error (.syn (errAt p2
          (ascii "Found duplicate of key '" ++ ko.1 ++ ascii "'")))
      else
        let wr := white p2
        let p3 := setTopParent wr.2 (fun d => { d with ciKey := wr.1 })
        if p3.ch ≠ 58 then
          .error (.syn (errAt p3
            (ascii "Expected ':' instead of '" ++ [p3.ch] ++ ascii "'")))
        else
          .ok (pushState (setTopState (next p3) .mapElemEnd) .valueBegin,
            chunkOf p0.data wr.1)

def readObjectElemEndC (p0 : Parser) : Except Err (Parser × List Nat) :=
  let elem0 := (topParent p0).val
  let p1 := popParent p0
  let elemK := setComment elem0 .key p1 (topParent p1).ciKey
  let elemK2 :=
    if elemK.cmBefore ≠ [] then
      (elemK.setCmKey (elemK.cmKey ++ elemK.cmBefore)).setCmBefore []
    else elemK
  let elem1 := setComment2 elemK2 .before p1 (topParent p1).ciElemBefore
    (topParent p1).ciElemExtra
  let wr := white p1
  if wr.2.ch = 44 then
    let wr2 := white (next wr.2)
    let p2 := setTopParent wr2.2 (fun d => { d with ciElemExtra := wr2.1 })
    let c := chunkOf p0.data wr.1 ++ chunkOf p0.data wr2.1
    if p2.ch = 125 ∧ ¬(p2.vParent.length = 1 ∧ p2.withoutBraces) then
      let elem2 := setComment2 elem1 .after p2 wr.1 (topParent p2).ciElemExtra
      let elem3 :=
        if elem1.cmAfter ≠ [] then elem2.setCmAfter (elem1.cmAfter ++ elem2.cmAfter)
        else elem2
      let p3 := setTopParent p2 (fun d =>
        { d with val := d.val.mapSet d.key elem3 })
      .ok (setTopState (next p3) .valueEnd, c)
    else
      let p3 := setTopParent p2 (fun d =>
        { d with val := d.val.mapSet d.key elem1, ciElemBefore := wr.1 })
      .ok (setTopState p3 .mapElemBegin, c)
  else
    let p2 := setTopParent wr.2 (fun d => { d with ciElemExtra := {} })
    let c := chunkOf p0.data wr.1
    if p2.ch = 125 ∧ ¬(p2.vParent.length = 1 ∧ p2.withoutBraces) then
      let elem2 := setComment2 elem1 .after p2 wr.1 (topParent p2).ciElemExtra
      let elem3 :=
        if elem1.cmAfter ≠ [] then elem2.setCmAfter (elem1.cmAfter ++ elem2.cmAfter)
        else elem2
      let p3 := setTopParent p2 (fun d =>
        { d with val := d.val.mapSet d.key elem3 })
      .ok (setTopState (next p3) .valueEnd, c)
    else
      let p3 := setTopParent p2 (fun d =>
        { d with val := d.val.mapSet d.key elem1, ciElemBefore := wr.1 })
      .ok (setTopState p3 .mapElemBegin, c)

def readArrayElemEndC (p0 : Parser) : Except Err (Parser × List Nat) :=
  let elem0 := (topParent p0).val
  let p1 := popParent p0
  let elem1 := setComment2 elem0 .before p1 (topParent p1).ciElemBefore
    (topParent p1).ciElemExtra
  let wr := white p1
  if wr.2.ch = 44 then
    let wr2 := white (next wr.2)
    let p2 := setTopParent wr2.2 (fun d => { d with ciElemExtra := wr2.1 })
    let c := chunkOf p0.data wr.1 ++ chunkOf p0.data wr2.1
    if p2.ch = 93 then
      let elem2 := setComment2 elem1 .after p2 wr.1 (topParent p2).ciElemExtra
      let elem3 :=
        if elem1.cmAfter ≠ [] then elem2.setCmAfter (elem1.cmAfter ++ elem2.cmAfter)
        else elem2
      let p3 := setTopState (next p2) .valueEnd
      .ok (setTopParent p3 (fun d => { d with val := d.val.pushBack elem3 }), c)
    else
      if p2.ch = 0 then
        .error (.syn (errAt p2
          (ascii "End of input while parsing an array (did you forget a closing ']'?)")))
      else
        let p3 := pushState (setTopParent p2 (fun d => { d with ciElemBefore := wr.1 }))
          .valueBegin
        .ok (setTopParent p3 (fun d => { d with val := d.val.pushBack elem1 }), c)
  else
    let p2 := setTopParent wr.2 (fun d => { d with ciElemExtra := {} })
    let c := chunkOf p0.data wr.1
    if p2.ch = 93 then
      let elem2 := setComment2 elem1 .after p2 wr.1 (topParent p2).ciElemExtra
      let elem3 :=
        if elem1.cmAfter ≠ [] then elem2.setCmAfter (elem1.cmAfter ++ elem2.cmAfter)
        else elem2
      let p3 := setTopState (next p2) .valueEnd
      .ok (setTopParent p3 (fun d => { d with val := d.val.pushBack elem3 }), c)
    else
      if p2.ch = 0 then
        .error (.syn (errAt p2
          (ascii "End of input while parsing an array (did you forget a closing ']'?)")))
      else
        let p3 := pushState (setTopParent p2 (fun d => { d with ciElemBefore := wr.1 }))
          .valueBegin
        .ok (setTopParent p3 (fun d => { d with val := d.val.pushBack elem1 }), c)

def parseStepC (tn : List Nat → Option Value) (st : ParseState) (p : Parser) :
    Except Err (Parser × List Nat) :=
  match st with
  | .valueBegin => readValueBeginC tn p
  | .valueEnd => .ok (readValueEndC p)
  | .mapBegin => .ok (readObjectBeginC p)
  | .mapElemBegin => readObjectElemBeginC p
  | .mapElemEnd => readObjectElemEndC p
  | .vectorBegin => .ok (readArrayBeginC p)
  | .vectorElemEnd => readArrayElemEndC p

def parseLoopFuelC (tn : List Nat → Option Value) :
    Nat → Parser → Except Err (Parser × List Nat)
  | 0, p => if p.vState.isEmpty then .ok (p, []) else .error .fuelOut
  | n + 1, p =>
    match p.vState.head? with
    | none => .ok (p, [])
    | some st =>
      match parseStepC tn st p with
      | .error e => .error e
      | .ok (p', c) =>
        match parseLoopFuelC tn n p' with
        | .error e => .error e
        | .ok (p'', tr) => .ok (p'', c ++ tr)

def rootAttemptC (tn : List Nat → Option Value) (fuel : Nat) (p : Parser) :
    Except Err (Parser × CommentInfo × List Nat) :=
  match parseLoopFuelC tn fuel p with
  | .error e => .error e
  | .ok (p1, tr) =>
    let t := hasTrailing p1
    if t.1 then
      .error (.syn (errAt t.2.2 (ascii "Syntax error, found trailing characters")))
    else
      .ok (t.2.2, t.2.1, tr)

def rootValueC (tn : List Nat → Option Value) (fuel : Nat) (p0 : Parser) :
    Except Err (Value × List Nat) :=
  match rootAttemptC tn fuel (rootDispatch p0) with
  | .ok (p4, ciExtra, tr) =>
    (match rootFinish p4 ciExtra with
     | .ok v => .ok (v,
         chunkOf p0.data (white (pushParent p0 { isRoot := true })).1 ++ tr ++
           chunkOf p0.data ciExtra)
     | .error e => .error e)
  | .error (.syn e1) =>
    if (rootDispatch p0).withoutBraces then
      match rootAttemptC tn fuel (retryStart (rootDispatch p0)) with
      | .ok (p6, ciExtra, tr) =>
        (match rootFinish p6 ciExtra with
         | .ok v => .ok (v, tr ++ chunkOf p0.data ciExtra)
         | .error e => .error e)
      | .error (.syn _) => .error (.syn e1)
      | .error e => .error e
    else
      .error (.syn e1)
  | .error e => .error e

def UnmarshalC (tn : List Nat → Option Value) (options : DecoderOptions)
    (data : List Nat) : Except Err (Value × List Nat) :=
  rootValueC tn (fuelFor data) (initParser options data)

/-- The trivia of a successfully decoded input: the concatenation, in
consumption order, of the bytes the trivia scanners committed. -/
def c2trivia (tn : List Nat → Option Value) (options : DecoderOptions)
    (data : List Nat) : List Nat :=
  match UnmarshalC tn options data with
  | .ok (_, tr) => tr
  | .error _ => []

/-! ### The claims -/

/-- C4: the spec requires that in the `MapBegin` transition a `}` at the
root of a braceless document does not finalise the map (the machine should
move to `MapElemBegin`, so the one-byte input `}` is a syntax error), but
the code's guard `!(p->vParent.empty() && p->withoutBraces)` tests
`vParent.empty()`, which never holds there — the root frame is already on
the stack — so the guard is vacuously true and the input `}` decodes to an
empty Map instead of raising `syntax_error`. -/
theorem claim_C4 :
    Unmarshal tryNumSpec {} (ascii "\x7d") = .ok (Value.mk (.map []) [] [] [] []) := rfl

/-- C5: over any multiline body given linewise — each physical line
carrying `k ≤ N` strippable leading spaces (with either `k = N` or the
line's content starting at a non-whitespace byte, so the strip stops
early; lines may be shorter than the indent), content free of NUL and
newline bytes and of any run of three consecutive quote characters — the
body loop returns the lines with their strippable indent removed, `\r`
bytes dropped and runs of fewer than three quote characters kept as
literal content, joined by `\n`, with no trailing newline; and concretely
the document `a: ` + quote-run opener + newline + two-space-indented
`hello`, `world` lines and closer (opener at column 3) decodes to the
string `hello\nworld`, while a body line carrying one- and two-quote runs
decodes to exactly that text, quotes included. -/
theorem claim_C5 :
    (∀ (indent : Nat) (ps : List (Nat × List Nat)) (l0 tail : List Nat) (kf : Nat)
       (q : Parser),
      mlOkB 0 l0 = true →
      (∀ pr ∈ ps, mlOkB 0 pr.2 = true ∧ pr.1 ≤ indent ∧
        (pr.1 = indent ∨ pr.2 = [] ∨ 32 < pr.2.headD 0)) →
      kf ≤ indent →
      atRem q (l0 ++ [10] ++ encPairs ps kf tail) →
      ∃ q', mlLoop indent [] 0 false q =
        .ok (mlJoin (dropCR l0 :: ps.map (fun pr => dropCR pr.2)), q')) ∧
    Unmarshal tryNumSpec {} (ascii "a: \x27\x27\x27\n  hello\n  world\n  \x27\x27\x27") =
      .ok (Value.mk (.map [(ascii "a",
        Value.mk (.str (ascii "hello\nworld")) [] [] [] [])]) [] [] [] []) ∧
    Unmarshal tryNumSpec {} (ascii "a: \x27\x27\x27\n  it\x27s \x27\x27ok\x27\x27\n  \x27\x27\x27") =
      .ok (Value.mk (.map [(ascii "a",
        Value.mk (.str (ascii "it\x27s \x27\x27ok\x27\x27")) [] [] [] [])]) [] [] [] []) := by
  refine ⟨?_, rfl, rfl⟩
  intro indent ps l0 tail kf q hg hps hkf h
  obtain ⟨q', hq⟩ := mlLoop_bodyQ indent ps l0 [] tail false kf q hg hps hkf h
  exact ⟨q', hq⟩

/-- C1: `_readTfnns2`, entered on a non-whitespace, non-punctuator,
non-NUL byte at position `s`, behaves exactly as the claim describes the
scan: at each terminator (end-of-line/EOF, or `,`/`}`/`]`/`#`/`//`/`/*`)
the candidate `val` is the text from the first byte to the last
non-whitespace byte; an exact `true`/`false`/`null` yields the literal, a
`-`/digit-headed `val` accepted by `tryParseNumber` yields that number,
end-of-line/EOF otherwise yields `val` as a string, and a failed
`,`/`}`/`]`-class terminator does not end the value — scanning continues
with those bytes as content. -/
theorem claim_C1 (tn : List Nat → Option Value) (p : Parser) (s : Nat)
    (hix : p.indexNext = s + 1) (hch : p.ch = p.data.getD s 0)
    (hns : isSpaceByte p.ch = false) (hnp : isPunctuatorChar p.ch = false)
    (h0 : p.ch ≠ 0) :
    ∃ q', readTfnns2 tn 0 p =
      .ok ((tfnnsSpec tn p.data s).1, (tfnnsSpec tn p.data s).2.1, q') := by
  have hsl : s < p.data.length := by
    by_contra hcl
    exact h0 (by rw [hch]; exact List.getD_eq_default _ _ (by omega))
  unfold readTfnns2
  rw [if_neg (by rw [hnp]; exact Bool.false_ne_true)]
  rw [if_neg (by rw [hns]; exact Bool.false_ne_true)]
  unfold readTfnns2Loop
  rw [hix]
  have e1 : s + 1 - 1 = s := by omega
  rw [e1]
  have efuel : rm p + 1 = p.data.length + 1 - s := by
    unfold rm
    rw [hix]
    omega
  rw [efuel]
  obtain ⟨q', hq⟩ := tfnns_lockstep tn (p.data.length + 1 - s) p s (s + 1) (s + 1)
    hix
    (by show s + 1 = (if s + 1 ≤ s then s
          else if isSpaceByte (p.data.getD s 0) then rtrimEnd p.data s s else s + 1)
        rw [if_neg (by omega), if_neg (by rw [← hch, hns]; exact Bool.false_ne_true)])
    (by omega) (by omega) le_rfl
  exact ⟨q', by rw [hq]; rfl⟩

/-- C1 (witness): the scan theorem applied to the buffer `true`,
yielding the Bool literal with the trimmed span `[0, 4)`. -/
theorem claim_C1_witness :
    ∃ q', readTfnns2 tryNumSpec 0 tfWp =
      .ok (Value.ofCore (.bool true), 4, q') := by
  obtain ⟨q', hq⟩ := claim_C1 tryNumSpec tfWp 0 rfl rfl rfl rfl (by decide)
  exact ⟨q', by rw [hq]; rfl⟩

/-- C5 (witness): the general linewise body theorem applied to the
example body `hello\n  world\n  '''` at indent 3. -/
theorem claim_C5_witness :
    ∃ q', mlLoop 3 [] 0 false mlWq = .ok (ascii "hello\nworld", q') := by
  have h := claim_C5.1 3 [(2, ascii "world")] (ascii "hello") [] 2 mlWq
    (by decide) (by decide) (by decide)
    ⟨by decide, rfl, rfl⟩
  exact h

/-- C7 (counterexample): parsing `{ a: "unterminated` raises a
`syntax_error` whose message is exactly `Bad string` — the scanner has run
past end-of-input when `_readString` throws, so `_errAt` attaches no
` at line L,C >>> context` suffix, contradicting both the claimed universal
message shape and the claimed line/column for this input. -/
theorem claim_C7_counterexample :
    Unmarshal tryNumSpec {} (ascii "\x7b a: \"unterminated") =
      .error (.syn (ascii "Bad string")) ∧
    containsSeg (ascii "Bad string") (ascii " at line ") = false ∧
    containsSeg (ascii "Bad string") (ascii ">>>") = false :=
  ⟨rfl, rfl, rfl⟩

/-- Parser state for the C8 counterexample: the one-byte buffer `x` fully
consumed (`ch = 0`), with `whitespaceAsComments` (and `comments`) on. -/
def pC8 : Parser :=
  { data := [120], indexNext := 2, ch := 0, withoutBraces := false,
    opt := { comments := true, whitespaceAsComments := true } }

/-- C8 (counterexample): `_getCommentAfter` initialises `has_comment` to
`whitespaceAsComments` before its loop, so on a state where it consumes no
bytes (`cmEnd = cmStart`) and sees no comment it still returns
`has_comment = true`, contradicting the claim that it returns `false` in
that situation. -/
theorem claim_C8_counterexample :
    pC8.opt.whitespaceAsComments = true ∧
    (getCommentAfter pC8).1.cmEnd = (getCommentAfter pC8).1.cmStart ∧
    (getCommentAfter pC8).2.indexNext = pC8.indexNext ∧
    sawCommentLine pC8 = false ∧
    (getCommentAfter pC8).1.hasComment = true :=
  ⟨rfl, rfl, rfl, rfl, rfl⟩

/-- C10: `hj2py` always parses with `comments = true`,
`whitespaceAsComments = true`, `duplicateKeyException = false` and its
index-renaming `duplicateKeyHandler` installed; a decoder `syntax_error`
yields `false` with `err["code"] = -2`; a successfully decoded non-Map root
yields `false` with `err["code"] = -3` (message `Root is not a map`); a
`true` return implies the decoded root was a Map; and the top-level array
document `[1]` concretely returns `false` with code −3. -/
theorem claim_C10 :
    (pyOptions.comments = true ∧ pyOptions.whitespaceAsComments = true ∧
      pyOptions.duplicateKeyException = false ∧
      pyOptions.duplicateKeyHandler = some pyDuplicateKeyHandler) ∧
    (∀ (tn : List Nat → Option Value) (s m : List Nat),
      Unmarshal tn pyOptions s = .error (.syn m) →
      hj2py tn s = .failure (-2) m) ∧
    (∀ (tn : List Nat → Option Value) (s : List Nat) (v : Value),
      Unmarshal tn pyOptions s = .ok v → v.isMap = false →
      hj2py tn s = .failure (-3) (ascii "Root is not a map")) ∧
    (∀ (tn : List Nat → Option Value) (s : List Nat)
      (o : List (List Nat × Py)) (c : List Py),
      hj2py tn s = .success o c →
      ∃ v, Unmarshal tn pyOptions s = .ok v ∧ v.isMap = true) ∧
    hj2py tryNumSpec (ascii "[1]") = .failure (-3) (ascii "Root is not a map") := by
  refine ⟨⟨rfl, rfl, rfl, rfl⟩, ?_, ?_, ?_, rfl⟩
  · intro tn s m h
    unfold hj2py
    rw [h]
  · intro tn s v h hm
    unfold hj2py
    rw [h]
    dsimp only
    rw [if_pos (by simp [hm])]
  · intro tn s o c h
    unfold hj2py at h
    cases hu : Unmarshal tn pyOptions s with
    | error e =>
      rw [hu] at h
      cases e <;> exact absurd h (by simp)
    | ok v =>
      rw [hu] at h
      dsimp only at h
      by_cases hm : v.isMap = true
      · exact ⟨v, rfl, hm⟩
      · rw [if_pos (by simpa using hm)] at h
        exact absurd h (by simp)

/-- The duplicate-key handler used in the C6 scenarios: rename a key that
is already defined in the map by appending `0`. -/
def renameHandler : List Nat → Value → List Nat × Value :=
  fun k m => if (m.mapGet k).defined then (k ++ [48], m) else (k, m)

/-- Options with only `duplicateKeyException` set. -/
def dupExOpts : DecoderOptions := { duplicateKeyException := true }

/-- Options with `duplicateKeyException` and the renaming handler. -/
def dupExHandlerOpts : DecoderOptions :=
  { duplicateKeyException := true, duplicateKeyHandler := some renameHandler }

/-- C6: with `duplicateKeyException` set, reading a map entry whose
(possibly handler-rewritten) key is already `defined()` in the current map
raises a `syntax_error` whose message contains `Found duplicate of key
'<k>'` (stated generally over `_readObjectElemBegin`, both without and with
a root-frame handler); the handler is applied before the uniqueness check
and may rewrite the key; concretely `{a:1, a:2}` raises the error, the same
input with a renaming root handler instead decodes to `{a:1, a0:2}`, and a
nested map with duplicate keys raises the error even when a handler is
configured (the handler runs only on the root frame). -/
theorem claim_C6 :
    (∀ (p p1 : Parser) (k : List Nat),
      p.ch ≠ 0 → readKeyname p = .ok (k, p1) →
      p1.opt.duplicateKeyException = true →
      ((topParent p1).isRoot = false ∨ p1.opt.duplicateKeyHandler = none) →
      ((topParent p1).val.mapGet k).defined = true →
      ∃ m, readObjectElemBegin p = .error (.syn m) ∧
        containsSeg m (ascii "Found duplicate of key '" ++ k ++ ascii "'") = true) ∧
    (∀ (p p1 : Parser) (k : List Nat) (f : List Nat → Value → List Nat × Value),
      p.ch ≠ 0 → readKeyname p = .ok (k, p1) →
      p1.opt.duplicateKeyException = true →
      (topParent p1).isRoot = true →
      p1.opt.duplicateKeyHandler = some f →
      ((f k (topParent p1).val).2.mapGet (f k (topParent p1).val).1).defined = true →
      ∃ m, readObjectElemBegin p = .error (.syn m) ∧
        containsSeg m (ascii "Found duplicate of key '" ++
          (f k (topParent p1).val).1 ++ ascii "'") = true) ∧
    Unmarshal tryNumSpec dupExOpts (ascii "{a:1, a:2}") =
      .error (.syn (ascii "Found duplicate of key 'a' at line 1,7 >>> {a:1, a:2}")) ∧
    Unmarshal tryNumSpec dupExHandlerOpts (ascii "{a:1, a:2}") =
      .ok (Value.mk (.map [(ascii "a", Value.mk (.int64 1) [] [] [] []),
        (ascii "a0", Value.mk (.int64 2) [] [] [] [])]) [] [] [] []) ∧
    Unmarshal tryNumSpec dupExHandlerOpts (ascii "{m:{a:1, a:2}}") =
      .error (.syn
        (ascii "Found duplicate of key 'a' at line 1,10 >>> {m:{a:1, a:2}}")) := by
  refine ⟨?_, ?_, rfl, rfl, rfl⟩
  · intro p p1 k hch hk hex hnoh hdef
    unfold readObjectElemBegin
    rw [if_neg hch, hk]
    dsimp only
    have hko : (if (topParent p1).isRoot then
        match p1.opt.duplicateKeyHandler with
        | some f => f k (topParent p1).val
        | none => (k, (topParent p1).val)
      else (k, (topParent p1).val)) = (k, (topParent p1).val) := by
      rcases hnoh with hroot | hnone
      · rw [hroot]; rfl
      · rw [hnone]
        split <;> rfl
    rw [hko]
    dsimp only
    rw [if_pos ⟨hex, hdef⟩]
    obtain ⟨suf, hsuf⟩ := errAt_append
      (setTopParent p1 fun d => { d with key := k, val := (topParent p1).val })
      (ascii "Found duplicate of key '" ++ k ++ ascii "'")
    refine ⟨_, rfl, ?_⟩
    rw [hsuf]
    exact containsSeg_prefix _ _
  · intro p p1 k f hch hk hex hroot hsome hdef
    unfold readObjectElemBegin
    rw [if_neg hch, hk]
    dsimp only
    rw [hroot, hsome]
    simp only [eq_self_iff_true, if_true]
    rw [if_pos ⟨hex, hdef⟩]
    obtain ⟨suf, hsuf⟩ := errAt_append
      (setTopParent p1 fun d =>
        { d with key := (f k (topParent p1).val).1, val := (f k (topParent p1).val).2 })
      (ascii "Found duplicate of key '" ++ (f k (topParent p1).val).1 ++ ascii "'")
    refine ⟨_, rfl, ?_⟩
    rw [hsuf]
    exact containsSeg_prefix _ _

/-- C3: when the braceless-root parse (`withoutBraces = true`) raises a
syntax error, `_rootValue` reparses the whole input as a single value from
a reset scanner with cleared stacks (`retryStart`); if that retry also
raises a syntax error, the original error propagates, not the retry's;
when the root frame was dispatched on `{` or `[` no retry happens
(`withoutBraces` stays false exactly for those two characters) and the
first error propagates immediately; and the braceless input `42` decodes
to `Int64(42)` via the retry, while for input `]` the error propagated is
the first parse's key-name error even though the retry fails with a
different (punctuator) error. -/
theorem claim_C3 :
    (∀ (tn : List Nat → Option Value) (fuel : Nat) (p0 : Parser) (e1 : List Nat),
      (rootDispatch p0).withoutBraces = true →
      rootAttempt tn fuel (rootDispatch p0) = .error (.syn e1) →
      rootValue tn fuel p0 =
        (match rootAttempt tn fuel (retryStart (rootDispatch p0)) with
         | .ok (p6, ci) => rootFinish p6 ci
         | .error (.syn _) => .error (.syn e1)
         | .error e => .error e)) ∧
    (∀ (tn : List Nat → Option Value) (fuel : Nat) (p0 : Parser) (e1 : List Nat),
      (rootDispatch p0).withoutBraces = false →
      rootAttempt tn fuel (rootDispatch p0) = .error (.syn e1) →
      rootValue tn fuel p0 = .error (.syn e1)) ∧
    (∀ p0 : Parser, p0.withoutBraces = false →
      ((rootDispatch p0).withoutBraces = false ↔
        ((rootDispatch p0).ch = 91 ∨ (rootDispatch p0).ch = 123))) ∧
    Unmarshal tryNumSpec {} (ascii "42") = .ok (Value.mk (.int64 42) [] [] [] []) ∧
    (Unmarshal tryNumSpec {} (ascii "]") = .error (.syn (ascii
      "Found ']' where a key name was expected (check your syntax or use quotes if the key name includes {}[],: or whitespace) at line 1,0 >>> ]")) ∧
     rootAttempt tryNumSpec (fuelFor (ascii "]"))
         (retryStart (rootDispatch (initParser {} (ascii "]")))) =
       .error (.syn (ascii
         "Found a punctuator character ']' when expecting a quoteless string (check your syntax) at line 1,0 >>> ]")) ∧
     ascii "Found ']' where a key name was expected (check your syntax or use quotes if the key name includes {}[],: or whitespace) at line 1,0 >>> ]" ≠
       ascii "Found a punctuator character ']' when expecting a quoteless string (check your syntax) at line 1,0 >>> ]") := by
  refine ⟨?_, ?_, ?_, rfl, rfl, rfl, by decide⟩
  · intro tn fuel p0 e1 hwb hfail
    unfold rootValue
    rw [hfail]
    dsimp only
    rw [if_pos hwb]
  · intro tn fuel p0 e1 hwb hfail
    unfold rootValue
    rw [hfail]
    dsimp only
    rw [if_neg (by rw [hwb]; exact Bool.false_ne_true)]
  · intro p0 hwb
    unfold rootDispatch
    have hsh := sameShape_white (pushParent p0 { isRoot := true })
    have hwb2 : (setTopParent (white (pushParent p0 { isRoot := true })).2
        (fun d => { d with ciBefore := (white (pushParent p0 { isRoot := true })).1 })).withoutBraces = false := by
      show (white (pushParent p0 { isRoot := true })).2.withoutBraces = false
      rw [hsh.2.2.1]
      exact hwb
    by_cases h91 : (setTopParent (white (pushParent p0 { isRoot := true })).2
        (fun d => { d with ciBefore := (white (pushParent p0 { isRoot := true })).1 })).ch = 91
    · rw [if_pos h91]
      constructor
      · intro _
        exact Or.inl h91
      · intro _
        exact hwb2
    · rw [if_neg h91]
      by_cases h123 : (setTopParent (white (pushParent p0 { isRoot := true })).2
          (fun d => { d with ciBefore := (white (pushParent p0 { isRoot := true })).1 })).ch = 123
      · rw [if_neg (by simpa using h123)]
        constructor
        · intro _
          exact Or.inr h123
        · intro _
          exact hwb2
      · rw [if_pos h123]
        constructor
        · intro hfalse
          exact Bool.noConfusion (show (true : Bool) = false from hfalse)
        · intro hor
          rcases hor with h | h
          · exact absurd h h91
          · exact absurd h h123

/-- Witness for C3: the braceless input `]` goes through the retry and
re-raises the first error; the braced input `{` propagates its error with
no retry; the input `[` keeps `withoutBraces = false`. -/
theorem claim_C3_witness :
    rootValue tryNumSpec (fuelFor (ascii "]")) (initParser {} (ascii "]")) =
      .error (.syn (ascii
        "Found ']' where a key name was expected (check your syntax or use quotes if the key name includes {}[],: or whitespace) at line 1,0 >>> ]")) ∧
    rootValue tryNumSpec (fuelFor (ascii "\x7b")) (initParser {} (ascii "\x7b")) =
      .error (.syn (ascii
        "End of input while parsing an object (did you forget a closing '\x7d'?)")) ∧
    (rootDispatch (initParser {} (ascii "["))).withoutBraces = false := by
  refine ⟨?_, ?_, ?_⟩
  · have h := claim_C3.1 tryNumSpec (fuelFor (ascii "]")) (initParser {} (ascii "]"))
      (ascii
        "Found ']' where a key name was expected (check your syntax or use quotes if the key name includes {}[],: or whitespace) at line 1,0 >>> ]")
      rfl rfl
    rw [h]
    rfl
  · exact claim_C3.2.1 tryNumSpec (fuelFor (ascii "\x7b")) (initParser {} (ascii "\x7b"))
      (ascii "End of input while parsing an object (did you forget a closing '\x7d'?)")
      rfl rfl
  · exact (claim_C3.2.2.1 (initParser {} (ascii "[")) rfl).mpr (Or.inl rfl)

/-- A one-entry map `{a: 1}` used by the C6 witness states. -/
def mapA : Value :=
  Value.mk (.map [(ascii "a", Value.mk (.int64 1) [] [] [] [])]) [] [] [] []

/-- Parser state for the C6 witness (non-root frame): about to read the key
`a` of `a:1` into a map that already has an entry `a`. -/
def pW6 : Parser :=
  { data := ascii "a:1", indexNext := 1, ch := 97, withoutBraces := false,
    opt := dupExOpts, vState := [.mapElemBegin], vParent := [{ val := mapA }] }

/-- The scanner state after reading that key. -/
def p1W6 : Parser :=
  { data := ascii "a:1", indexNext := 2, ch := 58, withoutBraces := false,
    opt := dupExOpts, vState := [.mapElemBegin], vParent := [{ val := mapA }] }

/-- The identity duplicate-key handler, for the C6 witness. -/
def idHandler : List Nat → Value → List Nat × Value := fun k m => (k, m)

def dupExIdOpts : DecoderOptions :=
  { duplicateKeyException := true, duplicateKeyHandler := some idHandler }

/-- Root-frame variant of `pW6`, with the identity handler installed. -/
def pW6r : Parser :=
  { data := ascii "a:1", indexNext := 1, ch := 97, withoutBraces := false,
    opt := dupExIdOpts, vState := [.mapElemBegin],
    vParent := [{ isRoot := true, val := mapA }] }

def p1W6r : Parser :=
  { data := ascii "a:1", indexNext := 2, ch := 58, withoutBraces := false,
    opt := dupExIdOpts, vState := [.mapElemBegin],
    vParent := [{ isRoot := true, val := mapA }] }

/-- Witness for C6: the duplicate-key error fires on the concrete states
`pW6` (no handler involved) and `pW6r` (root frame, handler applied before
the check). -/
theorem claim_C6_witness :
    (∃ m, readObjectElemBegin pW6 = .error (.syn m) ∧
      containsSeg m (ascii "Found duplicate of key '" ++ ascii "a" ++ ascii "'") =
        true) ∧
    (∃ m, readObjectElemBegin pW6r = .error (.syn m) ∧
      containsSeg m (ascii "Found duplicate of key '" ++
        (idHandler (ascii "a") (topParent p1W6r).val).1 ++ ascii "'") = true) := by
  constructor
  · exact claim_C6.1 pW6 p1W6 (ascii "a") (by decide) rfl rfl (Or.inl (by rfl)) (by rfl)
  · exact claim_C6.2.1 pW6r p1W6r (ascii "a") idHandler (by decide) rfl rfl (by rfl)
      rfl (by rfl)

/-- Witness for C10: a syntax error (`[`), a non-Map root (`[1]`) and a
successful Map decode (`{}`) exercise the three general clauses. -/
theorem claim_C10_witness :
    hj2py tryNumSpec (ascii "[") = .failure (-2) (ascii
      "End of input while parsing an array (did you forget a closing ']'?)") ∧
    hj2py tryNumSpec (ascii "[1]") = .failure (-3) (ascii "Root is not a map") ∧
    (∃ v, Unmarshal tryNumSpec pyOptions (ascii "{}") = .ok v ∧ v.isMap = true) := by
  refine ⟨?_, ?_, ?_⟩
  · exact claim_C10.2.1 tryNumSpec (ascii "[") (ascii
      "End of input while parsing an array (did you forget a closing ']'?)") rfl
  · exact claim_C10.2.2.1 tryNumSpec (ascii "[1]")
      (Value.mk (.vec [Value.mk (.int64 1) [] [] [] []]) [] [] [] []) rfl rfl
  · refine claim_C10.2.2.2.1 tryNumSpec (ascii "{}") []
      [commSelf (Value.mk (.map []) [] [] [] []), .pdict []] ?_
    unfold hj2py
    rw [show Unmarshal tryNumSpec pyOptions (ascii "{}") =
      .ok (Value.mk (.map []) [] [] [] []) from rfl]
    dsimp only
    rw [if_neg (fun h => h rfl)]
    dsimp only [Value.core]
    rw [show map2dict [] = .ok ([], []) from by rw [map2dict]]

/-! ### C7: characterising `_errAt` -/

theorem lineStartIdx_le (data : List Nat) (i : Nat) : lineStartIdx data i ≤ i := by
  induction i with
  | zero => exact le_rfl
  | succ i ih =>
    show (if data.getD (i + 1) 0 ≠ 10 then lineStartIdx data i else i + 1) ≤ i + 1
    split
    · omega
    · exact le_rfl

theorem lineStartIdx_newline_or_zero (data : List Nat) (i : Nat) :
    data.getD (lineStartIdx data i) 0 = 10 ∨ lineStartIdx data i = 0 := by
  induction i with
  | zero => exact Or.inr rfl
  | succ i ih =>
    show data.getD (if data.getD (i + 1) 0 ≠ 10 then lineStartIdx data i else i + 1) 0
      = 10 ∨ (if data.getD (i + 1) 0 ≠ 10 then lineStartIdx data i else i + 1) = 0
    split
    · exact ih
    · next h =>
      exact Or.inl (by omega)

theorem lineStartIdx_no_newline (data : List Nat) (i : Nat) :
    ∀ j, lineStartIdx data i < j → j ≤ i → data.getD j 0 ≠ 10 := by
  induction i with
  | zero =>
    intro j h1 h2
    omega
  | succ i ih =>
    intro j h1 h2
    by_cases hc : data.getD (i + 1) 0 ≠ 10
    · rw [show lineStartIdx data (i + 1) =
        (if data.getD (i + 1) 0 ≠ 10 then lineStartIdx data i else i + 1) from rfl,
        if_pos hc] at h1
      by_cases hj : j = i + 1
      · rw [hj]; exact hc
      · exact ih j h1 (by omega)
    · rw [show lineStartIdx data (i + 1) =
        (if data.getD (i + 1) 0 ≠ 10 then lineStartIdx data i else i + 1) from rfl,
        if_neg hc] at h1
      omega

theorem newlineCount_eq_countP (data : List Nat) (i : Nat) :
    newlineCount data i =
      (List.range i).countP (fun j => data.getD (j + 1) 0 == 10) := by
  induction i with
  | zero => rfl
  | succ i ih =>
    show (if data.getD (i + 1) 0 = 10 then 1 else 0) + newlineCount data i = _
    rw [List.range_succ, List.countP_append, ih, List.countP_singleton]
    by_cases h : data.getD (i + 1) 0 = 10
    · rw [if_pos h, if_pos (show ((fun j => data.getD (j + 1) 0 == 10) i) = true by
        simp only [beq_iff_eq]; exact h)]
      omega
    · rw [if_neg h, if_neg (show ¬((fun j => data.getD (j + 1) 0 == 10) i) = true by
        simp only [beq_iff_eq]; exact h)]
      omega

/-- C7 (amended): a `syntax_error` message has the form
`<reason> at line L,C >>> <context>` exactly when the input is non-empty
and the scanner index has not run past its end; the context is at most 20
bytes and starts where the backwards walk from the scanner position stops
(the previous newline, or the buffer start), with no newline strictly
between that point and the position; the line number is one plus the
number of newlines up to that point; when the scanner has run past the end
of the input (as at EOF-triggered errors) the message is the bare reason —
in particular parsing `{ a: "unterminated` raises a `syntax_error` whose
message is exactly `Bad string`, with no line/column. -/
theorem claim_C7 :
    (∀ (p : Parser) (msg : List Nat),
      0 < p.data.length → p.indexNext ≤ p.data.length →
      errAt p msg =
        msg ++ ascii " at line " ++
          ascii (toString (1 + (List.range
            (lineStartIdx p.data (max 1 (min p.data.length p.indexNext) - 1))).countP
              (fun j => p.data.getD (j + 1) 0 == 10))) ++
          ascii "," ++
          ascii (toString ((max 1 (min p.data.length p.indexNext) - 1) -
            lineStartIdx p.data (max 1 (min p.data.length p.indexNext) - 1))) ++
          ascii " >>> " ++
          (p.data.drop
            (lineStartIdx p.data (max 1 (min p.data.length p.indexNext) - 1))).take
            (min 20 (p.data.length -
              lineStartIdx p.data (max 1 (min p.data.length p.indexNext) - 1))) ∧
      lineStartIdx p.data (max 1 (min p.data.length p.indexNext) - 1) ≤
        max 1 (min p.data.length p.indexNext) - 1 ∧
      (p.data.getD (lineStartIdx p.data (max 1 (min p.data.length p.indexNext) - 1)) 0
          = 10 ∨
        lineStartIdx p.data (max 1 (min p.data.length p.indexNext) - 1) = 0) ∧
      (∀ j, lineStartIdx p.data (max 1 (min p.data.length p.indexNext) - 1) < j →
        j ≤ max 1 (min p.data.length p.indexNext) - 1 → p.data.getD j 0 ≠ 10) ∧
      ((p.data.drop
        (lineStartIdx p.data (max 1 (min p.data.length p.indexNext) - 1))).take
        (min 20 (p.data.length -
          lineStartIdx p.data (max 1 (min p.data.length p.indexNext) - 1)))).length
        ≤ 20) ∧
    (∀ (p : Parser) (msg : List Nat),
      p.data.length = 0 ∨ p.data.length < p.indexNext → errAt p msg = msg) ∧
    Unmarshal tryNumSpec {} (ascii "\x7b a: \"unterminated") =
      .error (.syn (ascii "Bad string")) := by
  refine ⟨?_, ?_, rfl⟩
  · intro p msg h1 h2
    have hle := lineStartIdx_le p.data (max 1 (min p.data.length p.indexNext) - 1)
    refine ⟨?_, hle, lineStartIdx_newline_or_zero _ _, lineStartIdx_no_newline _ _, ?_⟩
    · unfold errAt
      rw [if_pos ⟨h1, h2⟩]
      dsimp only
      rw [newlineCount_eq_countP]
      rw [show (max 1 (min p.data.length p.indexNext) - 1) -
          ((max 1 (min p.data.length p.indexNext) - 1) -
            lineStartIdx p.data (max 1 (min p.data.length p.indexNext) - 1)) =
          lineStartIdx p.data (max 1 (min p.data.length p.indexNext) - 1) from by
        omega]
      unfold substr
      rw [show lineStartIdx p.data (max 1 (min p.data.length p.indexNext) - 1) +
          min 20 (p.data.length -
            lineStartIdx p.data (max 1 (min p.data.length p.indexNext) - 1)) -
          lineStartIdx p.data (max 1 (min p.data.length p.indexNext) - 1) =
          min 20 (p.data.length -
            lineStartIdx p.data (max 1 (min p.data.length p.indexNext) - 1)) from by
        omega]
    · rw [List.length_take]
      omega
  · intro p msg hor
    unfold errAt
    rw [if_neg]
    intro hc
    omega

/-- Parser state for the C7 witness: the buffer `ab\ncd`, scanner on the
last byte. -/
def pW7 : Parser :=
  { data := ascii "ab\ncd", indexNext := 5, ch := 100, withoutBraces := false,
    opt := {} }

/-- Parser state for the C7 witness, bare-message case: the scanner has run
one past the end of the one-byte buffer `x`. -/
def pW7past : Parser :=
  { data := [120], indexNext := 2, ch := 0, withoutBraces := false, opt := {} }

/-- Witness for C7: on `ab\ncd` with the scanner at the final `d`, the
message gains ` at line 2,2 >>> ` and the context `\ncd`; past the end of
input the message is bare. -/
theorem claim_C7_witness :
    errAt pW7 (ascii "Oops") = ascii "Oops at line 2,2 >>> " ++ [10, 99, 100] ∧
    errAt pW7past (ascii "Oops") = ascii "Oops" := by
  constructor
  · have h := (claim_C7.1 pW7 (ascii "Oops") (by decide) (by decide)).1
    rw [h]
    rfl
  · exact claim_C7.2.1 pW7past (ascii "Oops") (Or.inr (by decide))

/-! ### C8: the `has_comment` flags -/

theorem whiteLoopF_flag (f : Nat) : ∀ (p : Parser) (hasC : Bool), pm p < f →
    (whiteLoopF f p hasC).2 = (hasC || (p.opt.comments && sawComment p)) := by
  induction f with
  | zero => intro p hasC hf; omega
  | succ f ih =>
    intro p hasC hf
    show (if 0 < p.ch then _ else _ : Parser × Bool).2 = _
    by_cases h0 : 0 < p.ch
    · rw [if_pos h0]
      have hopt : (whiteSkipWs p).opt = p.opt := (sameShape_whiteSkipWs p).2.1
      by_cases h2 : (whiteSkipWs p).ch = 35 ∨
          ((whiteSkipWs p).ch = 47 ∧ peek (whiteSkipWs p) 0 = 47)
      · rw [if_pos h2]
        have hlt : pm (skipToEol (whiteSkipWs p)) < pm p :=
          lt_of_lt_of_le
            (pm_skipToEol_lt (whiteSkipWs p)
              (by rcases h2 with h2 | ⟨h2, _⟩ <;> omega)
              (by rcases h2 with h2 | ⟨h2, _⟩ <;> omega))
            (pm_whiteSkipWs_le p)
        rw [ih _ _ (by omega)]
        have hsaw : sawComment p = true := by
          unfold sawComment
          rcases h2 with h2 | ⟨h2, h2b⟩ <;> simp [h0, h2]
          simp [h2b]
        have hopt2 : (skipToEol (whiteSkipWs p)).opt = p.opt := by
          rw [(sameShape_skipToEol (whiteSkipWs p)).2.1, hopt]
        rw [hsaw, hopt, hopt2]
        cases hasC <;> cases p.opt.comments <;> simp
      · rw [if_neg h2]
        by_cases h3 : (whiteSkipWs p).ch = 47 ∧ peek (whiteSkipWs p) 0 = 42
        · rw [if_pos h3]
          have hlt : pm (triviaStep whiteSkipWs p) < pm p :=
            pm_triviaStep_lt whiteSkipWs pm_whiteSkipWs_le p (by omega)
          rw [ih _ _ (by omega)]
          have hsaw : sawComment p = true := by
            unfold sawComment
            obtain ⟨h3a, h3b⟩ := h3
            simp [h0, h3a, h3b]
          have hopt2 : (triviaStep whiteSkipWs p).opt = p.opt :=
            (sameShape_triviaStep whiteSkipWs sameShape_whiteSkipWs p).2.1
          rw [hsaw, hopt, hopt2]
          cases hasC <;> cases p.opt.comments <;> simp
        · rw [if_neg h3]
          have hsaw : sawComment p = false := by
            unfold sawComment
            rw [Bool.and_eq_false_iff]
            right
            simp only [Bool.or_eq_false_iff, Bool.and_eq_false_iff, beq_eq_false_iff_ne]
            push_neg at h2 h3
            refine ⟨h2.1, ?_⟩
            by_cases hc47 : (whiteSkipWs p).ch = 47
            · right
              exact ⟨h2.2 hc47, h3 hc47⟩
            · exact Or.inl hc47
          rw [hsaw]
          simp
    · rw [if_neg h0]
      have hsaw : sawComment p = false := by
        unfold sawComment
        simp [h0]
      rw [hsaw]
      simp

theorem gcaLoopF_flag (f : Nat) : ∀ (p : Parser) (hasC : Bool), pm p < f →
    (gcaLoopF f p hasC).2 = (hasC || (p.opt.comments && sawCommentLine p)) := by
  induction f with
  | zero => intro p hasC hf; omega
  | succ f ih =>
    intro p hasC hf
    show (if 0 < p.ch then _ else _ : Parser × Bool).2 = _
    by_cases h0 : 0 < p.ch
    · rw [if_pos h0]
      have hopt : (whiteSkipWsToEol p).opt = p.opt := (sameShape_whiteSkipWsToEol p).2.1
      by_cases h2 : (whiteSkipWsToEol p).ch = 35 ∨
          ((whiteSkipWsToEol p).ch = 47 ∧ peek (whiteSkipWsToEol p) 0 = 47)
      · rw [if_pos h2]
        have hlt : pm (skipToEol (whiteSkipWsToEol p)) < pm p :=
          lt_of_lt_of_le
            (pm_skipToEol_lt (whiteSkipWsToEol p)
              (by rcases h2 with h2 | ⟨h2, _⟩ <;> omega)
              (by rcases h2 with h2 | ⟨h2, _⟩ <;> omega))
            (pm_whiteSkipWsToEol_le p)
        rw [ih _ _ (by omega)]
        have hsaw : sawCommentLine p = true := by
          unfold sawCommentLine
          rcases h2 with h2 | ⟨h2, h2b⟩ <;> simp [h0, h2]
          simp [h2b]
        have hopt2 : (skipToEol (whiteSkipWsToEol p)).opt = p.opt := by
          rw [(sameShape_skipToEol (whiteSkipWsToEol p)).2.1, hopt]
        rw [hsaw, hopt, hopt2]
        cases hasC <;> cases p.opt.comments <;> simp
      · rw [if_neg h2]
        by_cases h3 : (whiteSkipWsToEol p).ch = 47 ∧ peek (whiteSkipWsToEol p) 0 = 42
        · rw [if_pos h3]
          have hlt : pm (triviaStep whiteSkipWsToEol p) < pm p :=
            pm_triviaStep_lt whiteSkipWsToEol pm_whiteSkipWsToEol_le p (by omega)
          rw [ih _ _ (by omega)]
          have hsaw : sawCommentLine p = true := by
            unfold sawCommentLine
            obtain ⟨h3a, h3b⟩ := h3
            simp [h0, h3a, h3b]
          have hopt2 : (triviaStep whiteSkipWsToEol p).opt = p.opt :=
            (sameShape_triviaStep whiteSkipWsToEol sameShape_whiteSkipWsToEol p).2.1
          rw [hsaw, hopt, hopt2]
          cases hasC <;> cases p.opt.comments <;> simp
        · rw [if_neg h3]
          have hsaw : sawCommentLine p = false := by
            unfold sawCommentLine
            rw [Bool.and_eq_false_iff]
            right
            simp only [Bool.or_eq_false_iff, Bool.and_eq_false_iff, beq_eq_false_iff_ne]
            push_neg at h2 h3
            refine ⟨h2.1, ?_⟩
            by_cases hc47 : (whiteSkipWsToEol p).ch = 47
            · right
              exact ⟨h2.2 hc47, h3 hc47⟩
            · exact Or.inl hc47
          rw [hsaw]
          simp
    · rw [if_neg h0]
      have hsaw : sawCommentLine p = false := by
        unfold sawCommentLine
        simp [h0]
      rw [hsaw]
      simp

/-- C8 (amended): `_white` returns `has_comment = true` exactly when a
`#`, `//` or `/*` comment was encountered and `comments` is on, or a
non-empty run of trivia was skipped and `whitespaceAsComments` is on; but
`_getCommentAfter` initialises the flag to `whitespaceAsComments` before
consuming anything, so it returns `has_comment = true` exactly when a
comment was encountered under `comments`, or `whitespaceAsComments` is on —
regardless of whether any bytes were consumed. -/
theorem claim_C8 :
    (∀ p : Parser, (white p).1.hasComment =
      ((p.opt.comments && sawComment p) ||
        (p.opt.whitespaceAsComments &&
          decide ((white p).1.cmStart < (white p).1.cmEnd)))) ∧
    (∀ p : Parser, (getCommentAfter p).1.hasComment =
      ((p.opt.comments && sawCommentLine p) || p.opt.whitespaceAsComments)) := by
  constructor
  · intro p
    show ((whiteLoop p false).2 || _) = _
    rw [show whiteLoop p false = whiteLoopF (pm p + 1) p false from rfl]
    rw [whiteLoopF_flag (pm p + 1) p false (Nat.lt_succ_self _)]
    rw [Bool.false_or]
    rfl
  · intro p
    show (gcaLoop p p.opt.whitespaceAsComments).2 = _
    rw [show gcaLoop p p.opt.whitespaceAsComments =
      gcaLoopF (pm p + 1) p p.opt.whitespaceAsComments from rfl]
    rw [gcaLoopF_flag (pm p + 1) p _ (Nat.lt_succ_self _)]
    rw [Bool.or_comm]

theorem parseLoop_err (tn : List Nat → Option Value) (g : Nat) (p : Parser)
    (st : ParseState) (rest : List ParseState) (e : Err)
    (h : p.vState = st :: rest) (hs : parseStep tn st p = .error e) :
    parseLoopFuel tn (g + 1) p = .error e := by
  have hh : p.vState.head? = some st := by rw [h]; rfl
  simp only [parseLoopFuel, hh, hs]

theorem head_elemEnd_not_vectorBegin (l : List ParseState)
    (h : ∀ s ∈ l, s = .mapElemEnd ∨ s = .vectorElemEnd)
    (hc : l.head? = some .vectorBegin) : False := by
  cases l with
  | nil => exact Option.noConfusion hc
  | cons a t =>
    injection hc with hc
    rcases h a (List.mem_cons_self a t) with h1 | h1 <;>
      rw [h1] at hc <;> exact ParseState.noConfusion hc

theorem pmu_eq (x : Parser) (l : List ParseState) (h : x.vState = l) :
    pmu x = 16 * pm x + stackWeight l := by rw [pmu, h]

/-- The dispatch loop never exhausts fuel exceeding the measure. -/
theorem parseLoopFuel_nf (tn : List Nat → Option Value) :
    ∀ F p, stackInv p → pmu p < F → parseLoopFuel tn F p ≠ .error .fuelOut := by
  intro F
  induction F using Nat.strong_induction_on with
  | _ F ih =>
    intro p hInv hF
    cases F with
    | zero => exact absurd hF (by omega)
    | succ F =>
      cases hvs : p.vState with
      | nil =>
        rw [parseLoop_done tn (F + 1) p hvs]
        exact fun hc => Except.noConfusion hc
      | cons st rest =>
        have hInv2 : ∀ s ∈ rest, s = .mapElemEnd ∨ s = .vectorElemEnd := by
          intro s hs
          refine hInv.2 s ?_
          rw [hvs]
          exact hs
        have hpp : pmu p = 16 * pm p + stackWeight (st :: rest) := pmu_eq p _ hvs
        cases st with
        | valueEnd =>
          rw [parseLoop_step tn F p (readValueEnd p) .valueEnd rest hvs rfl]
          obtain ⟨hv1, hpm1⟩ := step_valueEnd p
          have hv1' : (readValueEnd p).vState = rest := by rw [hv1, hvs, List.tail_cons]
          refine ih F (Nat.lt_succ_self F) (readValueEnd p) ⟨?_, ?_⟩ ?_
          · intro hc
            rw [hv1'] at hc
            exact (head_elemEnd_not_vectorBegin rest hInv2 hc).elim
          · intro s hs
            rw [hv1'] at hs
            exact hInv2 s (List.mem_of_mem_tail hs)
          · have e1 : pmu (readValueEnd p) =
                16 * pm (readValueEnd p) + stackWeight rest := pmu_eq _ _ hv1'
            have w1 : stackWeight (ParseState.valueEnd :: rest) =
                1 + stackWeight rest := rfl
            omega
        | mapBegin =>
          rw [parseLoop_step tn F p (readObjectBegin p) .mapBegin rest hvs rfl]
          obtain ⟨hd1, hpm1, _⟩ := step_mapBegin p rest hvs
          have wp : stackWeight (ParseState.mapBegin :: rest) =
              3 + stackWeight rest := rfl
          rcases hd1 with hv1 | hv1
          · refine ih F (Nat.lt_succ_self F) (readObjectBegin p) ⟨?_, ?_⟩ ?_
            · intro hc
              rw [hv1] at hc
              simp at hc
            · intro s hs
              rw [hv1] at hs
              simp only [List.tail_cons] at hs
              exact hInv2 s hs
            · have e1 : pmu (readObjectBegin p) = 16 * pm (readObjectBegin p) +
                  stackWeight (ParseState.valueEnd :: rest) := pmu_eq _ _ hv1
              have w1 : stackWeight (ParseState.valueEnd :: rest) =
                  1 + stackWeight rest := rfl
              omega
          · refine ih F (Nat.lt_succ_self F) (readObjectBegin p) ⟨?_, ?_⟩ ?_
            · intro hc
              rw [hv1] at hc
              simp at hc
            · intro s hs
              rw [hv1] at hs
              simp only [List.tail_cons] at hs
              exact hInv2 s hs
            · have e1 : pmu (readObjectBegin p) = 16 * pm (readObjectBegin p) +
                  stackWeight (ParseState.mapElemBegin :: rest) := pmu_eq _ _ hv1
              have w1 : stackWeight (ParseState.mapElemBegin :: rest) =
                  2 + stackWeight rest := rfl
              omega
        | vectorBegin =>
          have hch : p.ch = 91 := hInv.1 (by rw [hvs]; rfl)
          rw [parseLoop_step tn F p (readArrayBegin p) .vectorBegin rest hvs rfl]
          obtain ⟨hd1, hpm1⟩ := step_vectorBegin p rest hvs hch
          have wp : stackWeight (ParseState.vectorBegin :: rest) =
              3 + stackWeight rest := rfl
          rcases hd1 with hv1 | hv1
          · refine ih F (Nat.lt_succ_self F) (readArrayBegin p) ⟨?_, ?_⟩ ?_
            · intro hc
              rw [hv1] at hc
              simp at hc
            · intro s hs
              rw [hv1] at hs
              simp only [List.tail_cons] at hs
              exact hInv2 s hs
            · have e1 : pmu (readArrayBegin p) = 16 * pm (readArrayBegin p) +
                  stackWeight (ParseState.valueEnd :: rest) := pmu_eq _ _ hv1
              have w1 : stackWeight (ParseState.valueEnd :: rest) =
                  1 + stackWeight rest := rfl
              omega
          · refine ih F (Nat.lt_succ_self F) (readArrayBegin p) ⟨?_, ?_⟩ ?_
            · intro hc
              rw [hv1] at hc
              simp at hc
            · intro s hs
              rw [hv1] at hs
              simp only [List.tail_cons] at hs
              rcases List.mem_cons.mp hs with rfl | hs2
              · exact Or.inr rfl
              · exact hInv2 s hs2
            · have e1 : pmu (readArrayBegin p) = 16 * pm (readArrayBegin p) +
                  stackWeight (ParseState.valueBegin :: ParseState.vectorElemEnd ::
                    rest) := pmu_eq _ _ hv1
              have w1 : stackWeight (ParseState.valueBegin ::
                  ParseState.vectorElemEnd :: rest) =
                  5 + (3 + stackWeight rest) := rfl
              omega
        | mapElemBegin =>
          cases hps : parseStep tn .mapElemBegin p with
          | error e =>
            rw [parseLoop_err tn F p .mapElemBegin rest e hvs hps]
            intro hc
            injection hc with hc
            exact parseStep_nf tn .mapElemBegin p (hc ▸ hps)
          | ok p1 =>
            rw [parseLoop_step tn F p p1 .mapElemBegin rest hvs hps]
            have wp : stackWeight (ParseState.mapElemBegin :: rest) =
                2 + stackWeight rest := rfl
            rcases step_mapElemBegin p p1 rest hvs hps with ⟨hv1, hpm1⟩ | ⟨hv1, hpm1⟩
            · refine ih F (Nat.lt_succ_self F) p1 ⟨?_, ?_⟩ ?_
              · intro hc
                rw [hv1] at hc
                simp at hc
              · intro s hs
                rw [hv1] at hs
                simp only [List.tail_cons] at hs
                exact hInv2 s hs
              · have e1 : pmu p1 = 16 * pm p1 +
                    stackWeight (ParseState.valueEnd :: rest) := pmu_eq _ _ hv1
                have w1 : stackWeight (ParseState.valueEnd :: rest) =
                    1 + stackWeight rest := rfl
                omega
            · refine ih F (Nat.lt_succ_self F) p1 ⟨?_, ?_⟩ ?_
              · intro hc
                rw [hv1] at hc
                simp at hc
              · intro s hs
                rw [hv1] at hs
                simp only [List.tail_cons] at hs
                rcases List.mem_cons.mp hs with rfl | hs2
                · exact Or.inl rfl
                · exact hInv2 s hs2
              · have e1 : pmu p1 = 16 * pm p1 +
                    stackWeight (ParseState.valueBegin :: ParseState.mapElemEnd ::
                      rest) := pmu_eq _ _ hv1
                have w1 : stackWeight (ParseState.valueBegin ::
                    ParseState.mapElemEnd :: rest) =
                    5 + (3 + stackWeight rest) := rfl
                omega
        | mapElemEnd =>
          cases hps : parseStep tn .mapElemEnd p with
          | error e =>
            rw [parseLoop_err tn F p .mapElemEnd rest e hvs hps]
            intro hc
            injection hc with hc
            exact parseStep_nf tn .mapElemEnd p (hc ▸ hps)
          | ok p1 =>
            rw [parseLoop_step tn F p p1 .mapElemEnd rest hvs hps]
            have wp : stackWeight (ParseState.mapElemEnd :: rest) =
                3 + stackWeight rest := rfl
            obtain ⟨hd1, hpm1⟩ := step_mapElemEnd p p1 rest hvs hps
            rcases hd1 with hv1 | hv1
            · refine ih F (Nat.lt_succ_self F) p1 ⟨?_, ?_⟩ ?_
              · intro hc
                rw [hv1] at hc
                simp at hc
              · intro s hs
                rw [hv1] at hs
                simp only [List.tail_cons] at hs
                exact hInv2 s hs
              · have e1 : pmu p1 = 16 * pm p1 +
                    stackWeight (ParseState.valueEnd :: rest) := pmu_eq _ _ hv1
                have w1 : stackWeight (ParseState.valueEnd :: rest) =
                    1 + stackWeight rest := rfl
                omega
            · refine ih F (Nat.lt_succ_self F) p1 ⟨?_, ?_⟩ ?_
              · intro hc
                rw [hv1] at hc
                simp at hc
              · intro s hs
                rw [hv1] at hs
                simp only [List.tail_cons] at hs
                exact hInv2 s hs
              · have e1 : pmu p1 = 16 * pm p1 +
                    stackWeight (ParseState.mapElemBegin :: rest) := pmu_eq _ _ hv1
                have w1 : stackWeight (ParseState.mapElemBegin :: rest) =
                    2 + stackWeight rest := rfl
                omega
        | valueBegin =>
          cases hps : parseStep tn .valueBegin p with
          | error e =>
            rw [parseLoop_err tn F p .valueBegin rest e hvs hps]
            intro hc
            injection hc with hc
            exact parseStep_nf tn .valueBegin p (hc ▸ hps)
          | ok p1 =>
            rw [parseLoop_step tn F p p1 .valueBegin rest hvs hps]
            have wp : stackWeight (ParseState.valueBegin :: rest) =
                5 + stackWeight rest := rfl
            obtain ⟨hpm1, hd1, _⟩ := step_valueBegin tn p p1 rest hvs hps
            rcases hd1 with ⟨hv1, hch1⟩ | ⟨hv1, hch1⟩ | hv1
            · refine ih F (Nat.lt_succ_self F) p1 ⟨?_, ?_⟩ ?_
              · intro hc
                rw [hv1] at hc
                simp at hc
              · intro s hs
                rw [hv1] at hs
                simp only [List.tail_cons] at hs
                exact hInv2 s hs
              · have e1 : pmu p1 = 16 * pm p1 +
                    stackWeight (ParseState.mapBegin :: rest) := pmu_eq _ _ hv1
                have w1 : stackWeight (ParseState.mapBegin :: rest) =
                    3 + stackWeight rest := rfl
                omega
            · refine ih F (Nat.lt_succ_self F) p1 ⟨?_, ?_⟩ ?_
              · intro _
                exact hch1
              · intro s hs
                rw [hv1] at hs
                simp only [List.tail_cons] at hs
                exact hInv2 s hs
              · have e1 : pmu p1 = 16 * pm p1 +
                    stackWeight (ParseState.vectorBegin :: rest) := pmu_eq _ _ hv1
                have w1 : stackWeight (ParseState.vectorBegin :: rest) =
                    3 + stackWeight rest := rfl
                omega
            · refine ih F (Nat.lt_succ_self F) p1 ⟨?_, ?_⟩ ?_
              · intro hc
                rw [hv1] at hc
                simp at hc
              · intro s hs
                rw [hv1] at hs
                simp only [List.tail_cons] at hs
                exact hInv2 s hs
              · have e1 : pmu p1 = 16 * pm p1 +
                    stackWeight (ParseState.valueEnd :: rest) := pmu_eq _ _ hv1
                have w1 : stackWeight (ParseState.valueEnd :: rest) =
                    1 + stackWeight rest := rfl
                omega
        | vectorElemEnd =>
          cases hps : parseStep tn .vectorElemEnd p with
          | error e =>
            rw [parseLoop_err tn F p .vectorElemEnd rest e hvs hps]
            intro hc
            injection hc with hc
            exact parseStep_nf tn .vectorElemEnd p (hc ▸ hps)
          | ok p1 =>
            rw [parseLoop_step tn F p p1 .vectorElemEnd rest hvs hps]
            have wp : stackWeight (ParseState.vectorElemEnd :: rest) =
                3 + stackWeight rest := rfl
            rcases step_vectorElemEnd p p1 rest hvs hps with
              ⟨hv1, hpm1⟩ | ⟨hv1, hpm1, hch1, hnt1⟩
            · refine ih F (Nat.lt_succ_self F) p1 ⟨?_, ?_⟩ ?_
              · intro hc
                rw [hv1] at hc
                simp at hc
              · intro s hs
                rw [hv1] at hs
                simp only [List.tail_cons] at hs
                exact hInv2 s hs
              · have e1 : pmu p1 = 16 * pm p1 +
                    stackWeight (ParseState.valueEnd :: rest) := pmu_eq _ _ hv1
                have w1 : stackWeight (ParseState.valueEnd :: rest) =
                    1 + stackWeight rest := rfl
                omega
            · -- the push case: expand the following ValueBegin dispatch
              cases F with
              | zero => exact absurd hF (by omega)
              | succ F2 =>
                cases hps2 : readValueBegin tn p1 with
                | error e =>
                  rw [parseLoop_err tn F2 p1 .valueBegin _ e hv1 hps2]
                  intro hc
                  injection hc with hc
                  exact readValueBegin_nf tn p1 (hc ▸ hps2)
                | ok p2 =>
                  rw [parseLoop_step tn F2 p1 p2 .valueBegin _ hv1 hps2]
                  obtain ⟨hpm2, hd2, hstrict2⟩ :=
                    step_valueBegin tn p1 p2 (.vectorElemEnd :: rest) hv1 hps2
                  rcases hd2 with ⟨hv2, hch2⟩ | ⟨hv2, hch2⟩ | hv2
                  · -- `{` : the MapBegin step then consumes it
                    cases F2 with
                    | zero => exact absurd hF (by omega)
                    | succ F3 =>
                      rw [parseLoop_step tn F3 p2 (readObjectBegin p2)
                        .mapBegin _ hv2 rfl]
                      obtain ⟨hd3, hpm3le, hpm3lt⟩ :=
                        step_mapBegin p2 (.vectorElemEnd :: rest) hv2
                      have hpm3 := hpm3lt hch2
                      have e2 : pmu p2 = 16 * pm p2 +
                          stackWeight (ParseState.mapBegin ::
                            ParseState.vectorElemEnd :: rest) := pmu_eq _ _ hv2
                      have w2 : stackWeight (ParseState.mapBegin ::
                          ParseState.vectorElemEnd :: rest) =
                          3 + (3 + stackWeight rest) := rfl
                      rcases hd3 with hv3 | hv3
                      · refine ih F3 (by omega) (readObjectBegin p2) ⟨?_, ?_⟩ ?_
                        · intro hc
                          rw [hv3] at hc
                          simp at hc
                        · intro s hs
                          rw [hv3] at hs
                          simp only [List.tail_cons] at hs
                          rcases List.mem_cons.mp hs with rfl | hs2
                          · exact Or.inr rfl
                          · exact hInv2 s hs2
                        · have e3 : pmu (readObjectBegin p2) =
                              16 * pm (readObjectBegin p2) +
                              stackWeight (ParseState.valueEnd ::
                                ParseState.vectorElemEnd :: rest) := pmu_eq _ _ hv3
                          have w3 : stackWeight (ParseState.valueEnd ::
                              ParseState.vectorElemEnd :: rest) =
                              1 + (3 + stackWeight rest) := rfl
                          omega
                      · refine ih F3 (by omega) (readObjectBegin p2) ⟨?_, ?_⟩ ?_
                        · intro hc
                          rw [hv3] at hc
                          simp at hc
                        · intro s hs
                          rw [hv3] at hs
                          simp only [List.tail_cons] at hs
                          rcases List.mem_cons.mp hs with rfl | hs2
                          · exact Or.inr rfl
                          · exact hInv2 s hs2
                        · have e3 : pmu (readObjectBegin p2) =
                              16 * pm (readObjectBegin p2) +
                              stackWeight (ParseState.mapElemBegin ::
                                ParseState.vectorElemEnd :: rest) := pmu_eq _ _ hv3
                          have w3 : stackWeight (ParseState.mapElemBegin ::
                              ParseState.vectorElemEnd :: rest) =
                              2 + (3 + stackWeight rest) := rfl
                          omega
                  · -- `[` : the VectorBegin step then consumes it
                    cases F2 with
                    | zero => exact absurd hF (by omega)
                    | succ F3 =>
                      rw [parseLoop_step tn F3 p2 (readArrayBegin p2)
                        .vectorBegin _ hv2 rfl]
                      obtain ⟨hd3, hpm3⟩ :=
                        step_vectorBegin p2 (.vectorElemEnd :: rest) hv2 hch2
                      have e2 : pmu p2 = 16 * pm p2 +
                          stackWeight (ParseState.vectorBegin ::
                            ParseState.vectorElemEnd :: rest) := pmu_eq _ _ hv2
                      have w2 : stackWeight (ParseState.vectorBegin ::
                          ParseState.vectorElemEnd :: rest) =
                          3 + (3 + stackWeight rest) := rfl
                      rcases hd3 with hv3 | hv3
                      · refine ih F3 (by omega) (readArrayBegin p2) ⟨?_, ?_⟩ ?_
                        · intro hc
                          rw [hv3] at hc
                          simp at hc
                        · intro s hs
                          rw [hv3] at hs
                          simp only [List.tail_cons] at hs
                          rcases List.mem_cons.mp hs with rfl | hs2
                          · exact Or.inr rfl
                          · exact hInv2 s hs2
                        · have e3 : pmu (readArrayBegin p2) =
                              16 * pm (readArrayBegin p2) +
                              stackWeight (ParseState.valueEnd ::
                                ParseState.vectorElemEnd :: rest) := pmu_eq _ _ hv3
                          have w3 : stackWeight (ParseState.valueEnd ::
                              ParseState.vectorElemEnd :: rest) =
                              1 + (3 + stackWeight rest) := rfl
                          omega
                      · refine ih F3 (by omega) (readArrayBegin p2) ⟨?_, ?_⟩ ?_
                        · intro hc
                          rw [hv3] at hc
                          simp at hc
                        · intro s hs
                          rw [hv3] at hs
                          simp only [List.tail_cons] at hs
                          rcases List.mem_cons.mp hs with rfl | hs2
                          · exact Or.inr rfl
                          rcases List.mem_cons.mp hs2 with rfl | hs3
                          · exact Or.inr rfl
                          · exact hInv2 s hs3
                        · have e3 : pmu (readArrayBegin p2) =
                              16 * pm (readArrayBegin p2) +
                              stackWeight (ParseState.valueBegin ::
                                ParseState.vectorElemEnd ::
                                ParseState.vectorElemEnd :: rest) := pmu_eq _ _ hv3
                          have w3 : stackWeight (ParseState.valueBegin ::
                              ParseState.vectorElemEnd ::
                              ParseState.vectorElemEnd :: rest) =
                              5 + (3 + (3 + stackWeight rest)) := rfl
                          omega
                  · -- a scalar was read: the scanner moved strictly
                    have hpm2lt : pm p2 < pm p1 := hstrict2 hnt1 hch1 hv2
                    refine ih F2 (by omega) p2 ⟨?_, ?_⟩ ?_
                    · intro hc
                      rw [hv2] at hc
                      simp at hc
                    · intro s hs
                      rw [hv2] at hs
                      simp only [List.tail_cons] at hs
                      rcases List.mem_cons.mp hs with rfl | hs2
                      · exact Or.inr rfl
                      · exact hInv2 s hs2
                    · have e2 : pmu p2 = 16 * pm p2 +
                          stackWeight (ParseState.valueEnd ::
                            ParseState.vectorElemEnd :: rest) := pmu_eq _ _ hv2
                      have w2 : stackWeight (ParseState.valueEnd ::
                          ParseState.vectorElemEnd :: rest) =
                          1 + (3 + stackWeight rest) := rfl
                      omega


theorem data_next (p : Parser) : (next p).data = p.data := (sameShape_next p).1

theorem data_setTopParent (p : Parser) (f : DecodeParent → DecodeParent) :
    (setTopParent p f).data = p.data := rfl

theorem data_pushState (p : Parser) (s : ParseState) :
    (pushState p s).data = p.data := rfl

theorem data_pushParent (p : Parser) (d : DecodeParent) :
    (pushParent p d).data = p.data := rfl

theorem data_white (p : Parser) : (white p).2.data = p.data :=
  (sameShape_white p).1

theorem pm_le_len (x : Parser) : pm x ≤ x.data.length + 2 := by
  unfold pm
  split <;> omega

theorem pm_withoutBraces (x : Parser) :
    pm { x with withoutBraces := true } = pm x := rfl

theorem vState_withoutBraces (x : Parser) :
    ({ x with withoutBraces := true } : Parser).vState = x.vState := rfl

theorem data_rootDispatch (p : Parser) : (rootDispatch p).data = p.data := by
  unfold rootDispatch
  dsimp only
  split
  · rw [data_pushState, data_setTopParent, data_white, data_pushParent]
  · split
    · rw [data_pushState]
      dsimp only
      rw [data_setTopParent, data_white, data_pushParent]
    · rw [data_pushState, data_setTopParent, data_white, data_pushParent]

/-- `_rootValue`'s dispatch sets up a singleton state stack satisfying the
loop invariant. -/
theorem stackInv_rootDispatch (p : Parser) (h : p.vState = []) :
    stackInv (rootDispatch p) := by
  have hb : ∀ f, (Parser.vState (setTopParent
      (white (pushParent p { isRoot := true })).2 f)) = [] := by
    intro f
    rw [vState_setTopParent, vState_white, vState_pushParent, h]
  unfold rootDispatch
  dsimp only
  split
  · rename_i h91
    refine ⟨fun _ => ?_, fun s hs => ?_⟩
    · rw [ch_pushState]
      exact h91
    · simp only [vState_pushState, List.tail_cons] at hs
      rw [hb _] at hs
      exact absurd hs (List.not_mem_nil s)
  · split
    · refine ⟨fun hc => ?_, fun s hs => ?_⟩
      · simp only [vState_pushState] at hc
        simp at hc
      · simp only [vState_pushState, List.tail_cons] at hs
        rw [hb _] at hs
        exact absurd hs (List.not_mem_nil s)
    · refine ⟨fun hc => ?_, fun s hs => ?_⟩
      · simp only [vState_pushState] at hc
        simp at hc
      · simp only [vState_pushState, List.tail_cons] at hs
        rw [hb _] at hs
        exact absurd hs (List.not_mem_nil s)

theorem pmu_rootDispatch_le (p : Parser) (h : p.vState = []) :
    pmu (rootDispatch p) ≤ 16 * pm p + 3 := by
  have hb : ∀ f, (Parser.vState (setTopParent
      (white (pushParent p { isRoot := true })).2 f)) = [] := by
    intro f
    rw [vState_setTopParent, vState_white, vState_pushParent, h]
  have hpm : ∀ f, pm (setTopParent (white (pushParent p { isRoot := true })).2 f) ≤
      pm p := by
    intro f
    rw [pm_setTopParent]
    refine le_trans (pm_white_le _) ?_
    exact le_of_eq (pm_pushParent _ _)
  unfold rootDispatch
  dsimp only
  split
  · rw [pmu, pm_pushState, vState_pushState, hb _]
    exact Nat.add_le_add (Nat.mul_le_mul (le_refl 16) (hpm _)) (Nat.le_refl 3)
  · split
    · rw [pmu, pm_pushState, vState_pushState]
      rw [pm_withoutBraces, vState_withoutBraces, hb _]
      exact Nat.add_le_add (Nat.mul_le_mul (le_refl 16) (hpm _)) (Nat.le_refl 3)
    · rw [pmu, pm_pushState, vState_pushState, hb _]
      exact Nat.add_le_add (Nat.mul_le_mul (le_refl 16) (hpm _)) (Nat.le_refl 3)

/-- `_rootValue`'s braceless retry also starts from an invariant state. -/
theorem stackInv_retryStart (p : Parser) : stackInv (retryStart p) := by
  constructor
  · intro hc
    simp only [retryStart, vState_pushState] at hc
    simp at hc
  · intro s hs
    simp only [retryStart, vState_pushState, List.tail_cons] at hs
    have hv : (Parser.vState (resetAt { p with vParent := [], vState := [] })) =
        [] := by
      unfold resetAt
      rw [vState_next]
    rw [hv] at hs
    exact absurd hs (List.not_mem_nil s)

theorem pmu_retryStart_le (p : Parser) :
    pmu (retryStart p) ≤ 16 * (p.data.length + 2) + 5 := by
  unfold retryStart
  rw [pmu, pm_pushState, vState_pushState]
  have hv : (Parser.vState (resetAt { p with vParent := [], vState := [] })) =
      [] := by
    unfold resetAt
    rw [vState_next]
  rw [hv]
  have h1 : pm (resetAt { p with vParent := [], vState := [] }) ≤
      p.data.length + 2 := by
    refine le_trans (pm_le_len _) ?_
    have hd : (Parser.data (resetAt { p with vParent := [], vState := [] })) =
        p.data := by
      unfold resetAt
      rw [data_next]
    rw [hd]
  have w : stackWeight [ParseState.valueBegin] = 5 := rfl
  omega

/-- Each `try` block of `_rootValue` runs the loop within its fuel. -/
theorem rootAttempt_nf (tn : List Nat → Option Value) (fuel : Nat) (p : Parser)
    (hInv : stackInv p) (hF : pmu p < fuel) :
    rootAttempt tn fuel p ≠ .error .fuelOut := by
  intro hc
  unfold rootAttempt at hc
  split at hc
  · rename_i e heq
    injection hc with hc
    exact parseLoopFuel_nf tn fuel p hInv hF (hc ▸ heq)
  · rename_i p1 heq
    dsimp only at hc
    split at hc
    · injection hc with hc
      exact Err.noConfusion hc
    · exact Except.noConfusion hc

/-- C9: the dispatch loop terminates — under the fuel `Unmarshal` allots
(`fuelFor`), the machine never exhausts it, for any input and options. -/
theorem claim_C9 (tn : List Nat → Option Value) (options : DecoderOptions)
    (data : List Nat) : Unmarshal tn options data ≠ .error .fuelOut := by
  have hd0 : (Parser.data (initParser options data)) = data := by
    unfold initParser
    dsimp only
    unfold resetAt
    rw [data_next]
  have hv0 : (Parser.vState (initParser options data)) = [] := by
    unfold initParser
    dsimp only
    unfold resetAt
    rw [vState_next]
  have hInv1 : stackInv (rootDispatch (initParser options data)) :=
    stackInv_rootDispatch _ hv0
  have hb1 : pmu (rootDispatch (initParser options data)) < fuelFor data := by
    refine lt_of_le_of_lt (pmu_rootDispatch_le _ hv0) ?_
    have h := pm_le_len (initParser options data)
    rw [hd0] at h
    unfold fuelFor
    omega
  have hInv2 : stackInv (retryStart (rootDispatch (initParser options data))) :=
    stackInv_retryStart _
  have hb2 : pmu (retryStart (rootDispatch (initParser options data))) <
      fuelFor data := by
    refine lt_of_le_of_lt (pmu_retryStart_le _) ?_
    rw [data_rootDispatch, hd0]
    unfold fuelFor
    omega
  have h1 := rootAttempt_nf tn (fuelFor data) _ hInv1 hb1
  have h2 := rootAttempt_nf tn (fuelFor data) _ hInv2 hb2
  intro hc
  unfold Unmarshal rootValue at hc
  split at hc
  · unfold rootFinish at hc
    split at hc
    · exact Except.noConfusion hc
    · exact Except.noConfusion hc
  · rename_i e1 heq
    split at hc
    · split at hc
      · unfold rootFinish at hc
        split at hc
        · exact Except.noConfusion hc
        · exact Except.noConfusion hc
      · injection hc with hc
        exact Err.noConfusion hc
      · rename_i e heq2
        injection hc with hc
        exact h2 (hc ▸ heq2)
    · injection hc with hc
      exact Err.noConfusion hc
  · rename_i e heq
    injection hc with hc
    exact h1 (hc ▸ heq)

end Hjson
